import Mathlib

/-!
# Xilinx Video Buffer Manager (xvbm): buffer pool

A shallow embedding of `lib/xvbm.cpp` and `lib/xvbm_private.h`.

* A `World` holds the one `XvbmBufferPool` object, the heap of `XvbmBuffer`
  objects it created (a buffer pointer is the index of its heap cell, a deleted
  object is an empty cell), host and device memory, and the log of the calls
  made to the external collaborators (`posix_memalign`, `free` and the `xcl*`
  functions of the device runtime, and the error message of
  `xvbm_buffer_refcnt_inc`).
* `uint32_t` arithmetic is arithmetic modulo `2^32`; `size_t` is modulo `2^64`.
* The results of the external collaborators come from a `BufEnv` given to every
  buffer creation.
* A result `none` of an operation stands for undefined behaviour of the C++
  code (a dangling or null pointer is dereferenced, signed overflow, `memcpy`
  on overlapping regions, a staged transfer outside the host mirror).
* `assert` is compiled out (`NDEBUG`): this is the build in which the explicit
  checks that follow each `assert` in the source can be reached.
* The semantics is sequential. The lock discipline is described apart from
  it, by the trace of lock operations and shared accesses of each call.
-/

namespace Xvbm

/-! ## Machine constants -/

/-- Number of values of a `uint32_t`. -/
def UINT32_MOD : Nat := 4294967296

/-- Largest `uint32_t`. -/
def UINT32_MAX : Nat := 4294967295

/-- The `uint32_t` decrement `x--`: it wraps from 0 to `2^32 - 1`. -/
def decU32 (x : Nat) : Nat := if x = 0 then UINT32_MAX else x - 1

/-- The `uint32_t` increment `++x`. -/
def incU32 (x : Nat) : Nat := (x + 1) % UINT32_MOD

/-- Number of values of a `size_t` (64-bit target). -/
def SIZE_MOD : Nat := 18446744073709551616

/-- Largest `int32_t`. -/
def INT32_MAX : Int := 2147483647

/-- Smallest `int32_t`. -/
def INT32_MIN : Int := -2147483648

/-- Failure value of `xclAllocBO` (`xclhal2.h`). -/
def NULLBO : Nat := 4294967295

/-- Conversion of an `int32_t` to `uint32_t`. -/
def toUInt32 (i : Int) : Nat := (i % 4294967296).toNat

/-! ## Data model -/

/-- The struct `XvbmBuffer` of `xvbm_private.h` (the mutex is not modelled).
`m_p_handle = none` is a null pool handle, `m_hptr = 0` a null host pointer. -/
structure XvbmBuffer where
  m_p_handle : Option Nat
  m_bo_handle : Nat
  m_buffer_id : Nat
  m_size : Nat
  m_paddr : Nat
  m_hptr : Nat
  m_ref_cnt : Nat
deriving DecidableEq, Repr

/-- The struct `XvbmBufferPool` of `xvbm_private.h` (the mutex is not modelled).
Buffer pointers are heap indices; `m_paddr_map` is the `std::map` as an
association list with unique keys (its iteration order is never observed). -/
structure XvbmBufferPool where
  m_dev_handle : Nat
  m_num_buffers : Int
  m_size : Nat
  m_flags : Nat
  m_offsets : List Nat
  m_ref_cnt : Nat
  m_alloc_vector : List Nat
  m_paddr_map : List (Nat × Nat)
  m_free_list : List Nat
  m_inuse_list : List Nat
deriving DecidableEq, Repr

/-- Calls made to the external collaborators, in the order they are made.
The two allocation events record successful allocations only: the host region
that `posix_memalign` returned and the block that `xclAllocBO` returned.
`cerr_refcnt_inc_free` is the error message that `xvbm_buffer_refcnt_inc`, a
function without a result, prints on `std::cerr` for a buffer with count 0;
the messages of the functions that report through their result are not
logged. -/
inductive Event where
  | posix_memalign (ptr : Nat)
  | free (ptr : Nat)
  | xclAllocBO (bo : Nat)
  | xclFreeBO (bo : Nat)
  | xclWriteBO (bo src size seek : Nat)
  | xclReadBO (bo dst size skip : Nat)
  | cerr_refcnt_inc_free (buffer : Nat)
deriving DecidableEq, Repr

/-- The program state: the pool object at address `pool_addr` (deleted or not),
the heap of buffer objects, host memory and device memory as lists of byte
writes (newest first; a location never written reads as 0), and the log of
external calls. -/
structure World where
  pool : XvbmBufferPool
  pool_addr : Nat
  pool_deleted : Bool
  heap : List (Option XvbmBuffer)
  host : List (Nat × Nat)
  dev : List ((Nat × Nat) × Nat)
  log : List Event
deriving DecidableEq, Repr

/-- Results of the external calls of one `create_buffer`: the return value of
`posix_memalign` and the 4K page of the pointer it stores, the handle returned
by `xclAllocBO`, the address returned by `xclGetDeviceAddr`, and the return
value of the `xclWriteBO` of the initial write. -/
structure BufEnv where
  memalign_rc : Int
  host_page : Nat
  bo_handle : Nat
  paddr : Nat
  write_rc : Int
deriving DecidableEq, Repr

/-- The pointer that `posix_memalign(&host_ptr, ALIGN_4K, m_size)` stores: a
multiple of 4096. -/
def BufEnv.host_ptr (e : BufEnv) : Nat := 4096 * e.host_page

/-- Dereference a buffer pointer: `none` when the object does not exist. -/
def World.deref (w : World) (buffer : Nat) : Option XvbmBuffer :=
  w.heap.getD buffer none

/-- Store a new value of the buffer object at `buffer`. -/
def World.setBuf (w : World) (buffer : Nat) (b : XvbmBuffer) : World :=
  { w with heap := w.heap.set buffer (some b) }

/-- The statement `delete buffer`. -/
def World.deleteBuf (w : World) (buffer : Nat) : World :=
  { w with heap := w.heap.set buffer none }

/-- Record one external call. -/
def World.emit (w : World) (e : Event) : World :=
  { w with log := w.log ++ [e] }

/-- A pool handle that points to the live pool object. -/
def World.poolLive (w : World) (p : Nat) : Bool :=
  p = w.pool_addr && !w.pool_deleted

/-! ## Memory and the device runtime -/

/-- Byte of host memory at address `a`. -/
def hostRead (host : List (Nat × Nat)) (a : Nat) : Nat :=
  (host.lookup a).getD 0

/-- Write the bytes `bs` to host memory from address `a` on. -/
def hostStore (host : List (Nat × Nat)) (a : Nat) (bs : List Nat) : List (Nat × Nat) :=
  (bs.enum.map fun ib => (a + ib.1, ib.2)) ++ host

/-- The `n` bytes of host memory from address `a` on. -/
def hostLoad (host : List (Nat × Nat)) (a n : Nat) : List Nat :=
  (List.range n).map fun i => hostRead host (a + i)

/-- Byte of device block `bo` at offset `off`. -/
def devRead (dev : List ((Nat × Nat) × Nat)) (bo off : Nat) : Nat :=
  (dev.lookup (bo, off)).getD 0

/-- Write the bytes `bs` to device block `bo` from offset `off` on. -/
def devStore (dev : List ((Nat × Nat) × Nat)) (bo off : Nat) (bs : List Nat) :
    List ((Nat × Nat) × Nat) :=
  (bs.enum.map fun ib => ((bo, off + ib.1), ib.2)) ++ dev

/-- The `n` bytes of device block `bo` from offset `off` on. -/
def devLoad (dev : List ((Nat × Nat) × Nat)) (bo off n : Nat) : List Nat :=
  (List.range n).map fun i => devRead dev bo (off + i)

/-- The C library `memset(p, c, n)`. -/
def memset (w : World) (p c n : Nat) : World :=
  { w with host := hostStore w.host p (List.replicate n c) }

/-- The regions of `n` bytes at `a` and at `b` have a byte in common. -/
def overlaps (a b n : Nat) : Prop := a < b + n ∧ b < a + n

instance (a b n : Nat) : Decidable (overlaps a b n) := by
  unfold overlaps
  infer_instance

/-- The C library `memcpy(dst, src, n)`: undefined (`none`) when the two
regions overlap. -/
def memcpy (w : World) (dst src n : Nat) : Option World :=
  if overlaps dst src n then none
  else some { w with host := hostStore w.host dst (hostLoad w.host src n) }

/-- The device runtime `xclWriteBO(dev, bo, src, size, seek)`, as a byte store:
the call is logged; when it succeeds (`rc = 0`) the bytes at `src` are copied
into the block, when it fails nothing is transferred. Returns `rc`. -/
def xclWriteBO (w : World) (bo src size seek : Nat) (rc : Int) : Int × World :=
  let w1 := w.emit (Event.xclWriteBO bo src size seek)
  if rc = 0 then (rc, { w1 with dev := devStore w1.dev bo seek (hostLoad w1.host src size) })
  else (rc, w1)

/-- The device runtime `xclReadBO(dev, bo, dst, size, skip)`, as a byte store:
the call is logged; when it succeeds (`rc = 0`) the bytes of the block are
copied to `dst`, when it fails nothing is transferred. Returns `rc`. -/
def xclReadBO (w : World) (bo dst size skip : Nat) (rc : Int) : Int × World :=
  let w1 := w.emit (Event.xclReadBO bo dst size skip)
  if rc = 0 then (rc, { w1 with host := hostStore w1.host dst (devLoad w1.dev bo skip size) })
  else (rc, w1)

/-! ## Buffer methods -/

/-- The method `XvbmBuffer::write_buffer(src, size, offset)` on the object `b`;
`rc` is what `xclWriteBO` returns if it is called. On the staged path the
result is undefined (`none`) when the staging window of `size` bytes at
`m_hptr + offset` leaves the host mirror of `m_size` bytes (possible only when
`size + offset` wrapped) or when `memcpy` is. -/
def XvbmBuffer.write_buffer (b : XvbmBuffer) (w : World) (src size offset : Nat) (rc : Int) :
    Option (Int × World) :=
  if b.m_size < (size + offset) % SIZE_MOD then some (-1, w)
  else if src % 4096 ≠ 0 then
    if b.m_size < size + offset then none
    else
      let aligned_src := b.m_hptr + offset
      match memcpy w aligned_src src size with
      | none => none
      | some w1 => some (xclWriteBO w1 b.m_bo_handle aligned_src size offset rc)
  else
    some (xclWriteBO w b.m_bo_handle src size offset rc)

/-- The method `XvbmBuffer::read_buffer(dst, size, offset)` on the object `b`;
`rc` is what `xclReadBO` returns if it is called. On the staged path the
result is undefined (`none`) when the staging window of `size` bytes at
`m_hptr + offset` leaves the host mirror of `m_size` bytes (possible only when
`size + offset` wrapped) or when `memcpy` is. -/
def XvbmBuffer.read_buffer (b : XvbmBuffer) (w : World) (dst size offset : Nat) (rc : Int) :
    Option (Int × World) :=
  if b.m_size < (size + offset) % SIZE_MOD then some (-1, w)
  else if b.m_ref_cnt ≠ 0 then
    if dst % 4096 ≠ 0 then
      if b.m_size < size + offset then none
      else
        let aligned_dst := b.m_hptr + offset
        let r := xclReadBO w b.m_bo_handle aligned_dst size offset rc
        if r.1 = 0 then
          match memcpy r.2 dst aligned_dst size with
          | none => none
          | some w1 => some (r.1, w1)
        else some r
    else
      some (xclReadBO w b.m_bo_handle dst size offset rc)
  else some (0, w)

/-! ## Pool methods -/

/-- The `std::map::insert` on `m_paddr_map`: an existing key keeps its value. -/
def paddrInsert (m : List (Nat × Nat)) (paddr buffer : Nat) : List (Nat × Nat) :=
  if (m.lookup paddr).isSome then m else m ++ [(paddr, buffer)]

/-- The method `XvbmBufferPool::create_buffer(index)`. The first component of
the result is the new buffer, or `none` when `std::bad_alloc` is thrown. The
initial write has a defined result: its source `host_ptr` is 4K-aligned, so
`write_buffer` takes the direct path. -/
def create_buffer (w : World) (index : Int) (e : BufEnv) : Option Nat × World :=
  if e.memalign_rc ≠ 0 then (none, w)
  else
    let host_ptr := e.host_ptr
    let w1 := memset (w.emit (Event.posix_memalign host_ptr)) host_ptr 0 w.pool.m_size
    let bo_handle := e.bo_handle
    if bo_handle = NULLBO then (none, w1)
    else
      let w2 := w1.emit (Event.xclAllocBO bo_handle)
      let paddr := e.paddr
      let buffer := w2.heap.length
      let b : XvbmBuffer :=
        { m_p_handle := some w2.pool_addr, m_bo_handle := bo_handle,
          m_buffer_id := toUInt32 index, m_size := w2.pool.m_size, m_paddr := paddr,
          m_hptr := host_ptr, m_ref_cnt := 0 }
      let w3 : World := { w2 with heap := w2.heap ++ [some b] }
      match b.write_buffer w3 host_ptr w3.pool.m_size 0 e.write_rc with
      | none => (none, w3) -- not reached, see `write_buffer_direct`
      | some r =>
        if r.1 ≠ 0 then
          (none, (r.2.deleteBuf buffer).emit (Event.free host_ptr))
        else
          let w4 := r.2
          (some buffer,
            { w4 with pool :=
              { w4.pool with
                m_alloc_vector := w4.pool.m_alloc_vector ++ [buffer]
                m_paddr_map := paddrInsert w4.pool.m_paddr_map paddr buffer
                m_free_list := w4.pool.m_free_list ++ [buffer] } })

/-- The loop `for (i = first; i < first + n; i++) create_buffer(i)` of `create`
and `extend`; the creation number `k` and up use the environments `env k`,
`env (k+1)`, ... The result is `false` when a creation threw (the loop stops
there), `true` when the loop ran to its end. -/
def create_loop (w : World) (first : Int) (env : Nat → BufEnv) (k : Nat) : Nat → Bool × World
  | 0 => (true, w)
  | n + 1 =>
    match create_buffer w first (env k) with
    | (none, w1) => (false, w1)
    | (some _, w1) => create_loop w1 (first + 1) env (k + 1) n

/-- The method `XvbmBufferPool::create()`: `false` when `std::bad_alloc` is
thrown. -/
def create (w : World) (env : Nat → BufEnv) : Bool × World :=
  create_loop w 0 env 0 w.pool.m_num_buffers.toNat

/-- The loop body of `destroy_l` over the free list: every buffer is released
to the device runtime, its host mirror is freed, and the object is deleted. -/
def release_all (w : World) : List Nat → Option World
  | [] => some w
  | buf :: rest =>
    match w.deref buf with
    | none => none
    | some b =>
      let w1 := w.emit (Event.xclFreeBO b.m_bo_handle)
      let w2 := if b.m_hptr ≠ 0 then w1.emit (Event.free b.m_hptr) else w1
      release_all (w2.deleteBuf buf) rest

/-- The method `XvbmBufferPool::destroy_l()`. -/
def destroy_l (w : World) : Option (Bool × World) :=
  let w1 : World :=
    { w with pool := { w.pool with m_ref_cnt := decU32 w.pool.m_ref_cnt } }
  if w1.pool.m_ref_cnt = 0 then
    if w1.pool.m_inuse_list.length ≠ 0 ∨
        w1.pool.m_free_list.length ≠ w1.pool.m_alloc_vector.length then
      some (false, w1)
    else
      match release_all w1 w1.pool.m_free_list with
      | none => none
      | some w2 => some (true, { w2 with pool := { w2.pool with m_free_list := [] } })
  else some (false, w1)

/-- The statement `if (des) delete this;`. -/
def deleteThis (des : Bool) (w : World) : World :=
  if des then { w with pool_deleted := true } else w

/-- The method `XvbmBufferPool::destroy()`. -/
def destroy (w : World) : Option World :=
  match destroy_l w with
  | none => none
  | some (des, w1) => some (deleteThis des w1)

/-- The method `XvbmBufferPool::extend(num_buffers)`: the inner `none` stands
for `std::bad_alloc` thrown, otherwise the returned `m_num_buffers`. Signed
overflow of `m_num_buffers + num_buffers` is undefined behaviour. -/
def extend (w : World) (num_buffers : Int) (env : Nat → BufEnv) : Option (Option Int × World) :=
  let total := w.pool.m_num_buffers + num_buffers
  if total < INT32_MIN ∨ INT32_MAX < total then none
  else
    match create_loop w w.pool.m_num_buffers env 0 num_buffers.toNat with
    | (false, w1) => some (none, w1)
    | (true, w1) =>
      let w2 : World := { w1 with pool := { w1.pool with m_num_buffers := total } }
      some (some w2.pool.m_num_buffers, w2)

/-- The method `XvbmBufferPool::entry_alloc()`: the result is the buffer, or
`none` for `NULL`. -/
def entry_alloc (w : World) : Option (Option Nat × World) :=
  match w.pool.m_free_list with
  | [] => some (none, w)
  | buffer :: rest =>
    match w.deref buffer with
    | none => none
    | some b =>
      let w1 := w.setBuf buffer { b with m_ref_cnt := incU32 b.m_ref_cnt }
      some (some buffer,
        { w1 with pool :=
          { w1.pool with
            m_free_list := rest
            m_inuse_list := w1.pool.m_inuse_list ++ [buffer]
            m_ref_cnt := incU32 w1.pool.m_ref_cnt } })

/-- The method `XvbmBufferPool::entry_free(buffer)`. -/
def entry_free (w : World) (buffer : Nat) : Option (Bool × World) :=
  match w.deref buffer with
  | none => none
  | some b =>
    if b.m_ref_cnt > 0 then
      let w1 := w.setBuf buffer { b with m_ref_cnt := b.m_ref_cnt - 1 }
      if b.m_ref_cnt - 1 = 0 then
        if buffer ∈ w1.pool.m_inuse_list then
          let w2 : World :=
            { w1 with pool :=
              { w1.pool with
                m_inuse_list := w1.pool.m_inuse_list.erase buffer
                m_free_list := w1.pool.m_free_list ++ [buffer] } }
          match destroy_l w2 with
          | none => none
          | some (des, w3) => some (true, deleteThis des w3)
        else some (false, w1)
      else some (false, w1)
    else some (false, w)

/-- The method `XvbmBufferPool::get_handle_by_paddr(paddr)`. -/
def get_handle_by_paddr (w : World) (paddr : Nat) : Option Nat :=
  w.pool.m_paddr_map.lookup paddr

/-! ## Public functions -/

/-- The constructor `XvbmBufferPool(dev_handle, num_buffers, size, flags)` in a
program that has no other object yet; the pool object is at address 1. -/
def newPool (d_handle : Nat) (num_buffers : Int) (size flags : Nat) : World :=
  { pool :=
      { m_dev_handle := d_handle, m_num_buffers := num_buffers, m_size := size,
        m_flags := flags, m_offsets := [], m_ref_cnt := 1, m_alloc_vector := [],
        m_paddr_map := [], m_free_list := [], m_inuse_list := [] }
    pool_addr := 1, pool_deleted := false, heap := [], host := [], dev := [], log := [] }

/-- The function `xvbm_buffer_pool_create`: the pool handle, or `none` for the
null handle returned when `create()` threw. -/
def xvbm_buffer_pool_create (d_handle : Nat) (num_buffers : Int) (size flags : Nat)
    (env : Nat → BufEnv) : Option Nat × World :=
  let w := newPool d_handle num_buffers size flags
  match create w env with
  | (false, w1) => (none, w1)
  | (true, w1) => (some w1.pool_addr, w1)

/-- The function `xvbm_buffer_pool_entry_alloc`. -/
def xvbm_buffer_pool_entry_alloc (w : World) (p_handle : Option Nat) :
    Option (Option Nat × World) :=
  match p_handle with
  | none => none
  | some p => if w.poolLive p then entry_alloc w else none

/-- The function `xvbm_buffer_pool_entry_free`. -/
def xvbm_buffer_pool_entry_free (w : World) (b_handle : Option Nat) : Option (Bool × World) :=
  match b_handle with
  | none => some (true, w)
  | some buffer =>
    match w.deref buffer with
    | none => none
    | some b =>
      match b.m_p_handle with
      | none => some (true, w)
      | some p => if w.poolLive p then entry_free w buffer else none

/-- The function `xvbm_buffer_pool_destroy`. -/
def xvbm_buffer_pool_destroy (w : World) (p_handle : Option Nat) : Option World :=
  match p_handle with
  | none => some w
  | some p => if w.poolLive p then destroy w else none

/-- The function `xvbm_buffer_pool_extend`: the caught `std::bad_alloc` gives
the result 0. -/
def xvbm_buffer_pool_extend (w : World) (b_handle : Option Nat) (num_buffers : Int)
    (env : Nat → BufEnv) : Option (Int × World) :=
  match b_handle with
  | none => none
  | some buffer =>
    match w.deref buffer with
    | none => none
    | some b =>
      match b.m_p_handle with
      | none => none
      | some p =>
        if w.poolLive p then
          match extend w num_buffers env with
          | none => none
          | some (none, w1) => some (0, w1)
          | some (some ret, w1) => some (ret, w1)
        else none

/-- The function `xvbm_buffer_refcnt_inc`. On a buffer with count 0 it prints
`Error : Can not increment ref count of a free buffer` and returns. -/
def xvbm_buffer_refcnt_inc (w : World) (b_handle : Option Nat) : Option World :=
  match b_handle with
  | none => none
  | some buffer =>
    match w.deref buffer with
    | none => none
    | some b =>
      match b.m_p_handle with
      | none => none
      | some p =>
        if w.poolLive p then
          if b.m_ref_cnt ≤ 0 then some (w.emit (Event.cerr_refcnt_inc_free buffer))
          else some (w.setBuf buffer { b with m_ref_cnt := incU32 b.m_ref_cnt })
        else none

/-- The function `xvbm_buffer_get_id`. -/
def xvbm_buffer_get_id (w : World) (b_handle : Option Nat) : Option Nat :=
  match b_handle with
  | none => none
  | some buffer => (w.deref buffer).map fun b => b.m_buffer_id

/-- The function `xvbm_buffer_get_size`. -/
def xvbm_buffer_get_size (w : World) (b_handle : Option Nat) : Option Nat :=
  match b_handle with
  | none => none
  | some buffer => (w.deref buffer).map fun b => b.m_size

/-- The function `xvbm_buffer_get_refcnt`. -/
def xvbm_buffer_get_refcnt (w : World) (b_handle : Option Nat) : Option Nat :=
  match b_handle with
  | none => none
  | some buffer => (w.deref buffer).map fun b => b.m_ref_cnt

/-! ## Operation sequences -/

/-- One call of a public function by a client that holds the pool handle
returned by `xvbm_buffer_pool_create`. -/
inductive Op where
  | entry_alloc
  | entry_free (b_handle : Option Nat)
  | refcnt_inc (b_handle : Option Nat)
  | extend (b_handle : Option Nat) (num_buffers : Int) (env : Nat → BufEnv)
  | pool_destroy

/-- Is the operation a call of `xvbm_buffer_pool_destroy`? -/
def Op.isDestroy : Op → Bool
  | Op.pool_destroy => true
  | _ => false

/-- The state after one public call; `none` when the call has undefined
behaviour. -/
def step (w : World) : Op → Option World
  | Op.entry_alloc => (xvbm_buffer_pool_entry_alloc w (some w.pool_addr)).map Prod.snd
  | Op.entry_free b_handle => (xvbm_buffer_pool_entry_free w b_handle).map Prod.snd
  | Op.refcnt_inc b_handle => xvbm_buffer_refcnt_inc w b_handle
  | Op.extend b_handle num_buffers env =>
    (xvbm_buffer_pool_extend w b_handle num_buffers env).map Prod.snd
  | Op.pool_destroy => xvbm_buffer_pool_destroy w (some w.pool_addr)

/-- Number of `xvbm_buffer_pool_destroy` calls in a sequence of operations. -/
def destroyCount (ops : List Op) : Nat :=
  ops.countP Op.isDestroy

/-- The states reachable from a successful `xvbm_buffer_pool_create` by a
sequence of public calls without undefined behaviour, each of which satisfies
the guard `G` in the state it is made in. The sequence is recorded newest
first. -/
inductive Reach (G : World → Op → Prop) : List Op → World → Prop where
  | init (d_handle : Nat) (num_buffers : Int) (size flags : Nat) (env : Nat → BufEnv)
      (h : Nat) (w : World)
      (hnum : INT32_MIN ≤ num_buffers ∧ num_buffers ≤ INT32_MAX) (hsize : size < SIZE_MOD)
      (hcreate : xvbm_buffer_pool_create d_handle num_buffers size flags env = (some h, w)) :
      Reach G [] w
  | step (ops : List Op) (w w1 : World) (op : Op)
      (hreach : Reach G ops w) (hguard : G w op) (hstep : step w op = some w1) :
      Reach G (op :: ops) w1

/-- No restriction on the calls. -/
def anyOp : World → Op → Prop := fun _ _ => True

/-- The call is not `xvbm_buffer_pool_destroy`. -/
def noDestroy : World → Op → Prop := fun _ op => op.isDestroy = false

/-- The call does not wrap a 32-bit buffer reference count: it is not an
`xvbm_buffer_refcnt_inc` on a buffer whose count is `2^32 - 1`. -/
def noWrap : World → Op → Prop := fun w op =>
  ∀ buffer b, op = Op.refcnt_inc (some buffer) → w.deref buffer = some b →
    b.m_ref_cnt + 1 < UINT32_MOD

/-! ## Auxiliary definitions for the proofs -/

/-- The part of the state that the pool bookkeeping reads. -/
def World.core (w : World) : XvbmBufferPool × Nat × Bool × List (Option XvbmBuffer) :=
  (w.pool, w.pool_addr, w.pool_deleted, w.heap)

/-- The buffer object that `create_buffer` constructs. -/
def newBuffer (w : World) (index : Int) (e : BufEnv) : XvbmBuffer :=
  { m_p_handle := some w.pool_addr, m_bo_handle := e.bo_handle,
    m_buffer_id := toUInt32 index, m_size := w.pool.m_size, m_paddr := e.paddr,
    m_hptr := e.host_ptr, m_ref_cnt := 0 }

/-- The state of `create_buffer` after a successful `xclAllocBO`. -/
def cbAlloc (w : World) (e : BufEnv) : World :=
  (memset (w.emit (Event.posix_memalign e.host_ptr)) e.host_ptr 0 w.pool.m_size).emit
    (Event.xclAllocBO e.bo_handle)

/-- The initial write of `create_buffer`, which takes the direct path of
`write_buffer`: its status and the state after it. -/
def cbWrite (w : World) (index : Int) (e : BufEnv) : Int × World :=
  if w.pool.m_size < (w.pool.m_size + 0) % SIZE_MOD then
    (-1, { cbAlloc w e with heap := w.heap ++ [some (newBuffer w index e)] })
  else
    xclWriteBO { cbAlloc w e with heap := w.heap ++ [some (newBuffer w index e)] }
      e.bo_handle e.host_ptr w.pool.m_size 0 e.write_rc

/-- Consistency of the lists of a pool with its heap: the free list and the
in-use list together are a rearrangement of the allocation vector, which has
no duplicate; the allocated buffers are exactly the existing buffer objects,
each owned by the pool and with a count in the `uint32_t` range; free buffers
have count 0. -/
structure ListsOK (w : World) : Prop where
  perm : (w.pool.m_free_list ++ w.pool.m_inuse_list).Perm w.pool.m_alloc_vector
  nodup : w.pool.m_alloc_vector.Nodup
  valid : ∀ p ∈ w.pool.m_alloc_vector, ∃ b, w.deref p = some b
  owner : ∀ p b, w.deref p = some b →
    p ∈ w.pool.m_alloc_vector ∧ b.m_p_handle = some w.pool_addr ∧ b.m_ref_cnt < UINT32_MOD
  freeZero : ∀ p ∈ w.pool.m_free_list, ∀ b, w.deref p = some b → b.m_ref_cnt = 0

/-- The pool counter counts the in-use buffers plus the creation reference,
minus the `d` releases of the creation reference, in `uint32_t` arithmetic. -/
def CntOK (d : Nat) (w : World) : Prop :=
  (w.pool.m_ref_cnt + d) % UINT32_MOD = (w.pool.m_inuse_list.length + 1) % UINT32_MOD ∧
  w.pool.m_ref_cnt < UINT32_MOD

/-- The external calls that `release_all` makes for the buffers `l`. -/
def releaseEvents (w : World) (l : List Nat) : List Event :=
  l.flatMap fun p =>
    match w.deref p with
    | none => []
    | some b =>
      if b.m_hptr ≠ 0 then [Event.xclFreeBO b.m_bo_handle, Event.free b.m_hptr]
      else [Event.xclFreeBO b.m_bo_handle]

/-- The state of `destroy_l` after `m_ref_cnt--`. -/
def decCnt (w : World) : World :=
  { w with pool :=
    { w.pool with m_ref_cnt := decU32 w.pool.m_ref_cnt } }

/-- The condition under which `destroy_l` releases the buffers: the counter
reaches 0 and the leak guard passes. -/
def tearsDown (w : World) : Prop :=
  decU32 w.pool.m_ref_cnt = 0 ∧
  w.pool.m_inuse_list.length = 0 ∧
  w.pool.m_free_list.length = w.pool.m_alloc_vector.length

instance (w : World) : Decidable (tearsDown w) := by
  unfold tearsDown; infer_instance

/-- The state of `entry_free` after the count of `buffer` (object `b`) went to
0 and the buffer was moved from the in-use list to the tail of the free list,
before `destroy_l` is called. -/
def moved (w : World) (buffer : Nat) (b : XvbmBuffer) : World :=
  { w with
    heap := w.heap.set buffer (some { b with m_ref_cnt := 0 })
    pool := { w.pool with
      m_inuse_list := w.pool.m_inuse_list.erase buffer
      m_free_list := w.pool.m_free_list ++ [buffer] } }

/-- What `create_buffer` never changes. -/
def Frame (w0 w : World) : Prop :=
  w.pool.m_inuse_list = w0.pool.m_inuse_list ∧ w.pool.m_ref_cnt = w0.pool.m_ref_cnt ∧
  w.pool_addr = w0.pool_addr ∧ w.pool_deleted = w0.pool_deleted ∧
  w.pool.m_size = w0.pool.m_size ∧ w.pool.m_num_buffers = w0.pool.m_num_buffers

/-- A live pool never has counter 0 with an empty in-use list: in that state
`destroy_l` has released it. -/
def NonZero (w : World) : Prop :=
  ¬ (w.pool.m_ref_cnt = 0 ∧ w.pool.m_inuse_list = [])

/-! ## Definitions used to state the claims -/

/-- The call `xvbm_buffer_pool_entry_free(b_handle)` from state `w` to state
`w1` moved the buffer from the in-use list to the free list: its count went
from 1 to 0, it left the in-use list and, unless the call went on to tear the
pool down, it is the new tail of the free list. -/
def MovedToFree (w : World) (b_handle : Option Nat) (w1 : World) : Prop :=
  ∃ buffer b, b_handle = some buffer ∧ w.deref buffer = some b ∧ b.m_ref_cnt = 1 ∧
    buffer ∈ w.pool.m_inuse_list ∧
    w1.pool.m_inuse_list = w.pool.m_inuse_list.erase buffer ∧
    (w1.pool_deleted = false →
      w1.pool.m_free_list = w.pool.m_free_list ++ [buffer] ∧
      w1.deref buffer = some { b with m_ref_cnt := 0 })

/-- The states after a sequence of public calls, oldest first. -/
def run (w : World) : List Op → Option World
  | [] => some w
  | op :: ops => (step w op).bind fun w1 => run w1 ops

/-- A device runtime whose calls succeed: creation number `k` gets the host
region at `4096 * (k + 1)`, the block `k` and the address `4096 * k` (the block
number `2^32 - 1` would be `NULLBO`). -/
def okEnv : Nat → BufEnv := fun k =>
  { memalign_rc := 0, host_page := k + 1, bo_handle := k, paddr := 4096 * k,
    write_rc := 0 }

/-- A pool of `n` buffers of one byte, just created with `okEnv`. -/
def freshPool (n : Nat) : World :=
  (xvbm_buffer_pool_create 0 n 1 0 okEnv).2

/-- The state after the calls `ops` (oldest first) on a fresh pool of `n`
buffers; the fresh pool itself if a call has undefined behaviour. -/
def after (n : Nat) (ops : List Op) : World :=
  (run (freshPool n) ops).getD (freshPool n)

/-- The block handle released by an `xclFreeBO` call. -/
def Event.freedBO : Event → Option Nat
  | Event.xclFreeBO bo => some bo
  | _ => none

/-- The host region released by a `free` call. -/
def Event.freedPtr : Event → Option Nat
  | Event.free ptr => some ptr
  | _ => none

/-- The backend handles of the buffers `l`, one entry per buffer. -/
def boHandles (w : World) (l : List Nat) : List Nat :=
  l.filterMap fun p => (w.deref p).map fun b => b.m_bo_handle

/-- The host mirror regions of the buffers `l`: their non-null `m_hptr`, one
entry per buffer. -/
def hostMirrors (w : World) (l : List Nat) : List Nat :=
  (l.filterMap fun p => (w.deref p).map fun b => b.m_hptr).filter fun h => h ≠ 0

/-- Every in-use buffer has a count of at least 1. -/
def InUsePos (w : World) : Prop :=
  ∀ p ∈ w.pool.m_inuse_list, ∀ b, w.deref p = some b → 0 < b.m_ref_cnt

/-- The calls considered for the list invariants: `entry_alloc`, `entry_free`,
`xvbm_buffer_refcnt_inc` and `extend`, none of which wraps a 32-bit buffer
count. -/
def noWrapNoDestroy : World → Op → Prop := fun w op => noWrap w op ∧ noDestroy w op

/-- The existing buffer objects of `w` exist unchanged in `w1`. -/
def KeepsBuffers (w w1 : World) : Prop :=
  ∀ q b, w.deref q = some b → w1.deref q = some b

/-- The only buffer of `freshPool 1` with its count set to `c`. -/
def buffer0 (c : Nat) : XvbmBuffer :=
  { m_p_handle := some 1, m_bo_handle := 0, m_buffer_id := 0, m_size := 1, m_paddr := 0,
    m_hptr := 4096, m_ref_cnt := c }

/-- The results of `n` successive calls `xvbm_buffer_pool_entry_free(b_handle)`
and the state after them. -/
def freeResults (w : World) (b_handle : Option Nat) : Nat → Option (List Bool × World)
  | 0 => some ([], w)
  | n + 1 =>
    match xvbm_buffer_pool_entry_free w b_handle with
    | none => none
    | some (r, w1) => (freeResults w1 b_handle n).map fun x => (r :: x.1, x.2)

/-- The results of `xvbm_buffer_pool_entry_free` on the buffers `bs`, in that
order, and the state after them. -/
def freeAll (w : World) : List Nat → Option (List Bool × World)
  | [] => some ([], w)
  | b :: rest =>
    match xvbm_buffer_pool_entry_free w (some b) with
    | none => none
    | some (r, w1) => (freeAll w1 rest).map fun x => (r :: x.1, x.2)

/-- The results of `n` successive calls of `xvbm_buffer_pool_entry_alloc` on
the pool handle, and the state after them. -/
def allocN (w : World) : Nat → Option (List (Option Nat) × World)
  | 0 => some ([], w)
  | n + 1 =>
    match xvbm_buffer_pool_entry_alloc w (some w.pool_addr) with
    | none => none
    | some (r, w1) => (allocN w1 n).map fun x => (r :: x.1, x.2)

/-- The fields of a buffer that never change are the same in `w1` as in `w`. -/
def SameIdentity (w w1 : World) : Prop :=
  ∀ q b, w.deref q = some b →
    ∃ b1, w1.deref q = some b1 ∧ b1.m_buffer_id = b.m_buffer_id ∧ b1.m_size = b.m_size

/-- The state after `entry_alloc` took the buffer `hd` (object `b`) from the
head of the free list, whose tail is `tl`. -/
def popped (w : World) (hd : Nat) (tl : List Nat) (b : XvbmBuffer) : World :=
  { w with
    heap := w.heap.set hd (some { b with m_ref_cnt := incU32 b.m_ref_cnt })
    pool := { w.pool with
      m_free_list := tl
      m_inuse_list := w.pool.m_inuse_list ++ [hd]
      m_ref_cnt := incU32 w.pool.m_ref_cnt } }

/-- All the external calls of one buffer creation succeed. -/
def EnvOK (e : BufEnv) : Prop :=
  e.memalign_rc = 0 ∧ e.bo_handle ≠ NULLBO ∧ e.write_rc = 0

instance (e : BufEnv) : Decidable (EnvOK e) := by
  unfold EnvOK
  infer_instance

/-! ## Further public functions -/

/-- Result of `std::vector::at`: the element, or the exception
`std::out_of_range`. -/
inductive VecAt where
  | value (buffer : Nat)
  | out_of_range
deriving DecidableEq, Repr

/-- The method `XvbmBufferPool::get_buffer_handle(index)`: the body is
`m_alloc_vector.at(index)`. -/
def get_buffer_handle (w : World) (index : Nat) : VecAt × World :=
  match w.pool.m_alloc_vector[index]? with
  | some buffer => (VecAt.value buffer, w)
  | none => (VecAt.out_of_range, w)

/-- The function `xvbm_get_buffer_handle`. -/
def xvbm_get_buffer_handle (w : World) (p_handle : Option Nat) (index : Nat) :
    Option (VecAt × World) :=
  match p_handle with
  | none => none
  | some p => if w.poolLive p then some (get_buffer_handle w index) else none

/-- The function `xvbm_get_freelist_count`: `m_free_list.size()` as a
`uint32_t`. -/
def xvbm_get_freelist_count (w : World) (p_handle : Option Nat) : Option Nat :=
  match p_handle with
  | none => none
  | some p => if w.poolLive p then some (w.pool.m_free_list.length % UINT32_MOD) else none

/-- The function `xvbm_buffer_pool_num_buffers_get`. -/
def xvbm_buffer_pool_num_buffers_get (w : World) (b_handle : Option Nat) : Option Int :=
  match b_handle with
  | none => none
  | some buffer =>
    match w.deref buffer with
    | none => none
    | some b =>
      match b.m_p_handle with
      | none => none
      | some p => if w.poolLive p then some w.pool.m_num_buffers else none

/-- The function `xvbm_buffer_get_paddr`. -/
def xvbm_buffer_get_paddr (w : World) (b_handle : Option Nat) : Option Nat :=
  match b_handle with
  | none => none
  | some buffer => (w.deref buffer).map fun b => b.m_paddr

/-- The function `xvbm_buffer_get_handle`: the buffer, or `none` for `NULL`. -/
def xvbm_buffer_get_handle (w : World) (p_handle : Option Nat) (paddr : Nat) :
    Option (Option Nat) :=
  match p_handle with
  | none => none
  | some p => if w.poolLive p then some (get_handle_by_paddr w paddr) else none

/-- The function `xvbm_buffer_write`; `rc` is what `xclWriteBO` returns if it is
called. -/
def xvbm_buffer_write (w : World) (b_handle : Option Nat) (src size offset : Nat) (rc : Int) :
    Option (Int × World) :=
  match b_handle with
  | none => none
  | some buffer =>
    match w.deref buffer with
    | none => none
    | some b => b.write_buffer w src size offset rc

/-- The function `xvbm_buffer_read`; `rc` is what `xclReadBO` returns if it is
called. -/
def xvbm_buffer_read (w : World) (b_handle : Option Nat) (dst size offset : Nat) (rc : Int) :
    Option (Int × World) :=
  match b_handle with
  | none => none
  | some buffer =>
    match w.deref buffer with
    | none => none
    | some b => b.read_buffer w dst size offset rc

/-! ## Further definitions used to state the claims -/

/-- A buffer object with its count set to 0: what never changes in it. -/
def stripCnt (b : XvbmBuffer) : XvbmBuffer := { b with m_ref_cnt := 0 }

/-- The states `w` and `w1` have the same allocation sequence, address index,
recorded buffer count, buffer size and offsets, and the same buffer objects up
to their counts. -/
def SameButCount (w w1 : World) : Prop :=
  w1.pool.m_alloc_vector = w.pool.m_alloc_vector ∧
  w1.pool.m_paddr_map = w.pool.m_paddr_map ∧
  w1.pool.m_num_buffers = w.pool.m_num_buffers ∧
  w1.pool.m_size = w.pool.m_size ∧
  w1.pool.m_offsets = w.pool.m_offsets ∧
  w1.pool_addr = w.pool_addr ∧
  ∀ q, (w1.deref q).map stripCnt = (w.deref q).map stripCnt

/-- The device runtime `okEnv` for the creations number `base`, `base + 1`,
... of a pool. -/
def okEnvFrom (base : Nat) : Nat → BufEnv := fun k => okEnv (base + k)

/-- The device runtime `okEnvFrom base` in which the creation number `j` of the
call fails in `xclAllocBO`. -/
def failEnv (base j : Nat) : Nat → BufEnv := fun k =>
  if k = j then { okEnv (base + k) with bo_handle := NULLBO } else okEnv (base + k)

/-- Consistency of the address index with the allocation sequence: every entry
maps the address of an allocated buffer to that buffer, and the address of
every allocated buffer is a key. -/
structure MapOK (w : World) : Prop where
  sound : ∀ k p, w.pool.m_paddr_map.lookup k = some p →
    p ∈ w.pool.m_alloc_vector ∧ ∃ b, w.deref p = some b ∧ b.m_paddr = k
  complete : ∀ p ∈ w.pool.m_alloc_vector, ∀ b, w.deref p = some b →
    (w.pool.m_paddr_map.lookup b.m_paddr).isSome = true

/-- The device addresses of the buffers of the allocation sequence, in
creation order. -/
def paddrs (w : World) : List (Option Nat) :=
  w.pool.m_alloc_vector.map fun p => (w.deref p).map fun b => b.m_paddr

/-- The state with one buffer of one byte, allocated (count 1), in which the
caller's byte at host address 8192 holds the value 7. -/
def callerWorld : World :=
  { after 1 [Op.entry_alloc] with host := hostStore (after 1 [Op.entry_alloc]).host 8192 [7] }

/-! ## Offset table -/

/-- The method `XvbmBufferPool::set_offset(offset)`: `m_offsets.push_back`. -/
def set_offset (w : World) (offset : Nat) : World :=
  { w with pool := { w.pool with m_offsets := w.pool.m_offsets ++ [offset] } }

/-- The method `XvbmBufferPool::get_offset(offset_idx)`: the unchecked
`m_offsets[offset_idx]`, which has no defined result outside the vector. -/
def get_offset (w : World) (offset_idx : Nat) : Option Nat :=
  w.pool.m_offsets[offset_idx]?

/-- The loop `for (i = first; i < first + n; i++) pool->set_offset(offsets[i])`
of `xvbm_buffer_pool_offsets_set` on the caller's array `offsets`; a read past
the end of the array is undefined. -/
def offsets_loop (w : World) (offsets : List Nat) (first : Nat) : Nat → Option World
  | 0 => some w
  | n + 1 =>
    match offsets[first]? with
    | none => none
    | some offset => offsets_loop (set_offset w offset) offsets (first + 1) n

/-- The function `xvbm_buffer_pool_offsets_set`; the pool handle is used only
when the loop runs at least once. -/
def xvbm_buffer_pool_offsets_set (w : World) (p_handle : Option Nat) (offsets : List Nat)
    (num_offsets : Nat) : Option World :=
  if num_offsets = 0 then some w
  else
    match p_handle with
    | none => none
    | some p => if w.poolLive p then offsets_loop w offsets 0 num_offsets else none

/-- The function `xvbm_buffer_pool_offset_get`. -/
def xvbm_buffer_pool_offset_get (w : World) (b_handle : Option Nat) (offset_idx : Nat) :
    Option Nat :=
  match b_handle with
  | none => none
  | some buffer =>
    match w.deref buffer with
    | none => none
    | some b =>
      match b.m_p_handle with
      | none => none
      | some p => if w.poolLive p then get_offset w offset_idx else none

/-! ## Outstanding resources -/

/-- The host regions obtained from `posix_memalign` and not yet given to
`free`, from the log of external calls (oldest first). -/
def outstandingPtrs (log : List Event) : List Nat :=
  log.foldl (fun acc e =>
    match e with
    | Event.posix_memalign ptr => acc ++ [ptr]
    | Event.free ptr => acc.erase ptr
    | _ => acc) []

/-- The device blocks obtained from `xclAllocBO` and not yet given to
`xclFreeBO`, from the log of external calls (oldest first). -/
def outstandingBOs (log : List Event) : List Nat :=
  log.foldl (fun acc e =>
    match e with
    | Event.xclAllocBO bo => acc ++ [bo]
    | Event.xclFreeBO bo => acc.erase bo
    | _ => acc) []

/-- The error branch of `destroy_l` is taken from the state `w`: the decrement
brings the counter to 0 and the leak guard fails. -/
def leakGuard (w : World) : Prop :=
  decU32 w.pool.m_ref_cnt = 0 ∧
  (w.pool.m_inuse_list.length ≠ 0 ∨
    w.pool.m_free_list.length ≠ w.pool.m_alloc_vector.length)

instance (w : World) : Decidable (leakGuard w) := by
  unfold leakGuard
  infer_instance

/-- A pool of one buffer of eight bytes, created with `okEnv`, after one
`entry_alloc`: the buffer has count 1 and its host mirror is at 4096. -/
def pool8 : World :=
  (run (xvbm_buffer_pool_create 0 1 8 0 okEnv).2 [Op.entry_alloc]).getD (freshPool 1)

/-! ## Lock discipline

The accesses that a call makes to the shared state of the pool, in program
order, together with the acquisitions and releases of the pool-wide mutex
`m_lock` (a `std::lock_guard` acquires at its declaration and releases at the
end of its scope). The per-buffer mutex `m_rdlock` is not `m_lock` and is left
out. -/

/-- The shared state that the lock discipline is about. -/
inductive Shared where
  | free_list
  | inuse_list
  | alloc_vector
  | paddr_map
  | pool_ref_cnt
  | num_buffers
  | offsets
  | buffer_ref_cnt
deriving DecidableEq, Repr

/-- One step of a call: `m_lock` is acquired or released, or a shared object is
read or written. -/
inductive Access where
  | lock
  | unlock
  | read (s : Shared)
  | write (s : Shared)
deriving DecidableEq, Repr

/-- Every read and write of the trace happens while `m_lock` is held (`held`
says whether it is held at the start), the lock is never acquired while held
nor released while free, and it is free at the end. -/
def guardedFrom (held : Bool) : List Access → Bool
  | [] => !held
  | Access.lock :: rest => !held && guardedFrom true rest
  | Access.unlock :: rest => held && guardedFrom false rest
  | Access.read _ :: rest => held && guardedFrom held rest
  | Access.write _ :: rest => held && guardedFrom held rest

/-- The call holds `m_lock` for all its accesses to the shared state. -/
def guarded (t : List Access) : Bool := guardedFrom false t

/-- The accesses of `XvbmBufferPool::destroy_l()` in the state `w`; the caller
holds the lock. -/
def destroy_l_trace (w : World) : List Access :=
  [Access.write Shared.pool_ref_cnt, Access.read Shared.pool_ref_cnt] ++
  if decU32 w.pool.m_ref_cnt = 0 then
    if w.pool.m_inuse_list.length ≠ 0 then
      [Access.read Shared.inuse_list,
        Access.read Shared.free_list, Access.read Shared.alloc_vector,
        Access.read Shared.inuse_list]
    else if w.pool.m_free_list.length ≠ w.pool.m_alloc_vector.length then
      [Access.read Shared.inuse_list, Access.read Shared.free_list,
        Access.read Shared.alloc_vector,
        Access.read Shared.free_list, Access.read Shared.alloc_vector,
        Access.read Shared.inuse_list]
    else
      [Access.read Shared.inuse_list, Access.read Shared.free_list,
        Access.read Shared.alloc_vector,
        Access.read Shared.free_list, Access.write Shared.free_list]
  else []

/-- The accesses of `XvbmBufferPool::destroy()`: the lock guard spans the block
around `destroy_l()`. -/
def destroy_trace (w : World) : List Access :=
  [Access.lock] ++ destroy_l_trace w ++ [Access.unlock]

/-- The accesses of `XvbmBufferPool::entry_alloc()`. -/
def entry_alloc_trace (w : World) : List Access :=
  [Access.lock, Access.read Shared.free_list] ++
  (if w.pool.m_free_list.length ≠ 0 then
    [Access.read Shared.free_list, Access.write Shared.buffer_ref_cnt,
      Access.write Shared.free_list, Access.write Shared.inuse_list,
      Access.write Shared.pool_ref_cnt]
  else []) ++
  [Access.unlock]

/-- The accesses of `XvbmBufferPool::entry_free(buffer)` on the existing buffer
object `b`: the lock guard spans the block that ends before `delete this`. -/
def entry_free_trace (w : World) (buffer : Nat) (b : XvbmBuffer) : List Access :=
  [Access.lock, Access.read Shared.buffer_ref_cnt] ++
  (if b.m_ref_cnt > 0 then
    [Access.write Shared.buffer_ref_cnt, Access.read Shared.buffer_ref_cnt] ++
    (if b.m_ref_cnt - 1 = 0 then
      [Access.read Shared.inuse_list] ++
      (if buffer ∈ w.pool.m_inuse_list then
        [Access.write Shared.inuse_list, Access.write Shared.free_list] ++
        destroy_l_trace (moved w buffer b)
      else [])
    else [])
  else []) ++
  [Access.unlock]

/-- The accesses of `xvbm_buffer_refcnt_inc` on the buffer object `b`. -/
def refcnt_inc_trace (b : XvbmBuffer) : List Access :=
  [Access.lock, Access.read Shared.buffer_ref_cnt] ++
  (if b.m_ref_cnt ≤ 0 then [] else [Access.write Shared.buffer_ref_cnt]) ++
  [Access.unlock]

/-- The accesses of `XvbmBufferPool::get_handle_by_paddr`. -/
def get_handle_by_paddr_trace : List Access :=
  [Access.lock, Access.read Shared.paddr_map, Access.unlock]

/-- The accesses of `XvbmBufferPool::get_buffer_handle`. -/
def get_buffer_handle_trace : List Access :=
  [Access.lock, Access.read Shared.alloc_vector, Access.unlock]

/-- The accesses of `xvbm_get_freelist_count`: the inline
`get_freelist_count() { return m_free_list.size(); }`. -/
def get_freelist_count_trace : List Access :=
  [Access.read Shared.free_list]

/-- The accesses of `xvbm_buffer_pool_num_buffers_get`: the inline
`get_num_buffers() { return m_num_buffers; }`. -/
def get_num_buffers_trace : List Access :=
  [Access.read Shared.num_buffers]

/-- The accesses of `xvbm_buffer_get_refcnt`: `return(buffer->m_ref_cnt)`. -/
def get_refcnt_trace : List Access :=
  [Access.read Shared.buffer_ref_cnt]

/-- The accesses of `xvbm_buffer_pool_offsets_set` with `num_offsets` offsets:
one inline `set_offset`, `m_offsets.push_back(offset)`, per offset. -/
def offsets_set_trace (num_offsets : Nat) : List Access :=
  List.replicate num_offsets (Access.write Shared.offsets)

/-- The accesses of `xvbm_buffer_pool_offset_get`: the inline
`get_offset(idx) { return m_offsets[idx]; }`. -/
def get_offset_trace : List Access :=
  [Access.read Shared.offsets]

/-! # Theorems -/

/-! ## Lemmas: heap and frame -/

theorem deref_setBuf_self (w : World) (p : Nat) (b0 b : XvbmBuffer) (h : w.deref p = some b0) :
    (w.setBuf p b).deref p = some b := by
  unfold World.deref World.setBuf at *
  have hlt : p < w.heap.length := by
    by_contra hge
    simp [List.getD_eq_getElem?_getD, List.getElem?_eq_none (not_lt.mp hge)] at h
  simp [List.getD_eq_getElem?_getD, hlt]

theorem deref_setBuf_ne (w : World) (p q : Nat) (b : XvbmBuffer) (h : q ≠ p) :
    (w.setBuf p b).deref q = w.deref q := by
  unfold World.deref World.setBuf
  simp [List.getD_eq_getElem?_getD, List.getElem?_set_ne (Ne.symm h)]

theorem deref_lt (w : World) (p : Nat) (b : XvbmBuffer) (h : w.deref p = some b) :
    p < w.heap.length := by
  unfold World.deref at h
  by_contra hge
  simp [List.getD_eq_getElem?_getD, List.getElem?_eq_none (not_lt.mp hge)] at h

theorem core_emit (w : World) (e : Event) : (w.emit e).core = w.core := rfl

theorem core_memset (w : World) (p c n : Nat) : (memset w p c n).core = w.core := rfl

theorem core_memcpy (w w1 : World) (d s n : Nat) (h : memcpy w d s n = some w1) :
    w1.core = w.core := by
  unfold memcpy at h
  split at h
  · cases h
  · simp only [Option.some.injEq] at h
    rw [← h]
    rfl

theorem core_xclWriteBO (w : World) (bo src size seek : Nat) (rc : Int) :
    (xclWriteBO w bo src size seek rc).2.core = w.core := by
  unfold xclWriteBO; split <;> rfl

theorem fst_xclWriteBO (w : World) (bo src size seek : Nat) (rc : Int) :
    (xclWriteBO w bo src size seek rc).1 = rc := by
  unfold xclWriteBO; split <;> rfl

theorem core_write_buffer (b : XvbmBuffer) (w : World) (src size offset : Nat) (rc : Int)
    (r : Int × World) (h : b.write_buffer w src size offset rc = some r) :
    r.2.core = w.core := by
  unfold XvbmBuffer.write_buffer at h
  split at h
  · simp only [Option.some.injEq] at h
    rw [← h]
  · split at h
    · split at h
      · cases h
      · simp only at h
        cases hm : memcpy w (b.m_hptr + offset) src size with
        | none => rw [hm] at h; cases h
        | some w1 =>
          rw [hm] at h
          simp only [Option.some.injEq] at h
          rw [← h, core_xclWriteBO, core_memcpy w w1 _ _ _ hm]
    · simp only [Option.some.injEq] at h
      rw [← h, core_xclWriteBO]

theorem host_ptr_aligned (e : BufEnv) : e.host_ptr % 4096 = 0 := by
  unfold BufEnv.host_ptr
  exact Nat.mul_mod_right _ _

/-- With a 4K-aligned source `write_buffer` takes the direct path and has a
defined result. -/
theorem write_buffer_direct (b : XvbmBuffer) (w : World) (src size offset : Nat) (rc : Int)
    (h : src % 4096 = 0) :
    b.write_buffer w src size offset rc =
      some (if b.m_size < (size + offset) % SIZE_MOD then (-1, w)
        else xclWriteBO w b.m_bo_handle src size offset rc) := by
  unfold XvbmBuffer.write_buffer
  split
  · rfl
  · rw [if_neg (by rw [h]; exact fun h0 => h0 rfl)]

theorem core_eq_iff (w w1 : World) : w1.core = w.core ↔
    w1.pool = w.pool ∧ w1.pool_addr = w.pool_addr ∧ w1.pool_deleted = w.pool_deleted ∧
      w1.heap = w.heap := by
  unfold World.core
  simp [Prod.ext_iff]

theorem deref_of_core (w w1 : World) (h : w1.core = w.core) (p : Nat) : w1.deref p = w.deref p := by
  have := (core_eq_iff w w1).1 h
  unfold World.deref
  rw [this.2.2.2]

theorem create_buffer_eq (w : World) (index : Int) (e : BufEnv) :
    create_buffer w index e =
      if e.memalign_rc ≠ 0 then (none, w)
      else if e.bo_handle = NULLBO then
        (none, memset (w.emit (Event.posix_memalign e.host_ptr)) e.host_ptr 0 w.pool.m_size)
      else if (cbWrite w index e).1 ≠ 0 then
        (none, ((cbWrite w index e).2.deleteBuf w.heap.length).emit (Event.free e.host_ptr))
      else
        (some w.heap.length,
          { (cbWrite w index e).2 with pool :=
            { (cbWrite w index e).2.pool with
              m_alloc_vector := (cbWrite w index e).2.pool.m_alloc_vector ++ [w.heap.length]
              m_paddr_map := paddrInsert (cbWrite w index e).2.pool.m_paddr_map e.paddr
                w.heap.length
              m_free_list := (cbWrite w index e).2.pool.m_free_list ++ [w.heap.length] } }) := by
  unfold create_buffer
  simp only [write_buffer_direct _ _ _ _ _ _ (host_ptr_aligned e)]
  rfl

theorem cbWrite_core (w : World) (index : Int) (e : BufEnv) :
    (cbWrite w index e).2.pool = w.pool ∧ (cbWrite w index e).2.pool_addr = w.pool_addr ∧
    (cbWrite w index e).2.pool_deleted = w.pool_deleted ∧
    (cbWrite w index e).2.heap = w.heap ++ [some (newBuffer w index e)] := by
  have hcore : (cbWrite w index e).2.core =
      ({ cbAlloc w e with heap := w.heap ++ [some (newBuffer w index e)] } : World).core := by
    unfold cbWrite
    split
    · rfl
    · rw [core_xclWriteBO]
  exact (core_eq_iff _ _).1 hcore

theorem cbWrite_fst (w : World) (index : Int) (e : BufEnv) (hs : w.pool.m_size < SIZE_MOD) :
    (cbWrite w index e).1 = e.write_rc := by
  unfold cbWrite
  have : ¬ w.pool.m_size < (w.pool.m_size + 0) % SIZE_MOD := by
    rw [Nat.add_zero, Nat.mod_eq_of_lt hs]; exact lt_irrefl _
  rw [if_neg this]
  exact fst_xclWriteBO _ _ _ _ _ _

theorem create_buffer_some (w w1 : World) (index : Int) (e : BufEnv) (n : Nat)
    (h : create_buffer w index e = (some n, w1)) :
    n = w.heap.length ∧
    w1.pool = { w.pool with
      m_alloc_vector := w.pool.m_alloc_vector ++ [n]
      m_paddr_map := paddrInsert w.pool.m_paddr_map e.paddr n
      m_free_list := w.pool.m_free_list ++ [n] } ∧
    w1.pool_addr = w.pool_addr ∧ w1.pool_deleted = w.pool_deleted ∧
    w1.heap = w.heap ++ [some (newBuffer w index e)] := by
  rw [create_buffer_eq] at h
  obtain ⟨hp, ha, hd, hh⟩ := cbWrite_core w index e
  generalize cbWrite w index e = r at h hp ha hd hh
  split at h
  · simp at h
  · split at h
    · simp at h
    · split at h
      · simp at h
      · simp only [Prod.mk.injEq, Option.some.injEq] at h
        obtain ⟨hn, hw⟩ := h
        subst hw; subst hn
        simp only [hp, ha, hd, hh, and_self]

theorem create_buffer_none (w w1 : World) (index : Int) (e : BufEnv)
    (h : create_buffer w index e = (none, w1)) :
    w1.pool = w.pool ∧ w1.pool_addr = w.pool_addr ∧ w1.pool_deleted = w.pool_deleted ∧
    (w1.heap = w.heap ∨ w1.heap = w.heap ++ [none]) := by
  rw [create_buffer_eq] at h
  obtain ⟨hp, ha, hd, hh⟩ := cbWrite_core w index e
  generalize cbWrite w index e = r at h hp ha hd hh
  split at h
  · simp only [Prod.mk.injEq, true_and] at h
    subst h; simp
  · split at h
    · simp only [Prod.mk.injEq, true_and] at h
      subst h; simp [memset, World.emit]
    · split at h
      · simp only [Prod.mk.injEq, true_and] at h
        subst h
        refine ⟨hp, ha, hd, Or.inr ?_⟩
        simp [World.emit, World.deleteBuf, hh]
      · simp at h

theorem create_buffer_ok (w : World) (index : Int) (e : BufEnv) (hs : w.pool.m_size < SIZE_MOD)
    (h1 : e.memalign_rc = 0) (h2 : e.bo_handle ≠ NULLBO) (h3 : e.write_rc = 0) :
    ∃ w1, create_buffer w index e = (some w.heap.length, w1) := by
  rw [create_buffer_eq, cbWrite_fst w index e hs]
  simp [h1, h2, h3]

theorem deref_append_new (w w1 : World) (b : XvbmBuffer) (h : w1.heap = w.heap ++ [some b])
    (q : Nat) : w1.deref q = if q = w.heap.length then some b else w.deref q := by
  unfold World.deref
  rw [h, List.getD_eq_getElem?_getD, List.getD_eq_getElem?_getD]
  rcases Nat.lt_trichotomy q w.heap.length with hlt | heq | hgt
  · rw [List.getElem?_append_left hlt, if_neg (Nat.ne_of_lt hlt)]
  · subst heq; simp
  · rw [if_neg (Nat.ne_of_gt hgt), List.getElem?_eq_none (by simp; omega),
      List.getElem?_eq_none (by omega)]

theorem deref_append_none (w w1 : World) (h : w1.heap = w.heap ∨ w1.heap = w.heap ++ [none])
    (q : Nat) : w1.deref q = w.deref q := by
  unfold World.deref
  rcases h with h | h
  · rw [h]
  · rw [h, List.getD_eq_getElem?_getD, List.getD_eq_getElem?_getD]
    rcases Nat.lt_trichotomy q w.heap.length with hlt | heq | hgt
    · rw [List.getElem?_append_left hlt]
    · subst heq; simp
    · rw [List.getElem?_eq_none (by simp; omega), List.getElem?_eq_none (by omega)]

theorem ListsOK.of_same (w w1 : World) (h : ListsOK w) (hp : w1.pool = w.pool)
    (ha : w1.pool_addr = w.pool_addr) (hd : ∀ q, w1.deref q = w.deref q) : ListsOK w1 := by
  constructor
  · rw [hp]; exact h.perm
  · rw [hp]; exact h.nodup
  · intro p hpm; rw [hp] at hpm; rw [hd]; exact h.valid p hpm
  · intro p b hb; rw [hd] at hb; rw [hp, ha]; exact h.owner p b hb
  · intro p hpm b hb; rw [hp] at hpm; rw [hd] at hb; exact h.freeZero p hpm b hb

theorem ListsOK.lt_heap (w : World) (h : ListsOK w) (p : Nat) (hp : p ∈ w.pool.m_alloc_vector) :
    p < w.heap.length := by
  obtain ⟨b, hb⟩ := h.valid p hp
  exact deref_lt w p b hb

theorem ListsOK.mem_free (w : World) (h : ListsOK w) (p : Nat) (hp : p ∈ w.pool.m_free_list) :
    p ∈ w.pool.m_alloc_vector :=
  h.perm.subset (List.mem_append_left _ hp)

theorem ListsOK.mem_inuse (w : World) (h : ListsOK w) (p : Nat) (hp : p ∈ w.pool.m_inuse_list) :
    p ∈ w.pool.m_alloc_vector :=
  h.perm.subset (List.mem_append_right _ hp)

theorem ListsOK.lists_create_buffer (w w1 : World) (index : Int) (e : BufEnv) (r : Option Nat)
    (h : ListsOK w) (hc : create_buffer w index e = (r, w1)) : ListsOK w1 := by
  cases r with
  | none =>
    obtain ⟨hp, ha, _, hh⟩ := create_buffer_none w w1 index e hc
    exact h.of_same w w1 hp ha (deref_append_none w w1 hh)
  | some n =>
    obtain ⟨hn, hp, ha, _, hh⟩ := create_buffer_some w w1 index e n hc
    have hd := deref_append_new w w1 _ hh
    have hnot : n ∉ w.pool.m_alloc_vector := by
      intro hm; have := h.lt_heap w n hm; omega
    subst hn
    constructor
    · rw [hp]; simp only
      have h1 : (w.pool.m_free_list ++ [w.heap.length] ++ w.pool.m_inuse_list).Perm
          (w.pool.m_free_list ++ w.pool.m_inuse_list ++ [w.heap.length]) := by
        rw [List.append_assoc, List.append_assoc]
        exact List.Perm.append_left _ List.perm_append_comm
      exact h1.trans (List.Perm.append_right _ h.perm)
    · rw [hp]; simp only
      exact List.Nodup.append h.nodup (List.nodup_singleton _)
        (by intro a ha1 ha2; rw [List.mem_singleton] at ha2; exact hnot (ha2 ▸ ha1))
    · intro p hpm
      rw [hp] at hpm; simp only [List.mem_append, List.mem_singleton] at hpm
      rw [hd]
      by_cases hq : p = w.heap.length
      · simp [hq]
      · rw [if_neg hq]; exact h.valid p (hpm.resolve_right hq)
    · intro p b hb
      rw [hd] at hb
      rw [hp, ha]; simp only [List.mem_append, List.mem_singleton]
      by_cases hq : p = w.heap.length
      · rw [if_pos hq] at hb
        simp only [Option.some.injEq] at hb
        subst hb
        exact ⟨Or.inr hq, rfl, by simp [newBuffer, UINT32_MOD]⟩
      · rw [if_neg hq] at hb
        obtain ⟨h1, h2, h3⟩ := h.owner p b hb
        exact ⟨Or.inl h1, h2, h3⟩
    · intro p hpm b hb
      rw [hp] at hpm; simp only [List.mem_append, List.mem_singleton] at hpm
      rw [hd] at hb
      by_cases hq : p = w.heap.length
      · rw [if_pos hq] at hb
        simp only [Option.some.injEq] at hb
        subst hb; rfl
      · rw [if_neg hq] at hb
        exact h.freeZero p (hpm.resolve_right hq) b hb
theorem entry_alloc_nil (w : World) (h : w.pool.m_free_list = []) :
    entry_alloc w = some (none, w) := by
  unfold entry_alloc; rw [h]

theorem entry_alloc_cons (w : World) (hd : Nat) (tl : List Nat) (b : XvbmBuffer)
    (hf : w.pool.m_free_list = hd :: tl) (hb : w.deref hd = some b) :
    entry_alloc w = some (some hd,
      { w with
        heap := w.heap.set hd (some { b with m_ref_cnt := incU32 b.m_ref_cnt })
        pool := { w.pool with
          m_free_list := tl
          m_inuse_list := w.pool.m_inuse_list ++ [hd]
          m_ref_cnt := incU32 w.pool.m_ref_cnt } }) := by
  unfold entry_alloc; rw [hf]; simp only [hb]; rfl

theorem deref_set (w w1 : World) (p : Nat) (b0 b : XvbmBuffer) (h0 : w.deref p = some b0)
    (hh : w1.heap = w.heap.set p (some b)) (q : Nat) :
    w1.deref q = if q = p then some b else w.deref q := by
  have e : w1.deref q = (w.setBuf p b).deref q := by
    unfold World.deref World.setBuf; rw [hh]
  rw [e]
  by_cases hq : q = p
  · rw [if_pos hq, hq]; exact deref_setBuf_self w p b0 b h0
  · rw [if_neg hq]; exact deref_setBuf_ne w p q b hq

theorem ListsOK.nodup_lists (w : World) (h : ListsOK w) :
    (w.pool.m_free_list ++ w.pool.m_inuse_list).Nodup :=
  h.perm.nodup_iff.2 h.nodup

/-- Changing the count of one buffer that is not (or no longer) in the free
list keeps the lists consistent, whatever rearrangement of the lists is made. -/
theorem ListsOK.update (w w1 : World) (p : Nat) (b0 b : XvbmBuffer) (h : ListsOK w)
    (h0 : w.deref p = some b0) (hh : w1.heap = w.heap.set p (some b))
    (ha : w1.pool_addr = w.pool_addr)
    (hv : w1.pool.m_alloc_vector = w.pool.m_alloc_vector)
    (hperm : (w1.pool.m_free_list ++ w1.pool.m_inuse_list).Perm
      (w.pool.m_free_list ++ w.pool.m_inuse_list))
    (hb1 : b.m_p_handle = b0.m_p_handle) (hb2 : b.m_ref_cnt < UINT32_MOD)
    (hfree : ∀ q ∈ w1.pool.m_free_list, (q = p ∧ b.m_ref_cnt = 0) ∨
      (q ≠ p ∧ q ∈ w.pool.m_free_list)) : ListsOK w1 := by
  have hd := deref_set w w1 p b0 b h0 hh
  constructor
  · rw [hv]; exact hperm.trans h.perm
  · rw [hv]; exact h.nodup
  · intro q hq; rw [hv] at hq; rw [hd]
    by_cases e : q = p
    · simp [e]
    · rw [if_neg e]; exact h.valid q hq
  · intro q c hc; rw [hd] at hc; rw [hv, ha]
    by_cases e : q = p
    · rw [if_pos e] at hc; simp only [Option.some.injEq] at hc; subst hc
      obtain ⟨h1, h2, _⟩ := h.owner p b0 h0
      exact ⟨e ▸ h1, hb1 ▸ h2, hb2⟩
    · rw [if_neg e] at hc; exact h.owner q c hc
  · intro q hq c hc; rw [hd] at hc
    rcases hfree q hq with ⟨e, hz⟩ | ⟨e, hm⟩
    · rw [if_pos e] at hc; simp only [Option.some.injEq] at hc; subst hc; exact hz
    · rw [if_neg e] at hc; exact h.freeZero q hm c hc

theorem ListsOK.lists_entry_alloc (w w1 : World) (r : Option Nat) (h : ListsOK w)
    (ha : entry_alloc w = some (r, w1)) : ListsOK w1 := by
  cases hf : w.pool.m_free_list with
  | nil =>
    rw [entry_alloc_nil w hf] at ha
    simp only [Option.some.injEq, Prod.mk.injEq] at ha
    rw [← ha.2]; exact h
  | cons hd tl =>
    obtain ⟨b, hb⟩ := h.valid hd (h.mem_free w hd (by rw [hf]; exact List.mem_cons_self _ _))
    rw [entry_alloc_cons w hd tl b hf hb] at ha
    simp only [Option.some.injEq, Prod.mk.injEq] at ha
    obtain ⟨_, hw⟩ := ha
    subst hw
    have hnd := h.nodup_lists
    rw [hf] at hnd
    have hnot : hd ∉ tl := by
      rw [List.cons_append, List.nodup_cons] at hnd
      exact fun hm => hnd.1 (List.mem_append_left _ hm)
    refine h.update w _ hd b _ hb rfl rfl rfl ?_ rfl (Nat.mod_lt _ (by decide)) ?_
    · simp only [hf]
      rw [← List.append_assoc]
      exact List.perm_append_comm.trans (List.Perm.refl _)
    · intro q hq
      simp only at hq
      exact Or.inr ⟨fun e => hnot (e ▸ hq), by rw [hf]; exact List.mem_cons_of_mem _ hq⟩
theorem destroy_l_of_not (w : World) (h : ¬ tearsDown w) :
    destroy_l w = some (false, decCnt w) := by
  unfold destroy_l
  simp only
  split
  · rename_i h0
    split
    · rfl
    · rename_i hg
      exfalso; apply h
      simp only [not_or, not_not] at hg
      exact ⟨h0, hg.1, hg.2⟩
  · rfl

theorem destroy_l_of_tears (w : World) (h : tearsDown w) :
    destroy_l w = (release_all (decCnt w) w.pool.m_free_list).map
      fun w2 => (true, { w2 with pool := { w2.pool with m_free_list := [] } }) := by
  unfold destroy_l
  simp only
  rw [if_pos h.1, if_neg (by simp only [not_or, not_not]; exact ⟨h.2.1, h.2.2⟩)]
  change (match release_all (decCnt w) w.pool.m_free_list with
    | none => none
    | some w2 => some (true, { w2 with pool := { w2.pool with m_free_list := [] } })) = _
  cases release_all (decCnt w) w.pool.m_free_list <;> rfl

theorem deref_deleteBuf (w : World) (p q : Nat) :
    (w.deleteBuf p).deref q = if q = p then none else w.deref q := by
  unfold World.deref World.deleteBuf
  by_cases hq : q = p
  · rw [if_pos hq, hq]
    by_cases hlt : p < w.heap.length
    · simp [List.getD_eq_getElem?_getD, hlt]
    · have hn : (w.heap.set p none)[p]? = none :=
        List.getElem?_eq_none (by simp only [List.length_set]; omega)
      simp [List.getD_eq_getElem?_getD, hn]
  · rw [if_neg hq]
    simp [List.getD_eq_getElem?_getD, List.getElem?_set_ne (Ne.symm hq)]

theorem release_all_some (l : List Nat) : ∀ w : World, l.Nodup →
    (∀ p ∈ l, ∃ b, w.deref p = some b) →
    ∃ w1, release_all w l = some w1 ∧ w1.pool = w.pool ∧ w1.pool_addr = w.pool_addr ∧
      w1.pool_deleted = w.pool_deleted ∧ w1.host = w.host ∧ w1.dev = w.dev ∧
      w1.log = w.log ++ releaseEvents w l ∧
      ∀ q, w1.deref q = if q ∈ l then none else w.deref q := by
  induction l with
  | nil =>
    intro w _ _
    exact ⟨w, rfl, rfl, rfl, rfl, rfl, rfl, by simp [releaseEvents], by simp⟩
  | cons p rest ih =>
    intro w hnd hv
    obtain ⟨b, hb⟩ := hv p (List.mem_cons_self _ _)
    rw [List.nodup_cons] at hnd
    let w2 : World := if b.m_hptr ≠ 0 then (w.emit (Event.xclFreeBO b.m_bo_handle)).emit
      (Event.free b.m_hptr) else w.emit (Event.xclFreeBO b.m_bo_handle)
    have hstep : release_all w (p :: rest) = release_all (w2.deleteBuf p) rest := by
      simp only [release_all, hb, w2]
    have hd2 : ∀ q, (w2.deleteBuf p).deref q = if q = p then none else w.deref q := by
      intro q
      rw [deref_deleteBuf]
      have : w2.deref q = w.deref q := by
        simp only [w2]; split <;> rfl
      rw [this]
    obtain ⟨w1, h1, h2, h3, h4, h5, h6, h7, h8⟩ := ih (w2.deleteBuf p) hnd.2 (by
      intro q hq
      rw [hd2, if_neg (fun e : q = p => hnd.1 (e ▸ hq))]
      exact hv q (List.mem_cons_of_mem _ hq))
    refine ⟨w1, by rw [hstep, h1], ?_, ?_, ?_, ?_, ?_, ?_, ?_⟩
    · rw [h2]; simp only [w2, World.deleteBuf]; split <;> rfl
    · rw [h3]; simp only [w2, World.deleteBuf]; split <;> rfl
    · rw [h4]; simp only [w2, World.deleteBuf]; split <;> rfl
    · rw [h5]; simp only [w2, World.deleteBuf]; split <;> rfl
    · rw [h6]; simp only [w2, World.deleteBuf]; split <;> rfl
    · rw [h7]
      have e1 : releaseEvents (w2.deleteBuf p) rest = releaseEvents w rest := by
        unfold releaseEvents
        apply List.flatMap_congr
        intro q hq
        rw [hd2, if_neg (fun e : q = p => hnd.1 (e ▸ hq))]
      rw [e1]
      simp only [releaseEvents, List.flatMap_cons, hb, w2, World.deleteBuf, World.emit]
      split <;> simp
    · intro q
      rw [h8, hd2]
      simp only [List.mem_cons]
      by_cases hq : q = p
      · simp [hq]
      · simp [hq]
theorem entry_free_zero (w : World) (buffer : Nat) (b : XvbmBuffer)
    (hb : w.deref buffer = some b) (h0 : b.m_ref_cnt = 0) :
    entry_free w buffer = some (false, w) := by
  unfold entry_free; simp only [hb, h0, gt_iff_lt, lt_irrefl, if_false]

theorem entry_free_many (w : World) (buffer : Nat) (b : XvbmBuffer)
    (hb : w.deref buffer = some b) (h1 : 1 < b.m_ref_cnt) :
    entry_free w buffer =
      some (false, w.setBuf buffer { b with m_ref_cnt := b.m_ref_cnt - 1 }) := by
  unfold entry_free
  simp only [hb, gt_iff_lt]
  rw [if_pos (by omega), if_neg (by omega)]

theorem entry_free_absent (w : World) (buffer : Nat) (b : XvbmBuffer)
    (hb : w.deref buffer = some b) (h1 : b.m_ref_cnt = 1)
    (hn : buffer ∉ w.pool.m_inuse_list) :
    entry_free w buffer = some (false, w.setBuf buffer { b with m_ref_cnt := 0 }) := by
  have e : b.m_ref_cnt - 1 = 0 := by omega
  unfold entry_free
  simp only [hb]
  rw [if_pos (by omega : b.m_ref_cnt > 0), if_pos e,
    if_neg (by simpa [World.setBuf] using hn), e]

theorem entry_free_last (w : World) (buffer : Nat) (b : XvbmBuffer)
    (hb : w.deref buffer = some b) (h1 : b.m_ref_cnt = 1)
    (hm : buffer ∈ w.pool.m_inuse_list) :
    entry_free w buffer =
      (destroy_l (moved w buffer b)).map fun r => (true, deleteThis r.1 r.2) := by
  have e : b.m_ref_cnt - 1 = 0 := by omega
  unfold entry_free
  simp only [hb]
  rw [if_pos (by omega : b.m_ref_cnt > 0), if_pos e,
    if_pos (by simpa [World.setBuf] using hm), e]
  change (match destroy_l (moved w buffer b) with
    | none => none
    | some (des, w3) => some (true, deleteThis des w3)) = _
  cases destroy_l (moved w buffer b) with
  | none => rfl
  | some r => rfl

theorem ListsOK.not_free_of_pos (w : World) (h : ListsOK w) (p : Nat) (b : XvbmBuffer)
    (hb : w.deref p = some b) (hpos : b.m_ref_cnt ≠ 0) : p ∉ w.pool.m_free_list :=
  fun hm => hpos (h.freeZero p hm b hb)

theorem ListsOK.inuse_of_pos (w : World) (h : ListsOK w) (p : Nat) (b : XvbmBuffer)
    (hb : w.deref p = some b) (hpos : b.m_ref_cnt ≠ 0) : p ∈ w.pool.m_inuse_list := by
  have hm := (h.owner p b hb).1
  have := h.perm.symm.subset hm
  rw [List.mem_append] at this
  exact this.resolve_left (h.not_free_of_pos w p b hb hpos)

theorem ListsOK.setCnt (w : World) (h : ListsOK w) (p : Nat) (b : XvbmBuffer) (c : Nat)
    (hb : w.deref p = some b) (hpos : b.m_ref_cnt ≠ 0) (hc : c < UINT32_MOD) :
    ListsOK (w.setBuf p { b with m_ref_cnt := c }) := by
  refine h.update w _ p b _ hb rfl rfl rfl (List.Perm.refl _) rfl hc ?_
  intro q hq
  exact Or.inr ⟨fun e => h.not_free_of_pos w p b hb hpos (e ▸ hq), hq⟩

theorem ListsOK.lists_moved (w : World) (h : ListsOK w) (p : Nat) (b : XvbmBuffer)
    (hb : w.deref p = some b) (hm : p ∈ w.pool.m_inuse_list) :
    ListsOK (moved w p b) := by
  have hnd := h.nodup_lists
  have hnf : p ∉ w.pool.m_free_list := fun hf =>
    (List.disjoint_of_nodup_append hnd) hf hm
  refine h.update w _ p b _ hb rfl rfl rfl ?_ rfl (by simp [UINT32_MOD]) ?_
  · simp only [Xvbm.moved]
    rw [List.append_assoc]
    exact List.Perm.append_left _ (List.perm_cons_erase hm).symm
  · intro q hq
    simp only [Xvbm.moved, List.mem_append, List.mem_singleton] at hq
    rcases hq with hq | hq
    · exact Or.inr ⟨fun e => hnf (e ▸ hq), hq⟩
    · exact Or.inl ⟨hq, rfl⟩

theorem ListsOK.lists_decCnt (w : World) (h : ListsOK w) : ListsOK (decCnt w) :=
  ⟨h.perm, h.nodup, h.valid, h.owner, h.freeZero⟩

theorem decU32_lt (x : Nat) (h : x < UINT32_MOD) : decU32 x < UINT32_MOD := by
  unfold decU32 UINT32_MAX; unfold UINT32_MOD at *; split <;> omega

theorem incU32_lt (x : Nat) : incU32 x < UINT32_MOD :=
  Nat.mod_lt _ (by decide)

theorem CntOK.cnt_decCnt (d : Nat) (w : World) (h : CntOK d w) : CntOK (d + 1) (decCnt w) := by
  unfold CntOK at *
  simp only [Xvbm.decCnt]
  obtain ⟨h1, h2⟩ := h
  refine ⟨?_, decU32_lt _ h2⟩
  unfold decU32 UINT32_MAX; unfold UINT32_MOD at *
  split <;> omega

theorem CntOK.cnt_moved (d : Nat) (w : World) (h : CntOK d w) (p : Nat) (b : XvbmBuffer)
    (hm : p ∈ w.pool.m_inuse_list) : CntOK d (Xvbm.decCnt (Xvbm.moved w p b)) := by
  unfold CntOK at *
  simp only [Xvbm.decCnt, Xvbm.moved]
  obtain ⟨h1, h2⟩ := h
  have hl : (w.pool.m_inuse_list.erase p).length + 1 = w.pool.m_inuse_list.length := by
    rw [List.length_erase_of_mem hm]
    have := List.length_pos_of_mem hm
    omega
  refine ⟨?_, decU32_lt _ h2⟩
  unfold decU32 UINT32_MAX; unfold UINT32_MOD at *
  split <;> omega

theorem CntOK.cnt_entry_alloc (d : Nat) (w w1 : World) (r : Option Nat) (h : CntOK d w)
    (hl : ListsOK w) (ha : entry_alloc w = some (r, w1)) : CntOK d w1 := by
  cases hf : w.pool.m_free_list with
  | nil =>
    rw [entry_alloc_nil w hf] at ha
    simp only [Option.some.injEq, Prod.mk.injEq] at ha
    rw [← ha.2]; exact h
  | cons hd tl =>
    obtain ⟨b, hb⟩ := hl.valid hd (hl.mem_free w hd (by rw [hf]; exact List.mem_cons_self _ _))
    rw [entry_alloc_cons w hd tl b hf hb] at ha
    simp only [Option.some.injEq, Prod.mk.injEq] at ha
    obtain ⟨_, hw⟩ := ha
    subst hw
    unfold CntOK at *
    simp only [List.length_append, List.length_singleton]
    refine ⟨?_, incU32_lt _⟩
    unfold incU32; unfold UINT32_MOD at *
    omega
theorem Frame.refl (w : World) : Frame w w := ⟨rfl, rfl, rfl, rfl, rfl, rfl⟩

theorem Frame.trans (w0 w1 w2 : World) (h1 : Frame w0 w1) (h2 : Frame w1 w2) : Frame w0 w2 := by
  unfold Frame at *
  obtain ⟨a1, a2, a3, a4, a5, a6⟩ := h1
  obtain ⟨b1, b2, b3, b4, b5, b6⟩ := h2
  exact ⟨b1.trans a1, b2.trans a2, b3.trans a3, b4.trans a4, b5.trans a5, b6.trans a6⟩

theorem create_buffer_frame (w w1 : World) (index : Int) (e : BufEnv) (r : Option Nat)
    (hc : create_buffer w index e = (r, w1)) : Frame w w1 := by
  cases r with
  | none =>
    obtain ⟨hp, ha, hd, _⟩ := create_buffer_none w w1 index e hc
    unfold Frame; rw [hp]; exact ⟨rfl, rfl, ha, hd, rfl, rfl⟩
  | some n =>
    obtain ⟨_, hp, ha, hd, _⟩ := create_buffer_some w w1 index e n hc
    unfold Frame; rw [hp]; exact ⟨rfl, rfl, ha, hd, rfl, rfl⟩

theorem create_loop_inv (env : Nat → BufEnv) (n : Nat) : ∀ (w : World) (first : Int) (k : Nat),
    ListsOK w → ListsOK (create_loop w first env k n).2 ∧
      Frame w (create_loop w first env k n).2 := by
  induction n with
  | zero => intro w first k h; exact ⟨h, Frame.refl w⟩
  | succ n ih =>
    intro w first k h
    unfold create_loop
    cases hc : create_buffer w first (env k) with
    | mk r w1 =>
      have h1 := h.lists_create_buffer w w1 first (env k) r hc
      have f1 := create_buffer_frame w w1 first (env k) r hc
      cases r with
      | none => exact ⟨h1, f1⟩
      | some b =>
        obtain ⟨h2, f2⟩ := ih w1 (first + 1) (k + 1) h1
        exact ⟨h2, Frame.trans _ _ _ f1 f2⟩

theorem CntOK.of_frame (d : Nat) (w w1 : World) (h : CntOK d w) (f : Frame w w1) :
    CntOK d w1 := by
  unfold CntOK at *; unfold Frame at f
  rw [f.1, f.2.1]; exact h

theorem extend_inv (w w1 : World) (num_buffers : Int) (env : Nat → BufEnv) (r : Option Int)
    (h : ListsOK w) (he : extend w num_buffers env = some (r, w1)) :
    ListsOK w1 ∧ w1.pool.m_inuse_list = w.pool.m_inuse_list ∧
      w1.pool.m_ref_cnt = w.pool.m_ref_cnt ∧ w1.pool_addr = w.pool_addr ∧
      w1.pool_deleted = w.pool_deleted := by
  unfold extend at he
  simp only at he
  split at he
  · simp at he
  · obtain ⟨h1, f1⟩ := create_loop_inv env num_buffers.toNat w w.pool.m_num_buffers 0 h
    generalize create_loop w w.pool.m_num_buffers env 0 num_buffers.toNat = res at he h1 f1
    obtain ⟨ok, w2⟩ := res
    unfold Frame at f1
    cases ok with
    | false =>
      simp only [Option.some.injEq, Prod.mk.injEq] at he
      rw [← he.2]; exact ⟨h1, f1.1, f1.2.1, f1.2.2.1, f1.2.2.2.1⟩
    | true =>
      simp only [Option.some.injEq, Prod.mk.injEq] at he
      rw [← he.2]
      exact ⟨⟨h1.perm, h1.nodup, h1.valid, h1.owner, h1.freeZero⟩, f1.1, f1.2.1, f1.2.2.1,
        f1.2.2.2.1⟩

theorem destroy_l_inv (w w1 : World) (des : Bool)
    (hd : destroy_l w = some (des, w1)) :
    (des = false ∧ w1 = decCnt w ∧ ¬ tearsDown w) ∨ (des = true ∧ tearsDown w) := by
  by_cases ht : tearsDown w
  · rw [destroy_l_of_tears w ht] at hd
    cases hr : release_all (decCnt w) w.pool.m_free_list with
    | none => rw [hr] at hd; simp at hd
    | some w2 =>
      rw [hr] at hd
      simp only [Option.map_some', Option.some.injEq, Prod.mk.injEq] at hd
      exact Or.inr ⟨hd.1.symm, ht⟩
  · rw [destroy_l_of_not w ht] at hd
    simp only [Option.some.injEq, Prod.mk.injEq] at hd
    exact Or.inl ⟨hd.1.symm, hd.2.symm, ht⟩

theorem destroy_l_total (w : World) (hl : ListsOK w) : ∃ des w1, destroy_l w = some (des, w1) := by
  by_cases ht : tearsDown w
  · rw [destroy_l_of_tears w ht]
    have hnd : w.pool.m_free_list.Nodup := (List.nodup_append.1 hl.nodup_lists).1
    obtain ⟨w2, h2, _⟩ := release_all_some w.pool.m_free_list (decCnt w) hnd
      (fun p hp => hl.valid p (hl.mem_free w p hp))
    rw [h2]; exact ⟨true, _, rfl⟩
  · rw [destroy_l_of_not w ht]; exact ⟨false, _, rfl⟩
theorem poolLive_self (w : World) (h : w.pool_deleted = false) :
    w.poolLive w.pool_addr = true := by
  unfold World.poolLive; simp [h]

theorem poolLive_dead (w : World) (p : Nat) (h : w.pool_deleted = true) :
    w.poolLive p = false := by
  unfold World.poolLive; simp [h]

theorem public_entry_free_eq (w : World) (buffer : Nat) (b : XvbmBuffer)
    (hlive : w.pool_deleted = false) (hl : ListsOK w) (hb : w.deref buffer = some b) :
    xvbm_buffer_pool_entry_free w (some buffer) = entry_free w buffer := by
  unfold xvbm_buffer_pool_entry_free
  simp only [hb, (hl.owner buffer b hb).2.1, poolLive_self w hlive, if_true]

theorem public_entry_alloc_eq (w : World) (hlive : w.pool_deleted = false) :
    xvbm_buffer_pool_entry_alloc w (some w.pool_addr) = entry_alloc w := by
  unfold xvbm_buffer_pool_entry_alloc
  simp only [poolLive_self w hlive, if_true]

theorem public_destroy_eq (w : World) (hlive : w.pool_deleted = false) :
    xvbm_buffer_pool_destroy w (some w.pool_addr) = destroy w := by
  unfold xvbm_buffer_pool_destroy
  simp only [poolLive_self w hlive, if_true]

theorem public_refcnt_inc_eq (w : World) (buffer : Nat) (b : XvbmBuffer)
    (hlive : w.pool_deleted = false) (hl : ListsOK w) (hb : w.deref buffer = some b) :
    xvbm_buffer_refcnt_inc w (some buffer) =
      if b.m_ref_cnt = 0 then some (w.emit (Event.cerr_refcnt_inc_free buffer))
      else some (w.setBuf buffer { b with m_ref_cnt := incU32 b.m_ref_cnt }) := by
  unfold xvbm_buffer_refcnt_inc
  simp only [hb, (hl.owner buffer b hb).2.1, poolLive_self w hlive, if_true, Nat.le_zero]

theorem step_dead (w w1 : World) (op : Op) (hdead : w.pool_deleted = true)
    (hs : step w op = some w1) : w1.pool_deleted = true := by
  cases op with
  | entry_alloc =>
    simp [step, xvbm_buffer_pool_entry_alloc, poolLive_dead w _ hdead] at hs
  | entry_free b_handle =>
    cases b_handle with
    | none =>
      simp [step, xvbm_buffer_pool_entry_free] at hs
      rw [← hs]; exact hdead
    | some buffer =>
      simp only [step, xvbm_buffer_pool_entry_free] at hs
      cases hb : w.deref buffer with
      | none => rw [hb] at hs; simp at hs
      | some b =>
        rw [hb] at hs
        cases hp : b.m_p_handle with
        | none =>
          simp only [hp, Option.map_some', Option.some.injEq] at hs
          rw [← hs]; exact hdead
        | some p => simp [hp, poolLive_dead w _ hdead] at hs
  | refcnt_inc b_handle =>
    cases b_handle with
    | none => simp [step, xvbm_buffer_refcnt_inc] at hs
    | some buffer =>
      simp only [step, xvbm_buffer_refcnt_inc] at hs
      cases hb : w.deref buffer with
      | none => rw [hb] at hs; simp at hs
      | some b =>
        rw [hb] at hs
        cases hp : b.m_p_handle with
        | none => simp [hp] at hs
        | some p => simp [hp, poolLive_dead w _ hdead] at hs
  | extend b_handle n env =>
    cases b_handle with
    | none => simp [step, xvbm_buffer_pool_extend] at hs
    | some buffer =>
      simp only [step, xvbm_buffer_pool_extend] at hs
      cases hb : w.deref buffer with
      | none => rw [hb] at hs; simp at hs
      | some b =>
        rw [hb] at hs
        cases hp : b.m_p_handle with
        | none => simp [hp] at hs
        | some p => simp [hp, poolLive_dead w _ hdead] at hs
  | pool_destroy =>
    simp [step, xvbm_buffer_pool_destroy, poolLive_dead w _ hdead] at hs
theorem destroy_l_tears (w : World) (hl : ListsOK w) (ht : tearsDown w) :
    ∃ w2, release_all (decCnt w) w.pool.m_free_list = some w2 ∧
      destroy_l w = some (true, { w2 with pool := { w2.pool with m_free_list := [] } }) ∧
      w2.pool = (decCnt w).pool ∧ w2.pool_addr = w.pool_addr ∧
      w2.pool_deleted = w.pool_deleted ∧ w2.host = w.host ∧ w2.dev = w.dev ∧
      w2.log = w.log ++ releaseEvents w w.pool.m_free_list := by
  have hnd : w.pool.m_free_list.Nodup := (List.nodup_append.1 hl.nodup_lists).1
  obtain ⟨w2, h2, h3, h4, h5, h6, h7, h8, _⟩ :=
    release_all_some w.pool.m_free_list (decCnt w) hnd
      (fun p hp => hl.valid p (hl.mem_free w p hp))
  refine ⟨w2, h2, ?_, h3, h4, h5, h6, h7, h8⟩
  rw [destroy_l_of_tears w ht, h2]; rfl

theorem entry_free_cases (w : World) (buffer : Nat) (b : XvbmBuffer) (hl : ListsOK w)
    (hb : w.deref buffer = some b) :
    (b.m_ref_cnt = 0 ∧ entry_free w buffer = some (false, w)) ∨
    (1 < b.m_ref_cnt ∧ entry_free w buffer =
      some (false, w.setBuf buffer { b with m_ref_cnt := b.m_ref_cnt - 1 })) ∨
    (b.m_ref_cnt = 1 ∧ buffer ∈ w.pool.m_inuse_list ∧ ¬ tearsDown (moved w buffer b) ∧
      entry_free w buffer = some (true, decCnt (moved w buffer b))) ∨
    (b.m_ref_cnt = 1 ∧ buffer ∈ w.pool.m_inuse_list ∧ tearsDown (moved w buffer b) ∧
      ∃ w2, release_all (decCnt (moved w buffer b)) (moved w buffer b).pool.m_free_list =
          some w2 ∧
        entry_free w buffer = some (true,
          deleteThis true { w2 with pool := { w2.pool with m_free_list := [] } })) := by
  rcases Nat.lt_trichotomy b.m_ref_cnt 1 with h | h | h
  · exact Or.inl ⟨by omega, entry_free_zero w buffer b hb (by omega)⟩
  · have hm := hl.inuse_of_pos w buffer b hb (by omega)
    have hl2 := hl.lists_moved w buffer b hb hm
    by_cases ht : tearsDown (moved w buffer b)
    · obtain ⟨w2, h2, h3, _⟩ := destroy_l_tears _ hl2 ht
      refine Or.inr (Or.inr (Or.inr ⟨h, hm, ht, w2, h2, ?_⟩))
      rw [entry_free_last w buffer b hb h hm, h3]; rfl
    · refine Or.inr (Or.inr (Or.inl ⟨h, hm, ht, ?_⟩))
      rw [entry_free_last w buffer b hb h hm, destroy_l_of_not _ ht]; rfl
  · exact Or.inr (Or.inl ⟨h, entry_free_many w buffer b hb h⟩)

theorem destroy_cases (w : World) (hl : ListsOK w) :
    (¬ tearsDown w ∧ destroy w = some (decCnt w)) ∨
    (tearsDown w ∧ ∃ w2, release_all (decCnt w) w.pool.m_free_list = some w2 ∧
      w2.log = w.log ++ releaseEvents w w.pool.m_free_list ∧
      destroy w = some (deleteThis true { w2 with pool := { w2.pool with m_free_list := [] } })) := by
  by_cases ht : tearsDown w
  · obtain ⟨w2, h2, h3, _, _, _, _, _, h8⟩ := destroy_l_tears _ hl ht
    refine Or.inr ⟨ht, w2, h2, h8, ?_⟩
    unfold destroy; rw [h3]
  · refine Or.inl ⟨ht, ?_⟩
    unfold destroy; rw [destroy_l_of_not _ ht]; rfl

theorem countP_step (op : Op) (ops : List Op) :
    destroyCount (op :: ops) = destroyCount ops + (if op.isDestroy = true then 1 else 0) := by
  unfold destroyCount; rw [List.countP_cons]

theorem step_inv (d : Nat) (w w1 : World) (op : Op) (hlive : w.pool_deleted = false)
    (hl : ListsOK w) (hc : CntOK d w) (hs : step w op = some w1) :
    w1.pool_deleted = true ∨
      (ListsOK w1 ∧ CntOK (d + (if op.isDestroy = true then 1 else 0)) w1) := by
  cases op with
  | entry_alloc =>
    simp only [step, public_entry_alloc_eq w hlive, Option.map_eq_some'] at hs
    obtain ⟨⟨r, w2⟩, h1, h2⟩ := hs
    simp only at h2; subst h2
    exact Or.inr ⟨hl.lists_entry_alloc w w2 r h1, hc.cnt_entry_alloc d w w2 r hl h1⟩
  | entry_free b_handle =>
    cases b_handle with
    | none =>
      simp [step, xvbm_buffer_pool_entry_free] at hs
      subst hs; exact Or.inr ⟨hl, hc⟩
    | some buffer =>
      cases hb : w.deref buffer with
      | none => simp [step, xvbm_buffer_pool_entry_free, hb] at hs
      | some b =>
        simp only [step, public_entry_free_eq w buffer b hlive hl hb] at hs
        rcases entry_free_cases w buffer b hl hb with ⟨_, h⟩ | ⟨h1, h⟩ | ⟨_, hm, _, h⟩ |
          ⟨_, _, _, w2, _, h⟩
        · rw [h] at hs; simp at hs; subst hs; exact Or.inr ⟨hl, hc⟩
        · rw [h] at hs; simp at hs; subst hs
          refine Or.inr ⟨hl.setCnt w buffer b _ hb (by omega) ?_, hc⟩
          have := (hl.owner buffer b hb).2.2
          omega
        · rw [h] at hs; simp at hs; subst hs
          exact Or.inr ⟨(hl.lists_moved w buffer b hb hm).lists_decCnt, hc.cnt_moved d w buffer b hm⟩
        · rw [h] at hs; simp at hs; subst hs
          exact Or.inl rfl
  | refcnt_inc b_handle =>
    cases b_handle with
    | none => simp [step, xvbm_buffer_refcnt_inc] at hs
    | some buffer =>
      cases hb : w.deref buffer with
      | none => simp [step, xvbm_buffer_refcnt_inc, hb] at hs
      | some b =>
        simp only [step, public_refcnt_inc_eq w buffer b hlive hl hb] at hs
        split at hs
        · simp at hs; subst hs
          exact Or.inr ⟨⟨hl.perm, hl.nodup, hl.valid, hl.owner, hl.freeZero⟩, hc⟩
        · rename_i hpos
          simp at hs; subst hs
          exact Or.inr ⟨hl.setCnt w buffer b _ hb hpos (incU32_lt _), hc⟩
  | extend b_handle n env =>
    cases b_handle with
    | none => simp [step, xvbm_buffer_pool_extend] at hs
    | some buffer =>
      cases hb : w.deref buffer with
      | none => simp [step, xvbm_buffer_pool_extend, hb] at hs
      | some b =>
        simp only [step, xvbm_buffer_pool_extend, hb, (hl.owner buffer b hb).2.1,
          poolLive_self w hlive, if_true] at hs
        cases he : extend w n env with
        | none => rw [he] at hs; simp at hs
        | some res =>
          obtain ⟨r, w2⟩ := res
          obtain ⟨h1, h2, h3, _, _⟩ := extend_inv w w2 n env r hl he
          have hw : w1 = w2 := by
            rw [he] at hs
            cases r <;> simp at hs <;> exact hs.symm
          subst hw
          refine Or.inr ⟨h1, ?_⟩
          unfold CntOK at *; rw [h2, h3]; exact hc
  | pool_destroy =>
    simp only [step, public_destroy_eq w hlive] at hs
    rcases destroy_cases w hl with ⟨_, h⟩ | ⟨_, w2, _, _, h⟩
    · rw [h] at hs; simp at hs; subst hs
      exact Or.inr ⟨hl.lists_decCnt, hc.cnt_decCnt d w⟩
    · rw [h] at hs; simp at hs; subst hs
      exact Or.inl rfl
theorem newPool_ok (d_handle : Nat) (num_buffers : Int) (size flags : Nat) :
    ListsOK (newPool d_handle num_buffers size flags) := by
  constructor
  · exact List.Perm.refl _
  · exact List.nodup_nil
  · intro p hp; simp [newPool] at hp
  · intro p b hb; simp [World.deref, newPool] at hb
  · intro p hp; simp [newPool] at hp

theorem create_inv (d_handle : Nat) (num_buffers : Int) (size flags : Nat)
    (env : Nat → BufEnv) (h : Nat) (w : World)
    (hc : xvbm_buffer_pool_create d_handle num_buffers size flags env = (some h, w)) :
    ListsOK w ∧ Frame (newPool d_handle num_buffers size flags) w := by
  unfold xvbm_buffer_pool_create create at hc
  simp only at hc
  obtain ⟨h1, f1⟩ := create_loop_inv env (newPool d_handle num_buffers size flags).pool.m_num_buffers.toNat
    (newPool d_handle num_buffers size flags) 0 0 (newPool_ok _ _ _ _)
  generalize create_loop (newPool d_handle num_buffers size flags) 0 env 0
    (newPool d_handle num_buffers size flags).pool.m_num_buffers.toNat = res at hc h1 f1
  obtain ⟨ok, w2⟩ := res
  cases ok with
  | false => simp at hc
  | true =>
    simp only [Prod.mk.injEq, Option.some.injEq] at hc
    rw [← hc.2]; exact ⟨h1, f1⟩

theorem reach_inv (G : World → Op → Prop) (ops : List Op) (w : World) (h : Reach G ops w) :
    w.pool_deleted = true ∨ (ListsOK w ∧ CntOK (destroyCount ops) w) := by
  induction h with
  | init d_handle num_buffers size flags env hd w hnum hsize hcreate =>
    obtain ⟨h1, f1⟩ := create_inv d_handle num_buffers size flags env hd w hcreate
    refine Or.inr ⟨h1, ?_⟩
    unfold Frame at f1
    unfold CntOK
    rw [f1.1, f1.2.1]
    simp [newPool, destroyCount, UINT32_MOD]
  | step ops w w1 op _ _ hstep ih =>
    cases hd : w.pool_deleted with
    | true => exact Or.inl (step_dead w w1 op hd hstep)
    | false =>
      rcases ih with hdead | ⟨hl, hc⟩
      · rw [hd] at hdead; cases hdead
      · rw [countP_step]
        exact step_inv _ w w1 op hd hl hc hstep

theorem reach_live (G : World → Op → Prop) (ops : List Op) (w : World) (h : Reach G ops w)
    (hlive : w.pool_deleted = false) : ListsOK w ∧ CntOK (destroyCount ops) w := by
  rcases reach_inv G ops w h with hdead | hinv
  · rw [hlive] at hdead; cases hdead
  · exact hinv
theorem tears_of (w : World) (hl : ListsOK w) (h0 : decU32 w.pool.m_ref_cnt = 0)
    (hi : w.pool.m_inuse_list = []) : tearsDown w := by
  refine ⟨h0, by rw [hi]; rfl, ?_⟩
  have := hl.perm.length_eq
  rw [hi, List.append_nil] at this
  exact this

theorem NonZero.nz_decCnt (w : World) (hl : ListsOK w) (ht : ¬ tearsDown w) :
    NonZero (Xvbm.decCnt w) := by
  intro h
  exact ht (tears_of w hl h.1 h.2)

theorem step_nonzero (w w1 : World) (op : Op) (hlive : w.pool_deleted = false)
    (hl : ListsOK w) (hz : NonZero w) (hs : step w op = some w1) :
    w1.pool_deleted = true ∨ NonZero w1 := by
  cases op with
  | entry_alloc =>
    simp only [step, public_entry_alloc_eq w hlive, Option.map_eq_some'] at hs
    obtain ⟨⟨r, w2⟩, h1, h2⟩ := hs
    simp only at h2; subst h2
    cases hf : w.pool.m_free_list with
    | nil =>
      rw [entry_alloc_nil w hf] at h1
      simp only [Option.some.injEq, Prod.mk.injEq] at h1
      rw [← h1.2]; exact Or.inr hz
    | cons hd tl =>
      obtain ⟨b, hb⟩ := hl.valid hd (hl.mem_free w hd (by rw [hf]; exact List.mem_cons_self _ _))
      rw [entry_alloc_cons w hd tl b hf hb] at h1
      simp only [Option.some.injEq, Prod.mk.injEq] at h1
      rw [← h1.2]
      refine Or.inr (fun h => ?_)
      simp at h
  | entry_free b_handle =>
    cases b_handle with
    | none =>
      simp [step, xvbm_buffer_pool_entry_free] at hs
      subst hs; exact Or.inr hz
    | some buffer =>
      cases hb : w.deref buffer with
      | none => simp [step, xvbm_buffer_pool_entry_free, hb] at hs
      | some b =>
        simp only [step, public_entry_free_eq w buffer b hlive hl hb] at hs
        rcases entry_free_cases w buffer b hl hb with ⟨_, h⟩ | ⟨h1, h⟩ | ⟨_, hm, ht, h⟩ |
          ⟨_, _, _, w2, _, h⟩
        · rw [h] at hs; simp at hs; subst hs; exact Or.inr hz
        · rw [h] at hs; simp at hs; subst hs; exact Or.inr hz
        · rw [h] at hs; simp at hs; subst hs
          exact Or.inr (NonZero.nz_decCnt _ (hl.lists_moved w buffer b hb hm) ht)
        · rw [h] at hs; simp at hs; subst hs
          exact Or.inl rfl
  | refcnt_inc b_handle =>
    cases b_handle with
    | none => simp [step, xvbm_buffer_refcnt_inc] at hs
    | some buffer =>
      cases hb : w.deref buffer with
      | none => simp [step, xvbm_buffer_refcnt_inc, hb] at hs
      | some b =>
        simp only [step, public_refcnt_inc_eq w buffer b hlive hl hb] at hs
        split at hs
        · simp at hs; subst hs; exact Or.inr hz
        · simp at hs; subst hs; exact Or.inr hz
  | extend b_handle n env =>
    cases b_handle with
    | none => simp [step, xvbm_buffer_pool_extend] at hs
    | some buffer =>
      cases hb : w.deref buffer with
      | none => simp [step, xvbm_buffer_pool_extend, hb] at hs
      | some b =>
        simp only [step, xvbm_buffer_pool_extend, hb, (hl.owner buffer b hb).2.1,
          poolLive_self w hlive, if_true] at hs
        cases he : extend w n env with
        | none => rw [he] at hs; simp at hs
        | some res =>
          obtain ⟨r, w2⟩ := res
          obtain ⟨_, h2, h3, _, _⟩ := extend_inv w w2 n env r hl he
          have hw : w1 = w2 := by
            rw [he] at hs
            cases r <;> simp at hs <;> exact hs.symm
          subst hw
          refine Or.inr ?_
          unfold NonZero at *; rw [h2, h3]; exact hz
  | pool_destroy =>
    simp only [step, public_destroy_eq w hlive] at hs
    rcases destroy_cases w hl with ⟨ht, h⟩ | ⟨_, w2, _, _, h⟩
    · rw [h] at hs; simp at hs; subst hs
      exact Or.inr (NonZero.nz_decCnt w hl ht)
    · rw [h] at hs; simp at hs; subst hs
      exact Or.inl rfl

theorem reach_nonzero (G : World → Op → Prop) (ops : List Op) (w : World) (h : Reach G ops w) :
    w.pool_deleted = true ∨ NonZero w := by
  induction h with
  | init d_handle num_buffers size flags env hd w hnum hsize hcreate =>
    obtain ⟨_, f1⟩ := create_inv d_handle num_buffers size flags env hd w hcreate
    refine Or.inr (fun h => ?_)
    unfold Frame at f1
    rw [f1.2.1] at h
    simp [newPool] at h
  | step ops w w1 op hr _ hstep ih =>
    cases hd : w.pool_deleted with
    | true => exact Or.inl (step_dead w w1 op hd hstep)
    | false =>
      rcases ih with hdead | hz
      · rw [hd] at hdead; cases hdead
      · exact step_nonzero w w1 op hd (reach_live G ops w hr hd).1 hz hstep
theorem reach_run (ops0 : List Op) (w : World) (h : Reach anyOp ops0 w) :
    ∀ (ops : List Op) (w1 : World), run w ops = some w1 →
      Reach anyOp (ops.reverse ++ ops0) w1 := by
  intro ops
  induction ops generalizing ops0 w with
  | nil =>
    intro w1 hr
    simp only [run, Option.some.injEq] at hr
    subst hr; exact h
  | cons op ops ih =>
    intro w1 hr
    simp only [run] at hr
    cases hs : step w op with
    | none => rw [hs] at hr; simp at hr
    | some w2 =>
      rw [hs] at hr
      simp only [Option.some_bind] at hr
      have := ih (op :: ops0) w2 (Reach.step ops0 w w2 op h trivial hs) w1 hr
      simpa using this

theorem reach_fresh (n : Nat) (hn : n = 1 ∨ n = 2) : Reach anyOp [] (freshPool n) := by
  rcases hn with h | h <;> subst h
  · exact Reach.init 0 1 1 0 okEnv 1 _ (by decide) (by decide) rfl
  · exact Reach.init 0 2 1 0 okEnv 1 _ (by decide) (by decide) rfl

theorem release_all_pool (l : List Nat) : ∀ (w w1 : World), release_all w l = some w1 →
    w1.pool = w.pool ∧ w1.pool_addr = w.pool_addr ∧ w1.pool_deleted = w.pool_deleted := by
  induction l with
  | nil =>
    intro w w1 h
    simp only [release_all, Option.some.injEq] at h
    subst h; exact ⟨rfl, rfl, rfl⟩
  | cons p rest ih =>
    intro w w1 h
    simp only [release_all] at h
    cases hb : w.deref p with
    | none => rw [hb] at h; simp at h
    | some b =>
      rw [hb] at h
      simp only at h
      obtain ⟨h1, h2, h3⟩ := ih _ _ h
      rw [h1, h2, h3]
      simp only [World.deleteBuf, World.emit]
      split <;> exact ⟨rfl, rfl, rfl⟩

theorem moved_iff (w w1 : World) (buffer : Nat) (b : XvbmBuffer) (p : Nat) (ret : Bool)
    (hb : w.deref buffer = some b) (hp : b.m_p_handle = some p) (hlive : w.poolLive p = true)
    (hcall : xvbm_buffer_pool_entry_free w (some buffer) = some (ret, w1)) :
    (ret = true ↔ MovedToFree w (some buffer) w1) ∧
    (ret = false → w1.pool.m_free_list = w.pool.m_free_list ∧
      w1.pool.m_inuse_list = w.pool.m_inuse_list) := by
  have hcall2 : entry_free w buffer = some (ret, w1) := by
    unfold xvbm_buffer_pool_entry_free at hcall
    simpa only [hb, hp, hlive, if_true] using hcall
  have hnot : ∀ w2, ¬ (b.m_ref_cnt = 1 ∧ buffer ∈ w.pool.m_inuse_list) →
      ¬ MovedToFree w (some buffer) w2 := by
    rintro w2 hn ⟨buffer1, b1, h1, h2, h3, h4, _⟩
    simp only [Option.some.injEq] at h1; subst h1
    rw [hb] at h2; simp only [Option.some.injEq] at h2; subst h2
    exact hn ⟨h3, h4⟩
  rcases Nat.lt_trichotomy b.m_ref_cnt 1 with h | h | h
  · rw [entry_free_zero w buffer b hb (by omega)] at hcall2
    simp only [Option.some.injEq, Prod.mk.injEq] at hcall2
    obtain ⟨hr, hw⟩ := hcall2; subst hr; subst hw
    exact ⟨⟨fun h => (by cases h), fun hm => (hnot _ (by omega) hm).elim⟩, fun _ => ⟨rfl, rfl⟩⟩
  · by_cases hm : buffer ∈ w.pool.m_inuse_list
    · rw [entry_free_last w buffer b hb h hm] at hcall2
      cases hd : destroy_l (moved w buffer b) with
      | none => rw [hd] at hcall2; simp at hcall2
      | some r =>
        obtain ⟨des, w3⟩ := r
        rw [hd] at hcall2
        simp only [Option.map_some', Option.some.injEq, Prod.mk.injEq] at hcall2
        obtain ⟨hr, hw⟩ := hcall2; subst hr; subst hw
        refine ⟨⟨fun _ => ?_, fun _ => rfl⟩, fun h => (by cases h)⟩
        refine ⟨buffer, b, rfl, hb, h, hm, ?_, ?_⟩
        · rcases destroy_l_inv _ _ _ hd with ⟨h1, h2, _⟩ | ⟨h1, ht⟩
          · subst h1; subst h2; rfl
          · subst h1
            rw [destroy_l_of_tears _ ht] at hd
            cases hr : release_all (decCnt (moved w buffer b)) (moved w buffer b).pool.m_free_list with
            | none => rw [hr] at hd; simp at hd
            | some w4 =>
              rw [hr] at hd
              simp only [Option.map_some', Option.some.injEq, Prod.mk.injEq, true_and] at hd
              subst hd
              exact congrArg XvbmBufferPool.m_inuse_list (release_all_pool _ _ _ hr).1
        · intro hlive1
          rcases destroy_l_inv _ _ _ hd with ⟨h1, h2, _⟩ | ⟨h1, _⟩
          · subst h1; subst h2
            refine ⟨rfl, ?_⟩
            have := deref_set w (decCnt (moved w buffer b)) buffer b { b with m_ref_cnt := 0 } hb rfl buffer
            change (decCnt (moved w buffer b)).deref buffer = _
            rw [this, if_pos rfl]
          · subst h1; simp [deleteThis] at hlive1
    · rw [entry_free_absent w buffer b hb h hm] at hcall2
      simp only [Option.some.injEq, Prod.mk.injEq] at hcall2
      obtain ⟨hr, hw⟩ := hcall2; subst hr; subst hw
      exact ⟨⟨fun h => (by cases h), fun hmv => (hnot _ (fun hc => hm hc.2) hmv).elim⟩,
        fun _ => ⟨rfl, rfl⟩⟩
  · rw [entry_free_many w buffer b hb h] at hcall2
    simp only [Option.some.injEq, Prod.mk.injEq] at hcall2
    obtain ⟨hr, hw⟩ := hcall2; subst hr; subst hw
    exact ⟨⟨fun h => (by cases h), fun hm => (hnot _ (by omega) hm).elim⟩, fun _ => ⟨rfl, rfl⟩⟩
theorem entry_free_total (w : World) (buffer : Nat) (b : XvbmBuffer)
    (hlive : w.pool_deleted = false) (hl : ListsOK w) (hb : w.deref buffer = some b) :
    ∃ ret w1, xvbm_buffer_pool_entry_free w (some buffer) = some (ret, w1) := by
  rw [public_entry_free_eq w buffer b hlive hl hb]
  rcases entry_free_cases w buffer b hl hb with ⟨_, h⟩ | ⟨_, h⟩ | ⟨_, _, _, h⟩ |
    ⟨_, _, _, w2, _, h⟩ <;> exact ⟨_, _, h⟩

/-- C1 (amended): for every non-null handle of an existing buffer whose pool
handle is non-null and points to the live pool, in any pool state, a call of
`xvbm_buffer_pool_entry_free` that returns, returns true if and only if it moved
the buffer from the in-use list to the free list (count 1 to 0), and a call
that returns false leaves both lists unchanged; in every reachable state of a
live pool the call does return. A call with the null handle, or on a buffer
whose pool handle is null, returns true and changes nothing. -/
theorem C1_entry_free_true_iff_moved :
    (∀ (w w1 : World) (buffer : Nat) (b : XvbmBuffer) (p : Nat) (ret : Bool),
      w.deref buffer = some b → b.m_p_handle = some p → w.poolLive p = true →
      xvbm_buffer_pool_entry_free w (some buffer) = some (ret, w1) →
      (ret = true ↔ MovedToFree w (some buffer) w1) ∧
      (ret = false → w1.pool.m_free_list = w.pool.m_free_list ∧
        w1.pool.m_inuse_list = w.pool.m_inuse_list)) ∧
    (∀ (ops : List Op) (w : World) (buffer : Nat) (b : XvbmBuffer),
      Reach anyOp ops w → w.pool_deleted = false → w.deref buffer = some b →
      ∃ ret w1, xvbm_buffer_pool_entry_free w (some buffer) = some (ret, w1)) ∧
    (∀ w : World, xvbm_buffer_pool_entry_free w none = some (true, w)) ∧
    (∀ (w : World) (buffer : Nat) (b : XvbmBuffer),
      w.deref buffer = some b → b.m_p_handle = none →
      xvbm_buffer_pool_entry_free w (some buffer) = some (true, w)) :=
  ⟨fun w w1 buffer b p ret hb hp hlive hcall => moved_iff w w1 buffer b p ret hb hp hlive hcall,
   fun ops w buffer b hr hlive hb =>
    entry_free_total w buffer b hlive (reach_live anyOp ops w hr hlive).1 hb,
   fun _ => rfl,
   fun w buffer b hb hp => by
    unfold xvbm_buffer_pool_entry_free
    simp only [hb, hp]⟩

/-- C1, witness: on a pool of one buffer, the free of the allocated buffer
returns true and moved it. -/
theorem C1_witness :
    xvbm_buffer_pool_entry_free (after 1 [Op.entry_alloc]) (some 0) =
      some (true, after 1 [Op.entry_alloc, Op.entry_free (some 0)]) ∧
    MovedToFree (after 1 [Op.entry_alloc]) (some 0)
      (after 1 [Op.entry_alloc, Op.entry_free (some 0)]) :=
  ⟨by decide,
   ((C1_entry_free_true_iff_moved.1 (after 1 [Op.entry_alloc])
      (after 1 [Op.entry_alloc, Op.entry_free (some 0)]) 0
      { m_p_handle := some 1, m_bo_handle := 0, m_buffer_id := 0, m_size := 1, m_paddr := 0,
        m_hptr := 4096, m_ref_cnt := 1 } 1 true (by decide) rfl (by decide) (by decide)).1).1 rfl⟩

/-- C1, counterexample: the call with the null handle returns true although
no buffer is moved (the state is unchanged). -/
theorem C1_counterexample :
    xvbm_buffer_pool_entry_free (freshPool 1) none = some (true, freshPool 1) ∧
    ¬ MovedToFree (freshPool 1) none (freshPool 1) :=
  ⟨rfl, fun h => by
    obtain ⟨_, _, h1, _⟩ := h
    cases h1⟩
/-- C8: in every pool state whose free list is empty, `entry_alloc` returns
`NULL` and leaves the whole state unchanged; so does the public
`xvbm_buffer_pool_entry_alloc` on the handle of a live pool. -/
theorem C8_entry_alloc_exhausted (w : World) (h : w.pool.m_free_list = []) :
    entry_alloc w = some (none, w) ∧
    (w.pool_deleted = false →
      xvbm_buffer_pool_entry_alloc w (some w.pool_addr) = some (none, w)) :=
  ⟨entry_alloc_nil w h, fun hlive => by
    rw [public_entry_alloc_eq w hlive]; exact entry_alloc_nil w h⟩

/-- C8, witness: a pool of one buffer whose buffer is allocated. -/
theorem C8_witness :
    (after 1 [Op.entry_alloc]).pool.m_free_list = [] ∧
    entry_alloc (after 1 [Op.entry_alloc]) = some (none, after 1 [Op.entry_alloc]) :=
  ⟨by decide, (C8_entry_alloc_exhausted (after 1 [Op.entry_alloc]) (by decide)).1⟩

theorem incU32_of_ne_max (x : Nat) (h1 : x < UINT32_MOD) (h2 : x ≠ UINT32_MAX) :
    incU32 x = x + 1 := by
  unfold incU32
  unfold UINT32_MOD at *; unfold UINT32_MAX at h2
  omega

/-- C2 (amended): in every reachable state of a live pool whose free list is
non-empty, `entry_alloc` returns the head of the free list, leaves that buffer
with count exactly 1 (it was 0), removes it from the free list, appends it at
the tail of the in-use list, changes no other buffer, and increments the
counter `m_ref_cnt` as a `uint32_t`: by exactly 1 unless the counter was
`2^32 - 1`. -/
theorem C2_entry_alloc_pops_head (ops : List Op) (w : World) (hd : Nat) (tl : List Nat)
    (hr : Reach anyOp ops w) (hlive : w.pool_deleted = false)
    (hf : w.pool.m_free_list = hd :: tl) :
    ∃ b w1, w.deref hd = some b ∧ b.m_ref_cnt = 0 ∧
      entry_alloc w = some (some hd, w1) ∧
      xvbm_buffer_pool_entry_alloc w (some w.pool_addr) = some (some hd, w1) ∧
      w1.deref hd = some { b with m_ref_cnt := 1 } ∧
      (∀ q, q ≠ hd → w1.deref q = w.deref q) ∧
      w1.pool.m_free_list = tl ∧
      w1.pool.m_inuse_list = w.pool.m_inuse_list ++ [hd] ∧
      w1.pool.m_ref_cnt = (w.pool.m_ref_cnt + 1) % UINT32_MOD ∧
      (w.pool.m_ref_cnt ≠ UINT32_MAX → w1.pool.m_ref_cnt = w.pool.m_ref_cnt + 1) := by
  obtain ⟨hl, hc⟩ := reach_live anyOp ops w hr hlive
  have hmem : hd ∈ w.pool.m_free_list := by rw [hf]; exact List.mem_cons_self _ _
  obtain ⟨b, hb⟩ := hl.valid hd (hl.mem_free w hd hmem)
  have hz : b.m_ref_cnt = 0 := hl.freeZero hd hmem b hb
  have ha := entry_alloc_cons w hd tl b hf hb
  have hd1 := deref_set w _ hd b { b with m_ref_cnt := incU32 b.m_ref_cnt } hb
    (rfl : ({ w with
        heap := w.heap.set hd (some { b with m_ref_cnt := incU32 b.m_ref_cnt })
        pool := { w.pool with
          m_free_list := tl
          m_inuse_list := w.pool.m_inuse_list ++ [hd]
          m_ref_cnt := incU32 w.pool.m_ref_cnt } } : World).heap = _)
  refine ⟨b, _, hb, hz, ha, by rw [public_entry_alloc_eq w hlive]; exact ha, ?_, ?_, rfl, rfl,
    rfl, fun hne => incU32_of_ne_max _ hc.2 hne⟩
  · rw [hd1, if_pos rfl, hz]; rfl
  · intro q hq; rw [hd1, if_neg hq]

/-- C2, witness: the first allocation from a fresh pool of two buffers. -/
theorem C2_witness :
    ∃ b w1, (freshPool 2).deref 0 = some b ∧ b.m_ref_cnt = 0 ∧
      entry_alloc (freshPool 2) = some (some 0, w1) ∧
      xvbm_buffer_pool_entry_alloc (freshPool 2) (some (freshPool 2).pool_addr) =
        some (some 0, w1) ∧
      w1.deref 0 = some { b with m_ref_cnt := 1 } ∧
      (∀ q, q ≠ 0 → w1.deref q = (freshPool 2).deref q) ∧
      w1.pool.m_free_list = [1] ∧
      w1.pool.m_inuse_list = (freshPool 2).pool.m_inuse_list ++ [0] ∧
      w1.pool.m_ref_cnt = ((freshPool 2).pool.m_ref_cnt + 1) % UINT32_MOD ∧
      ((freshPool 2).pool.m_ref_cnt ≠ UINT32_MAX →
        w1.pool.m_ref_cnt = (freshPool 2).pool.m_ref_cnt + 1) :=
  C2_entry_alloc_pops_head [] (freshPool 2) 0 [1] (reach_fresh 2 (Or.inr rfl)) (by decide)
    (by decide)

/-- C2, counterexample: after `entry_alloc`, `pool_destroy` twice and
`entry_free` on a pool of one buffer, the pool is live, its free list holds the
buffer and its counter is `2^32 - 1`; `entry_alloc` then returns the buffer and
the counter is 0, not one more. -/
theorem C2_counterexample :
    Reach anyOp [Op.entry_free (some 0), Op.pool_destroy, Op.pool_destroy, Op.entry_alloc]
      (after 1 [Op.entry_alloc, Op.pool_destroy, Op.pool_destroy, Op.entry_free (some 0)]) ∧
    (after 1 [Op.entry_alloc, Op.pool_destroy, Op.pool_destroy,
      Op.entry_free (some 0)]).pool_deleted = false ∧
    (after 1 [Op.entry_alloc, Op.pool_destroy, Op.pool_destroy,
      Op.entry_free (some 0)]).pool.m_free_list = [0] ∧
    (after 1 [Op.entry_alloc, Op.pool_destroy, Op.pool_destroy,
      Op.entry_free (some 0)]).pool.m_ref_cnt = 4294967295 ∧
    (entry_alloc (after 1 [Op.entry_alloc, Op.pool_destroy, Op.pool_destroy,
      Op.entry_free (some 0)])).map (fun r => (r.1, r.2.pool.m_ref_cnt)) = some (some 0, 0) :=
  ⟨reach_run [] (freshPool 1) (reach_fresh 1 (Or.inl rfl))
      [Op.entry_alloc, Op.pool_destroy, Op.pool_destroy, Op.entry_free (some 0)] _ (by decide),
    by decide, by decide, by decide, by decide⟩
theorem refcnt_inc_frame (w w1 : World) (b_handle : Option Nat)
    (h : xvbm_buffer_refcnt_inc w b_handle = some w1) :
    w1.pool = w.pool ∧ w1.pool_deleted = w.pool_deleted := by
  unfold xvbm_buffer_refcnt_inc at h
  cases b_handle with
  | none => simp at h
  | some buffer =>
    simp only at h
    cases hb : w.deref buffer with
    | none => rw [hb] at h; simp at h
    | some b =>
      rw [hb] at h
      simp only at h
      cases hp : b.m_p_handle with
      | none => rw [hp] at h; simp at h
      | some p =>
        rw [hp] at h
        simp only at h
        split at h
        · split at h
          · simp only [Option.some.injEq] at h; subst h; exact ⟨rfl, rfl⟩
          · simp only [Option.some.injEq] at h; subst h; exact ⟨rfl, rfl⟩
        · simp at h

/-- C4 (amended): in every reachable state of a live pool, `m_ref_cnt` equals
1 plus the number of in-use buffers minus the number of `pool_destroy` calls
made so far, in `uint32_t` arithmetic; with at most one `pool_destroy` call and
fewer than `2^32 - 1` in-use buffers it is exactly (1 if `pool_destroy` has not
been called, else 0) plus the number of in-use buffers. It does not depend on
the counts of the buffers: `xvbm_buffer_refcnt_inc` never changes the pool
counter or the in-use list. -/
theorem C4_pool_counter (ops : List Op) (w : World) (hr : Reach anyOp ops w)
    (hlive : w.pool_deleted = false) :
    (w.pool.m_ref_cnt + destroyCount ops) % UINT32_MOD =
      (w.pool.m_inuse_list.length + 1) % UINT32_MOD ∧
    w.pool.m_ref_cnt < UINT32_MOD ∧
    (destroyCount ops ≤ 1 → w.pool.m_inuse_list.length + 1 < UINT32_MOD →
      w.pool.m_ref_cnt =
        (if destroyCount ops = 0 then 1 else 0) + w.pool.m_inuse_list.length) ∧
    (∀ b_handle w1, xvbm_buffer_refcnt_inc w b_handle = some w1 →
      w1.pool.m_ref_cnt = w.pool.m_ref_cnt ∧
      w1.pool.m_inuse_list = w.pool.m_inuse_list) := by
  obtain ⟨_, hc⟩ := reach_live anyOp ops w hr hlive
  refine ⟨hc.1, hc.2, ?_, ?_⟩
  · intro hd hlt
    have h1 := hc.1
    have h2 := hc.2
    unfold UINT32_MOD at *
    split <;> omega
  · intro b_handle w1 h
    rw [(refcnt_inc_frame w w1 b_handle h).1]
    exact ⟨rfl, rfl⟩

/-- C4, witness: a pool of two buffers after two allocations and one
`pool_destroy`: the counter is 2. -/
theorem C4_witness :
    (after 2 [Op.entry_alloc, Op.entry_alloc, Op.pool_destroy]).pool.m_ref_cnt =
      (if destroyCount [Op.pool_destroy, Op.entry_alloc, Op.entry_alloc] = 0 then 1 else 0) +
        (after 2 [Op.entry_alloc, Op.entry_alloc, Op.pool_destroy]).pool.m_inuse_list.length :=
  (C4_pool_counter [Op.pool_destroy, Op.entry_alloc, Op.entry_alloc]
    (after 2 [Op.entry_alloc, Op.entry_alloc, Op.pool_destroy])
    (reach_run [] (freshPool 2) (reach_fresh 2 (Or.inr rfl))
      [Op.entry_alloc, Op.entry_alloc, Op.pool_destroy] _ (by decide))
    (by decide)).2.2.1 (by decide) (by decide)

/-- C4, counterexample: a pool of two buffers after two allocations and two
`pool_destroy` calls is live, `pool_destroy` has been called, two buffers are in
use, and the counter is 1, not 0 + 2. -/
theorem C4_counterexample :
    Reach anyOp [Op.pool_destroy, Op.pool_destroy, Op.entry_alloc, Op.entry_alloc]
      (after 2 [Op.entry_alloc, Op.entry_alloc, Op.pool_destroy, Op.pool_destroy]) ∧
    (after 2 [Op.entry_alloc, Op.entry_alloc, Op.pool_destroy,
      Op.pool_destroy]).pool_deleted = false ∧
    (after 2 [Op.entry_alloc, Op.entry_alloc, Op.pool_destroy,
      Op.pool_destroy]).pool.m_inuse_list = [0, 1] ∧
    (after 2 [Op.entry_alloc, Op.entry_alloc, Op.pool_destroy,
      Op.pool_destroy]).pool.m_ref_cnt = 1 :=
  ⟨reach_run [] (freshPool 2) (reach_fresh 2 (Or.inr rfl))
      [Op.entry_alloc, Op.entry_alloc, Op.pool_destroy, Op.pool_destroy] _ (by decide),
    by decide, by decide, by decide⟩
theorem live_of_step (w w1 : World) (op : Op) (hs : step w op = some w1)
    (h1 : w1.pool_deleted = false) : w.pool_deleted = false := by
  cases hd : w.pool_deleted with
  | false => rfl
  | true => rw [step_dead w w1 op hd hs] at h1; cases h1

/-- What is known when a call tears the pool down. -/
theorem step_teardown_info (d : Nat) (w w1 : World) (op : Op) (hlive : w.pool_deleted = false)
    (hl : ListsOK w) (hc : CntOK d w) (hs : step w op = some w1)
    (hdel : w1.pool_deleted = true) :
    w1.pool.m_inuse_list = [] ∧ w1.pool.m_free_list = [] ∧
    (d + (if op.isDestroy = true then 1 else 0)) % UINT32_MOD = 1 := by
  have hcnt : ∀ x : World, CntOK d x → decU32 x.pool.m_ref_cnt = 0 → x.pool.m_inuse_list = [] →
      d % UINT32_MOD = 0 := by
    intro x hx h0 hi
    unfold CntOK at hx
    rw [hi] at hx
    unfold decU32 UINT32_MAX at h0
    unfold UINT32_MOD at *
    simp only [List.length_nil] at hx
    split at h0 <;> omega
  cases op with
  | entry_alloc =>
    simp only [step, public_entry_alloc_eq w hlive, Option.map_eq_some'] at hs
    obtain ⟨⟨r, w2⟩, h1, h2⟩ := hs
    simp only at h2; subst h2
    cases hf : w.pool.m_free_list with
    | nil =>
      rw [entry_alloc_nil w hf] at h1
      simp only [Option.some.injEq, Prod.mk.injEq] at h1
      rw [← h1.2, hlive] at hdel; cases hdel
    | cons hd tl =>
      obtain ⟨b, hb⟩ := hl.valid hd (hl.mem_free w hd (by rw [hf]; exact List.mem_cons_self _ _))
      rw [entry_alloc_cons w hd tl b hf hb] at h1
      simp only [Option.some.injEq, Prod.mk.injEq] at h1
      rw [← h1.2] at hdel
      simp only [hlive] at hdel; cases hdel
  | entry_free b_handle =>
    cases b_handle with
    | none =>
      simp [step, xvbm_buffer_pool_entry_free] at hs
      subst hs; rw [hlive] at hdel; cases hdel
    | some buffer =>
      cases hb : w.deref buffer with
      | none => simp [step, xvbm_buffer_pool_entry_free, hb] at hs
      | some b =>
        simp only [step, public_entry_free_eq w buffer b hlive hl hb] at hs
        rcases entry_free_cases w buffer b hl hb with ⟨_, h⟩ | ⟨h1, h⟩ | ⟨_, hm, _, h⟩ |
          ⟨_, hm, ht, w2, hrel, h⟩
        · rw [h] at hs; simp at hs; subst hs; rw [hlive] at hdel; cases hdel
        · rw [h] at hs; simp at hs; subst hs
          simp only [World.setBuf, hlive] at hdel; cases hdel
        · rw [h] at hs; simp at hs; subst hs
          simp only [decCnt, moved, hlive] at hdel; cases hdel
        · rw [h] at hs; simp at hs; subst hs
          have hp := (release_all_pool _ _ _ hrel).1
          have hi : (moved w buffer b).pool.m_inuse_list = [] :=
            List.length_eq_zero.1 ht.2.1
          refine ⟨?_, rfl, ?_⟩
          · simp only [deleteThis, if_true, hp]; exact hi
          · have hc2 := hc.cnt_moved d w buffer b hm
            have := hc.2
            unfold CntOK at hc2
            simp only [decCnt] at hc2
            rw [ht.1, hi] at hc2
            simp only [Op.isDestroy, Bool.false_eq_true, if_false]
            unfold UINT32_MOD at *
            simp only [List.length_nil] at hc2
            omega
  | refcnt_inc b_handle =>
    have := (refcnt_inc_frame w w1 b_handle hs).2
    rw [this, hlive] at hdel; cases hdel
  | extend b_handle n env =>
    cases b_handle with
    | none => simp [step, xvbm_buffer_pool_extend] at hs
    | some buffer =>
      cases hb : w.deref buffer with
      | none => simp [step, xvbm_buffer_pool_extend, hb] at hs
      | some b =>
        simp only [step, xvbm_buffer_pool_extend, hb, (hl.owner buffer b hb).2.1,
          poolLive_self w hlive, if_true] at hs
        cases he : extend w n env with
        | none => rw [he] at hs; simp at hs
        | some res =>
          obtain ⟨r, w2⟩ := res
          obtain ⟨_, _, _, _, h5⟩ := extend_inv w w2 n env r hl he
          have hw : w1 = w2 := by
            rw [he] at hs
            cases r <;> simp at hs <;> exact hs.symm
          subst hw
          rw [h5, hlive] at hdel; cases hdel
  | pool_destroy =>
    simp only [step, public_destroy_eq w hlive] at hs
    rcases destroy_cases w hl with ⟨_, h⟩ | ⟨ht, w2, hrel, _, h⟩
    · rw [h] at hs; simp at hs; subst hs
      simp only [decCnt, hlive] at hdel; cases hdel
    · rw [h] at hs; simp at hs; subst hs
      have hp := (release_all_pool _ _ _ hrel).1
      have hi : w.pool.m_inuse_list = [] := List.length_eq_zero.1 ht.2.1
      refine ⟨?_, rfl, ?_⟩
      · simp only [deleteThis, if_true, hp]; exact hi
      · have := hcnt w hc ht.1 hi
        simp only [Op.isDestroy, if_true]
        unfold UINT32_MOD at *
        omega
/-- C5: from a reachable state of a live pool, in a sequence with at most one
`pool_destroy` call so far (this call included), a call tears the pool down if
and only if, after it, `pool_destroy` has been called and the in-use list is
empty. `pool_destroy` always returns; called while buffers are in use it only
decrements the counter (nothing is released, nothing is deleted), and the
`entry_free` that then returns the last in-use buffer tears the pool down. -/
theorem C5_teardown_iff_released_and_idle (ops : List Op) (w : World)
    (hr : Reach anyOp ops w) (hlive : w.pool_deleted = false) :
    (∀ op w1, step w op = some w1 → destroyCount (op :: ops) ≤ 1 →
      (w1.pool_deleted = true ↔
        destroyCount (op :: ops) = 1 ∧ w1.pool.m_inuse_list = [])) ∧
    (∃ w1, step w Op.pool_destroy = some w1) ∧
    (w.pool.m_inuse_list ≠ [] → step w Op.pool_destroy = some (decCnt w)) ∧
    (∀ buffer b, destroyCount ops = 1 → w.deref buffer = some b → b.m_ref_cnt = 1 →
      w.pool.m_inuse_list = [buffer] →
      ∃ w1, step w (Op.entry_free (some buffer)) = some w1 ∧ w1.pool_deleted = true) := by
  obtain ⟨hl, hc⟩ := reach_live anyOp ops w hr hlive
  have hiff : ∀ op w1, step w op = some w1 → destroyCount (op :: ops) ≤ 1 →
      (w1.pool_deleted = true ↔
        destroyCount (op :: ops) = 1 ∧ w1.pool.m_inuse_list = []) := by
    intro op w1 hs hone
    constructor
    · intro hdel
      obtain ⟨h1, _, h3⟩ := step_teardown_info _ w w1 op hlive hl hc hs hdel
      rw [← countP_step] at h3
      refine ⟨?_, h1⟩
      unfold UINT32_MOD at h3
      omega
    · rintro ⟨h1, h2⟩
      cases hd : w1.pool_deleted with
      | true => rfl
      | false =>
        exfalso
        have hr1 : Reach anyOp (op :: ops) w1 := Reach.step ops w w1 op hr trivial hs
        obtain ⟨_, hc1⟩ := reach_live anyOp _ w1 hr1 hd
        rcases reach_nonzero anyOp _ w1 hr1 with hdead | hz
        · rw [hd] at hdead; cases hdead
        · apply hz
          refine ⟨?_, h2⟩
          unfold CntOK at hc1
          rw [h1, h2] at hc1
          unfold UINT32_MOD at hc1
          simp only [List.length_nil] at hc1
          omega
  refine ⟨hiff, ?_, ?_, ?_⟩
  · simp only [step, public_destroy_eq w hlive]
    rcases destroy_cases w hl with ⟨_, h⟩ | ⟨_, w2, _, _, h⟩ <;> exact ⟨_, h⟩
  · intro hne
    simp only [step, public_destroy_eq w hlive]
    rcases destroy_cases w hl with ⟨_, h⟩ | ⟨ht, _⟩
    · exact h
    · exact (hne (List.length_eq_zero.1 ht.2.1)).elim
  · intro buffer b hd1 hb h1 hi
    obtain ⟨ret, w1, hcall⟩ := entry_free_total w buffer b hlive hl hb
    have hs : step w (Op.entry_free (some buffer)) = some w1 := by
      simp only [step, hcall, Option.map_some']
    refine ⟨w1, hs, ?_⟩
    have hcnt : destroyCount (Op.entry_free (some buffer) :: ops) = 1 := by
      rw [countP_step, hd1]; rfl
    refine (hiff _ w1 hs (le_of_eq hcnt)).2 ⟨hcnt, ?_⟩
    have hm : buffer ∈ w.pool.m_inuse_list := by rw [hi]; exact List.mem_singleton_self _
    have hmv := (moved_iff w w1 buffer b w.pool_addr ret hb (hl.owner buffer b hb).2.1
      (poolLive_self w hlive) hcall).1
    rw [public_entry_free_eq w buffer b hlive hl hb, entry_free_last w buffer b hb h1 hm] at hcall
    have hret : ret = true := by
      cases hdl : destroy_l (moved w buffer b) with
      | none => rw [hdl] at hcall; simp at hcall
      | some r =>
        rw [hdl] at hcall
        simp only [Option.map_some', Option.some.injEq, Prod.mk.injEq] at hcall
        exact hcall.1.symm
    obtain ⟨buffer1, b1, e1, _, _, _, e5, _⟩ := hmv.1 hret
    simp only [Option.some.injEq] at e1; subst e1
    rw [e5, hi]; simp

/-- C5, witness: on a pool of one buffer that is in use and whose
`pool_destroy` has been called, the `entry_free` of the buffer tears the pool
down. -/
theorem C5_witness :
    ((after 1 [Op.entry_alloc, Op.pool_destroy, Op.entry_free (some 0)]).pool_deleted = true ↔
      destroyCount [Op.entry_free (some 0), Op.pool_destroy, Op.entry_alloc] = 1 ∧
        (after 1 [Op.entry_alloc, Op.pool_destroy,
          Op.entry_free (some 0)]).pool.m_inuse_list = []) :=
  (C5_teardown_iff_released_and_idle [Op.pool_destroy, Op.entry_alloc]
    (after 1 [Op.entry_alloc, Op.pool_destroy])
    (reach_run [] (freshPool 1) (reach_fresh 1 (Or.inl rfl)) [Op.entry_alloc, Op.pool_destroy]
      _ (by decide))
    (by decide)).1 (Op.entry_free (some 0))
    (after 1 [Op.entry_alloc, Op.pool_destroy, Op.entry_free (some 0)]) (by decide) (by decide)
theorem releaseEvents_freedBO (w : World) (l : List Nat) :
    (releaseEvents w l).filterMap Event.freedBO = boHandles w l := by
  induction l with
  | nil => rfl
  | cons p rest ih =>
    unfold releaseEvents boHandles at *
    rw [List.flatMap_cons, List.filterMap_append, ih]
    cases hb : w.deref p with
    | none => simp [hb]
    | some b =>
      simp only [hb, List.filterMap_cons, Option.map_some']
      split <;> simp [Event.freedBO]

theorem releaseEvents_freedPtr (w : World) (l : List Nat) :
    (releaseEvents w l).filterMap Event.freedPtr = hostMirrors w l := by
  induction l with
  | nil => rfl
  | cons p rest ih =>
    unfold releaseEvents hostMirrors at *
    rw [List.flatMap_cons, List.filterMap_append, ih]
    cases hb : w.deref p with
    | none => simp [hb]
    | some b =>
      simp only [hb, List.filterMap_cons, Option.map_some']
      by_cases hz : b.m_hptr = 0
      · simp [hz, Event.freedPtr]
      · simp [hz, Event.freedPtr]

theorem releaseEvents_kind (w : World) (l : List Nat) (e : Event)
    (he : e ∈ releaseEvents w l) : (∃ bo, e = Event.xclFreeBO bo) ∨ ∃ ptr, e = Event.free ptr := by
  unfold releaseEvents at he
  rw [List.mem_flatMap] at he
  obtain ⟨p, _, hp⟩ := he
  cases hb : w.deref p with
  | none => simp [hb] at hp
  | some b =>
    simp only [hb] at hp
    split at hp
    · simp only [List.mem_cons, List.mem_singleton, List.not_mem_nil, or_false] at hp
      rcases hp with h | h
      · exact Or.inl ⟨_, h⟩
      · exact Or.inr ⟨_, h⟩
    · simp only [List.mem_singleton] at hp
      exact Or.inl ⟨_, hp⟩

/-- What `destroy_l` does when it tears a consistent pool down. -/
theorem teardown_effect (x x1 : World) (hl : ListsOK x) (ht : tearsDown x)
    (hd : destroy_l x = some (true, x1)) :
    x1.log = x.log ++ releaseEvents x x.pool.m_free_list ∧
    x.pool.m_free_list.Perm x.pool.m_alloc_vector ∧
    x1.pool.m_free_list = [] ∧ (∀ q, x1.deref q = none) := by
  have hnd : x.pool.m_free_list.Nodup := (List.nodup_append.1 hl.nodup_lists).1
  obtain ⟨w2, h2, _, _, _, _, _, h8, h9⟩ :=
    release_all_some x.pool.m_free_list (decCnt x) hnd
      (fun p hp => hl.valid p (hl.mem_free x p hp))
  rw [destroy_l_of_tears x ht, h2] at hd
  simp only [Option.map_some', Option.some.injEq, Prod.mk.injEq, true_and] at hd
  subst hd
  have hperm : x.pool.m_free_list.Perm x.pool.m_alloc_vector := by
    have := hl.perm
    rw [List.length_eq_zero.1 ht.2.1, List.append_nil] at this
    exact this
  refine ⟨h8, hperm, rfl, ?_⟩
  intro q
  change w2.deref q = none
  rw [h9]
  split
  · rfl
  · rename_i hq
    change x.deref q = none
    cases hb : x.deref q with
    | none => rfl
    | some b => exact (hq (hperm.symm.subset (hl.owner q b hb).1)).elim
/-- A call that tears the pool down is a `pool_destroy`, or an `entry_free`
that first moved its buffer to the free list; `x` is the state in which
`destroy_l` is called. -/
theorem step_teardown_cases (w w1 : World) (op : Op) (hlive : w.pool_deleted = false)
    (hl : ListsOK w) (hs : step w op = some w1) (hdel : w1.pool_deleted = true) :
    ∃ x x1, ListsOK x ∧ tearsDown x ∧ destroy_l x = some (true, x1) ∧
      w1 = deleteThis true x1 ∧
      (x = w ∨ ∃ buffer b, w.deref buffer = some b ∧ x = moved w buffer b) := by
  cases op with
  | entry_alloc =>
    simp only [step, public_entry_alloc_eq w hlive, Option.map_eq_some'] at hs
    obtain ⟨⟨r, w2⟩, h1, h2⟩ := hs
    simp only at h2; subst h2
    cases hf : w.pool.m_free_list with
    | nil =>
      rw [entry_alloc_nil w hf] at h1
      simp only [Option.some.injEq, Prod.mk.injEq] at h1
      rw [← h1.2, hlive] at hdel; cases hdel
    | cons hd tl =>
      obtain ⟨b, hb⟩ := hl.valid hd (hl.mem_free w hd (by rw [hf]; exact List.mem_cons_self _ _))
      rw [entry_alloc_cons w hd tl b hf hb] at h1
      simp only [Option.some.injEq, Prod.mk.injEq] at h1
      rw [← h1.2] at hdel
      simp only [hlive] at hdel; cases hdel
  | entry_free b_handle =>
    cases b_handle with
    | none =>
      simp [step, xvbm_buffer_pool_entry_free] at hs
      subst hs; rw [hlive] at hdel; cases hdel
    | some buffer =>
      cases hb : w.deref buffer with
      | none => simp [step, xvbm_buffer_pool_entry_free, hb] at hs
      | some b =>
        simp only [step, public_entry_free_eq w buffer b hlive hl hb] at hs
        rcases entry_free_cases w buffer b hl hb with ⟨_, h⟩ | ⟨h1, h⟩ | ⟨_, hm, _, h⟩ |
          ⟨_, hm, ht, w2, hrel, h⟩
        · rw [h] at hs; simp at hs; subst hs; rw [hlive] at hdel; cases hdel
        · rw [h] at hs; simp at hs; subst hs
          simp only [World.setBuf, hlive] at hdel; cases hdel
        · rw [h] at hs; simp at hs; subst hs
          simp only [decCnt, moved, hlive] at hdel; cases hdel
        · rw [h] at hs; simp at hs; subst hs
          refine ⟨moved w buffer b, _, hl.lists_moved w buffer b hb hm, ht, ?_, rfl,
            Or.inr ⟨buffer, b, hb, rfl⟩⟩
          rw [destroy_l_of_tears _ ht, hrel]; rfl
  | refcnt_inc b_handle =>
    have := (refcnt_inc_frame w w1 b_handle hs).2
    rw [this, hlive] at hdel; cases hdel
  | extend b_handle n env =>
    cases b_handle with
    | none => simp [step, xvbm_buffer_pool_extend] at hs
    | some buffer =>
      cases hb : w.deref buffer with
      | none => simp [step, xvbm_buffer_pool_extend, hb] at hs
      | some b =>
        simp only [step, xvbm_buffer_pool_extend, hb, (hl.owner buffer b hb).2.1,
          poolLive_self w hlive, if_true] at hs
        cases he : extend w n env with
        | none => rw [he] at hs; simp at hs
        | some res =>
          obtain ⟨r, w2⟩ := res
          obtain ⟨_, _, _, _, h5⟩ := extend_inv w w2 n env r hl he
          have hw : w1 = w2 := by
            rw [he] at hs
            cases r <;> simp at hs <;> exact hs.symm
          subst hw
          rw [h5, hlive] at hdel; cases hdel
  | pool_destroy =>
    simp only [step, public_destroy_eq w hlive] at hs
    rcases destroy_cases w hl with ⟨_, h⟩ | ⟨ht, w2, hrel, _, h⟩
    · rw [h] at hs; simp at hs; subst hs
      simp only [decCnt, hlive] at hdel; cases hdel
    · rw [h] at hs; simp at hs; subst hs
      refine ⟨w, _, hl, ht, ?_, rfl, Or.inl rfl⟩
      rw [destroy_l_of_tears _ ht, hrel]; rfl

theorem boHandles_congr (x w : World) (l : List Nat)
    (h : ∀ q, (x.deref q).map (fun b => b.m_bo_handle) = (w.deref q).map fun b => b.m_bo_handle) :
    boHandles x l = boHandles w l := by
  unfold boHandles
  exact List.filterMap_congr (fun q _ => h q)

theorem hostMirrors_congr (x w : World) (l : List Nat)
    (h : ∀ q, (x.deref q).map (fun b => b.m_hptr) = (w.deref q).map fun b => b.m_hptr) :
    hostMirrors x l = hostMirrors w l := by
  unfold hostMirrors
  rw [List.filterMap_congr (fun q _ => h q)]

theorem boHandles_length (w : World) (hl : ListsOK w) (l : List Nat)
    (hsub : ∀ p ∈ l, p ∈ w.pool.m_alloc_vector) : (boHandles w l).length = l.length := by
  induction l with
  | nil => rfl
  | cons p rest ih =>
    obtain ⟨b, hb⟩ := hl.valid p (hsub p (List.mem_cons_self _ _))
    unfold boHandles at *
    rw [List.filterMap_cons, hb]
    simp only [Option.map_some', List.length_cons, add_left_inj]
    exact ih (fun q hq => hsub q (List.mem_cons_of_mem _ hq))

/-- C6: whenever a call made in a reachable state of a live pool tears the
pool down, the calls it makes to the outside are `xclFreeBO` and `free` calls
only; the `xclFreeBO` calls are, up to order, exactly one call for the backend
handle of each buffer of the allocation sequence; the `free` calls are, up to
order, exactly one call for each (non-null) host mirror; afterwards the free
list is empty and no buffer object exists. -/
theorem C6_teardown_releases_each_buffer_once (ops : List Op) (w w1 : World) (op : Op)
    (hr : Reach anyOp ops w) (hlive : w.pool_deleted = false)
    (hs : step w op = some w1) (hdel : w1.pool_deleted = true) :
    ∃ evs, w1.log = w.log ++ evs ∧
      (∀ e ∈ evs, (∃ bo, e = Event.xclFreeBO bo) ∨ ∃ ptr, e = Event.free ptr) ∧
      (evs.filterMap Event.freedBO).Perm (boHandles w w.pool.m_alloc_vector) ∧
      (boHandles w w.pool.m_alloc_vector).length = w.pool.m_alloc_vector.length ∧
      (evs.filterMap Event.freedPtr).Perm (hostMirrors w w.pool.m_alloc_vector) ∧
      w1.pool.m_free_list = [] ∧ ∀ q, w1.deref q = none := by
  obtain ⟨hl, _⟩ := reach_live anyOp ops w hr hlive
  obtain ⟨x, x1, hlx, ht, hd, hw1, hx⟩ := step_teardown_cases w w1 op hlive hl hs hdel
  obtain ⟨e1, e2, e3, e4⟩ := teardown_effect x x1 hlx ht hd
  have hsame : x.log = w.log ∧ x.pool.m_alloc_vector = w.pool.m_alloc_vector ∧
      (∀ q, (x.deref q).map (fun b => b.m_bo_handle) =
        (w.deref q).map fun b => b.m_bo_handle) ∧
      (∀ q, (x.deref q).map (fun b => b.m_hptr) = (w.deref q).map fun b => b.m_hptr) := by
    rcases hx with hx | ⟨buffer, b, hb, hx⟩
    · subst hx; exact ⟨rfl, rfl, fun _ => rfl, fun _ => rfl⟩
    · subst hx
      have hd := deref_set w (moved w buffer b) buffer b { b with m_ref_cnt := 0 } hb rfl
      refine ⟨rfl, rfl, fun q => ?_, fun q => ?_⟩
      · rw [hd]; split
        · rename_i hq; rw [hq, hb]; rfl
        · rfl
      · rw [hd]; split
        · rename_i hq; rw [hq, hb]; rfl
        · rfl
  obtain ⟨s1, s2, s3, s4⟩ := hsame
  refine ⟨releaseEvents x x.pool.m_free_list, ?_, releaseEvents_kind x _, ?_,
    boHandles_length w hl _ (fun p hp => hp), ?_, ?_, ?_⟩
  · rw [hw1, ← s1, ← e1]; rfl
  · rw [releaseEvents_freedBO, boHandles_congr x w _ s3, ← s2]
    unfold boHandles
    exact e2.filterMap _
  · rw [releaseEvents_freedPtr, hostMirrors_congr x w _ s4, ← s2]
    unfold hostMirrors
    exact (e2.filterMap _).filter _
  · rw [hw1]; exact e3
  · intro q; rw [hw1]; exact e4 q

/-- C6, witness: `pool_destroy` on a fresh pool of two buffers. -/
theorem C6_witness :
    ∃ evs, (after 2 [Op.pool_destroy]).log = (freshPool 2).log ++ evs ∧
      (∀ e ∈ evs, (∃ bo, e = Event.xclFreeBO bo) ∨ ∃ ptr, e = Event.free ptr) ∧
      (evs.filterMap Event.freedBO).Perm (boHandles (freshPool 2) [0, 1]) ∧
      (boHandles (freshPool 2) [0, 1]).length = 2 ∧
      (evs.filterMap Event.freedPtr).Perm (hostMirrors (freshPool 2) [0, 1]) ∧
      (after 2 [Op.pool_destroy]).pool.m_free_list = [] ∧
      ∀ q, (after 2 [Op.pool_destroy]).deref q = none :=
  C6_teardown_releases_each_buffer_once [] (freshPool 2) (after 2 [Op.pool_destroy])
    Op.pool_destroy (reach_fresh 2 (Or.inr rfl)) (by decide) (by decide) (by decide)
theorem Reach.mono (G G1 : World → Op → Prop) (hG : ∀ w op, G w op → G1 w op)
    (ops : List Op) (w : World) (h : Reach G ops w) : Reach G1 ops w := by
  induction h with
  | init d_handle num_buffers size flags env hd w hnum hsize hcreate =>
    exact Reach.init d_handle num_buffers size flags env hd w hnum hsize hcreate
  | step ops w w1 op _ hguard hstep ih =>
    exact Reach.step ops w w1 op ih (hG w op hguard) hstep

theorem create_buffer_keeps (w w1 : World) (index : Int) (e : BufEnv) (r : Option Nat)
    (hc : create_buffer w index e = (r, w1)) : KeepsBuffers w w1 := by
  intro q b hb
  cases r with
  | none =>
    obtain ⟨_, _, _, hh⟩ := create_buffer_none w w1 index e hc
    rw [deref_append_none w w1 hh]; exact hb
  | some n =>
    obtain ⟨_, _, _, _, hh⟩ := create_buffer_some w w1 index e n hc
    rw [deref_append_new w w1 _ hh, if_neg (Nat.ne_of_lt (deref_lt w q b hb))]; exact hb

theorem create_loop_keeps (env : Nat → BufEnv) (n : Nat) : ∀ (w : World) (first : Int) (k : Nat),
    KeepsBuffers w (create_loop w first env k n).2 := by
  induction n with
  | zero => intro w first k q b hb; exact hb
  | succ n ih =>
    intro w first k
    unfold create_loop
    cases hc : create_buffer w first (env k) with
    | mk r w1 =>
      have h1 := create_buffer_keeps w w1 first (env k) r hc
      cases r with
      | none => exact h1
      | some b => exact fun q c hq => ih w1 (first + 1) (k + 1) q c (h1 q c hq)

theorem extend_keeps (w w1 : World) (num_buffers : Int) (env : Nat → BufEnv) (r : Option Int)
    (he : extend w num_buffers env = some (r, w1)) : KeepsBuffers w w1 := by
  unfold extend at he
  simp only at he
  split at he
  · simp at he
  · have h1 := create_loop_keeps env num_buffers.toNat w w.pool.m_num_buffers 0
    generalize create_loop w w.pool.m_num_buffers env 0 num_buffers.toNat = res at he h1
    obtain ⟨ok, w2⟩ := res
    cases ok with
    | false =>
      simp only [Option.some.injEq, Prod.mk.injEq] at he
      rw [← he.2]; exact h1
    | true =>
      simp only [Option.some.injEq, Prod.mk.injEq] at he
      rw [← he.2]; exact h1

theorem step_inuse_pos (w w1 : World) (op : Op) (hlive : w.pool_deleted = false)
    (hl : ListsOK w) (hpos : InUsePos w) (hg : noWrapNoDestroy w op)
    (hs : step w op = some w1) : w1.pool_deleted = true ∨ InUsePos w1 := by
  cases op with
  | entry_alloc =>
    simp only [step, public_entry_alloc_eq w hlive, Option.map_eq_some'] at hs
    obtain ⟨⟨r, w2⟩, h1, h2⟩ := hs
    simp only at h2; subst h2
    cases hf : w.pool.m_free_list with
    | nil =>
      rw [entry_alloc_nil w hf] at h1
      simp only [Option.some.injEq, Prod.mk.injEq] at h1
      rw [← h1.2]; exact Or.inr hpos
    | cons hd tl =>
      have hmem : hd ∈ w.pool.m_free_list := by rw [hf]; exact List.mem_cons_self _ _
      obtain ⟨b, hb⟩ := hl.valid hd (hl.mem_free w hd hmem)
      have hz := hl.freeZero hd hmem b hb
      rw [entry_alloc_cons w hd tl b hf hb] at h1
      simp only [Option.some.injEq, Prod.mk.injEq] at h1
      rw [← h1.2]
      refine Or.inr ?_
      intro p hp c hc
      rw [deref_set w _ hd b _ hb rfl] at hc
      by_cases e : p = hd
      · rw [if_pos e] at hc
        simp only [Option.some.injEq] at hc
        rw [← hc, hz]; exact Nat.zero_lt_one
      · rw [if_neg e] at hc
        simp only [List.mem_append, List.mem_singleton] at hp
        exact hpos p (hp.resolve_right e) c hc
  | entry_free b_handle =>
    cases b_handle with
    | none =>
      simp [step, xvbm_buffer_pool_entry_free] at hs
      subst hs; exact Or.inr hpos
    | some buffer =>
      cases hb : w.deref buffer with
      | none => simp [step, xvbm_buffer_pool_entry_free, hb] at hs
      | some b =>
        simp only [step, public_entry_free_eq w buffer b hlive hl hb] at hs
        rcases entry_free_cases w buffer b hl hb with ⟨_, h⟩ | ⟨h1, h⟩ | ⟨_, hm, _, h⟩ |
          ⟨_, _, _, w2, _, h⟩
        · rw [h] at hs; simp at hs; subst hs; exact Or.inr hpos
        · rw [h] at hs; simp at hs; subst hs
          refine Or.inr ?_
          intro p hp c hc
          rw [deref_set w _ buffer b _ hb rfl] at hc
          by_cases e : p = buffer
          · rw [if_pos e] at hc
            simp only [Option.some.injEq] at hc
            rw [← hc]; simp only; omega
          · rw [if_neg e] at hc; exact hpos p hp c hc
        · rw [h] at hs; simp at hs; subst hs
          refine Or.inr ?_
          intro p hp c hc
          have hnd : w.pool.m_inuse_list.Nodup := (List.nodup_append.1 hl.nodup_lists).2.1
          have hp2 : p ∈ w.pool.m_inuse_list.erase buffer := hp
          rw [hnd.mem_erase_iff] at hp2
          have hc2 : (moved w buffer b).deref p = some c := hc
          rw [deref_set w _ buffer b _ hb rfl, if_neg hp2.1] at hc2
          exact hpos p hp2.2 c hc2
        · rw [h] at hs; simp at hs; subst hs
          exact Or.inl rfl
  | refcnt_inc b_handle =>
    cases b_handle with
    | none => simp [step, xvbm_buffer_refcnt_inc] at hs
    | some buffer =>
      cases hb : w.deref buffer with
      | none => simp [step, xvbm_buffer_refcnt_inc, hb] at hs
      | some b =>
        have hw := hg.1 buffer b rfl hb
        simp only [step, public_refcnt_inc_eq w buffer b hlive hl hb] at hs
        split at hs
        · simp at hs; subst hs; exact Or.inr hpos
        · simp at hs; subst hs
          refine Or.inr ?_
          intro p hp c hc
          rw [deref_set w _ buffer b _ hb rfl] at hc
          by_cases e : p = buffer
          · rw [if_pos e] at hc
            simp only [Option.some.injEq] at hc
            rw [← hc]
            simp only [incU32, Nat.mod_eq_of_lt hw]; omega
          · rw [if_neg e] at hc; exact hpos p hp c hc
  | extend b_handle n env =>
    cases b_handle with
    | none => simp [step, xvbm_buffer_pool_extend] at hs
    | some buffer =>
      cases hb : w.deref buffer with
      | none => simp [step, xvbm_buffer_pool_extend, hb] at hs
      | some b =>
        simp only [step, xvbm_buffer_pool_extend, hb, (hl.owner buffer b hb).2.1,
          poolLive_self w hlive, if_true] at hs
        cases he : extend w n env with
        | none => rw [he] at hs; simp at hs
        | some res =>
          obtain ⟨r, w2⟩ := res
          obtain ⟨_, h2, _, _, _⟩ := extend_inv w w2 n env r hl he
          have hk := extend_keeps w w2 n env r he
          have hw : w1 = w2 := by
            rw [he] at hs
            cases r <;> simp at hs <;> exact hs.symm
          subst hw
          refine Or.inr ?_
          intro p hp c hc
          rw [h2] at hp
          obtain ⟨c0, hc0⟩ := hl.valid p (hl.mem_inuse w p hp)
          have := hk p c0 hc0
          rw [this] at hc
          simp only [Option.some.injEq] at hc
          rw [← hc]; exact hpos p hp c0 hc0
  | pool_destroy =>
    have := hg.2
    simp [noDestroy, Op.isDestroy] at this
theorem run_append (l1 l2 : List Op) : ∀ w : World,
    run w (l1 ++ l2) = (run w l1).bind fun w1 => run w1 l2 := by
  induction l1 with
  | nil => intro w; rfl
  | cons op rest ih =>
    intro w
    simp only [List.cons_append, run]
    cases step w op with
    | none => rfl
    | some w1 => simp only [Option.some_bind]; exact ih w1

theorem reach_run_guard (G : World → Op → Prop) (ops0 : List Op) (w : World)
    (h : Reach G ops0 w) :
    ∀ (ops : List Op) (w1 : World), (∀ op ∈ ops, ∀ x, G x op) → run w ops = some w1 →
      Reach G (ops.reverse ++ ops0) w1 := by
  intro ops
  induction ops generalizing ops0 w with
  | nil =>
    intro w1 _ hr
    simp only [run, Option.some.injEq] at hr
    subst hr; exact h
  | cons op ops ih =>
    intro w1 hg hr
    simp only [run] at hr
    cases hs : step w op with
    | none => rw [hs] at hr; simp at hr
    | some w2 =>
      rw [hs] at hr
      simp only [Option.some_bind] at hr
      have := ih (op :: ops0) w2
        (Reach.step ops0 w w2 op h (hg op (List.mem_cons_self _ _) w) hs) w1
        (fun o ho x => hg o (List.mem_cons_of_mem _ ho) x) hr
      simpa using this

/-- The effect of `n` calls of `xvbm_buffer_refcnt_inc` on a buffer with count
`r ≥ 1`, as long as `r + n ≤ 2^32`: the count becomes `(r + n) mod 2^32`. -/
theorem run_inc_iter (buffer : Nat) (n : Nat) : ∀ (w : World) (b : XvbmBuffer),
    w.pool_deleted = false → ListsOK w → w.deref buffer = some b → 0 < b.m_ref_cnt →
    b.m_ref_cnt + n ≤ UINT32_MOD →
    ∃ w1, run w (List.replicate n (Op.refcnt_inc (some buffer))) = some w1 ∧
      w1.pool = w.pool ∧ w1.pool_deleted = false ∧ ListsOK w1 ∧ w1.log = w.log ∧
      w1.deref buffer = some { b with m_ref_cnt := (b.m_ref_cnt + n) % UINT32_MOD } ∧
      ∀ q, q ≠ buffer → w1.deref q = w.deref q := by
  induction n with
  | zero =>
    intro w b hlive hl hb hpos hle
    refine ⟨w, rfl, rfl, hlive, hl, rfl, ?_, fun _ _ => rfl⟩
    rw [hb, Nat.add_zero, Nat.mod_eq_of_lt (hl.owner buffer b hb).2.2]
  | succ n ih =>
    intro w b hlive hl hb hpos hle
    obtain ⟨w1, h1, h2, h3, h4, h5, h6, h7⟩ := ih w b hlive hl hb hpos (by omega)
    have hlt : b.m_ref_cnt + n < UINT32_MOD := by omega
    rw [Nat.mod_eq_of_lt hlt] at h6
    have hstep : step w1 (Op.refcnt_inc (some buffer)) = some (w1.setBuf buffer
        { b with m_ref_cnt := (b.m_ref_cnt + (n + 1)) % UINT32_MOD }) := by
      simp only [step]
      rw [public_refcnt_inc_eq w1 buffer _ h3 h4 h6,
        if_neg (by show b.m_ref_cnt + n ≠ 0; omega)]
      rfl
    refine ⟨w1.setBuf buffer { b with m_ref_cnt := (b.m_ref_cnt + (n + 1)) % UINT32_MOD },
      ?_, ?_, ?_, ?_, ?_, ?_, ?_⟩
    · rw [List.replicate_succ', run_append, h1]
      simp only [Option.some_bind, run, hstep]
    · exact h2
    · exact h3
    · exact h4.setCnt w1 buffer { b with m_ref_cnt := b.m_ref_cnt + n }
        ((b.m_ref_cnt + (n + 1)) % UINT32_MOD) h6
        (by show b.m_ref_cnt + n ≠ 0; omega) (Nat.mod_lt _ (by decide))
    · exact h5
    · exact deref_setBuf_self w1 buffer _ _ h6
    · intro q hq
      rw [deref_setBuf_ne w1 buffer q _ hq]; exact h7 q hq

theorem reach_noDestroy (G : World → Op → Prop) (hG : ∀ w op, G w op → op.isDestroy = false)
    (ops : List Op) (w : World) (h : Reach G ops w) :
    destroyCount ops = 0 ∧ w.pool_deleted = false := by
  induction h with
  | init d_handle num_buffers size flags env hd w hnum hsize hcreate =>
    obtain ⟨_, f1⟩ := create_inv d_handle num_buffers size flags env hd w hcreate
    exact ⟨rfl, f1.2.2.2.1⟩
  | step ops w w1 op hr hguard hstep ih =>
    have hnd := hG w op hguard
    obtain ⟨hl, hc⟩ := reach_live G ops w hr ih.2
    refine ⟨by rw [countP_step, ih.1, hnd]; rfl, ?_⟩
    cases hd : w1.pool_deleted with
    | false => rfl
    | true =>
      have := (step_teardown_info _ w w1 op ih.2 hl hc hstep hd).2.2
      rw [ih.1, hnd] at this
      simp [UINT32_MOD] at this

/-- C3 (amended): in every state reachable from pool creation by a sequence of
`entry_alloc`, `entry_free`, `xvbm_buffer_refcnt_inc` and `extend` calls in
which no `xvbm_buffer_refcnt_inc` is made on a buffer whose count is
`2^32 - 1`, the pool is live, every buffer in the free list has count 0, every
buffer in the in-use list has count at least 1, and no buffer is in both
lists. -/
theorem C3_refcount_matches_list (ops : List Op) (w : World)
    (hr : Reach noWrapNoDestroy ops w) :
    w.pool_deleted = false ∧
    (∀ p ∈ w.pool.m_free_list, ∃ b, w.deref p = some b ∧ b.m_ref_cnt = 0) ∧
    (∀ p ∈ w.pool.m_inuse_list, ∃ b, w.deref p = some b ∧ 1 ≤ b.m_ref_cnt) ∧
    (∀ p, ¬ (p ∈ w.pool.m_free_list ∧ p ∈ w.pool.m_inuse_list)) := by
  have hG : ∀ (x : World) (op : Op), noWrapNoDestroy x op → op.isDestroy = false :=
    fun _ _ h => h.2
  have hpos : InUsePos w := by
    induction hr with
    | init d_handle num_buffers size flags env hd w hnum hsize hcreate =>
      obtain ⟨_, f1⟩ := create_inv d_handle num_buffers size flags env hd w hcreate
      intro p hp
      rw [f1.1] at hp
      simp [newPool] at hp
    | step ops w w1 op hr hguard hstep ih =>
      have hlive := (reach_noDestroy _ hG ops w hr).2
      have hl := (reach_live _ ops w hr hlive).1
      rcases step_inuse_pos w w1 op hlive hl ih hguard hstep with hd | hp
      · have := (reach_noDestroy _ hG _ w1 (Reach.step ops w w1 op hr hguard hstep)).2
        rw [this] at hd; cases hd
      · exact hp
  have hlive := (reach_noDestroy _ hG ops w hr).2
  have hl := (reach_live _ ops w hr hlive).1
  refine ⟨hlive, ?_, ?_, ?_⟩
  · intro p hp
    obtain ⟨b, hb⟩ := hl.valid p (hl.mem_free w p hp)
    exact ⟨b, hb, hl.freeZero p hp b hb⟩
  · intro p hp
    obtain ⟨b, hb⟩ := hl.valid p (hl.mem_inuse w p hp)
    exact ⟨b, hb, hpos p hp b hb⟩
  · rintro p ⟨h1, h2⟩
    exact (List.disjoint_of_nodup_append hl.nodup_lists) h1 h2
theorem reach_alloc1 (G : World → Op → Prop) (hG : ∀ x, G x Op.entry_alloc) :
    Reach G [Op.entry_alloc] (after 1 [Op.entry_alloc]) :=
  Reach.step [] (freshPool 1) _ Op.entry_alloc
    (Reach.init 0 1 1 0 okEnv 1 _ (by decide) (by decide) rfl) (hG _) (by decide)

/-- C3, witness: a pool of one buffer after `entry_alloc` and one
`xvbm_buffer_refcnt_inc`. -/
theorem C3_witness :
    (after 1 [Op.entry_alloc, Op.refcnt_inc (some 0)]).pool_deleted = false ∧
    (∀ p ∈ (after 1 [Op.entry_alloc, Op.refcnt_inc (some 0)]).pool.m_free_list,
      ∃ b, (after 1 [Op.entry_alloc, Op.refcnt_inc (some 0)]).deref p = some b ∧
        b.m_ref_cnt = 0) ∧
    (∀ p ∈ (after 1 [Op.entry_alloc, Op.refcnt_inc (some 0)]).pool.m_inuse_list,
      ∃ b, (after 1 [Op.entry_alloc, Op.refcnt_inc (some 0)]).deref p = some b ∧
        1 ≤ b.m_ref_cnt) ∧
    (∀ p, ¬ (p ∈ (after 1 [Op.entry_alloc, Op.refcnt_inc (some 0)]).pool.m_free_list ∧
      p ∈ (after 1 [Op.entry_alloc, Op.refcnt_inc (some 0)]).pool.m_inuse_list)) :=
  C3_refcount_matches_list [Op.refcnt_inc (some 0), Op.entry_alloc]
    (after 1 [Op.entry_alloc, Op.refcnt_inc (some 0)])
    (Reach.step [Op.entry_alloc] (after 1 [Op.entry_alloc]) _ (Op.refcnt_inc (some 0))
      (reach_alloc1 noWrapNoDestroy
        (fun _ => ⟨fun _ _ h => Op.noConfusion h, rfl⟩))
      ⟨fun buffer b h hb => by
          cases h
          have h0 : (after 1 [Op.entry_alloc]).deref 0 = some (buffer0 1) := by decide
          rw [h0] at hb
          cases hb
          decide,
        rfl⟩
      (by decide))

/-- C3, counterexample: on a pool of one buffer, after `entry_alloc` and
`2^32 - 1` calls of `xvbm_buffer_refcnt_inc` on the buffer, the pool is live and
the buffer is in the in-use list with count 0. -/
theorem C3_counterexample :
    ∃ w b, Reach noDestroy
        (List.replicate 4294967295 (Op.refcnt_inc (some 0)) ++ [Op.entry_alloc]) w ∧
      w.pool_deleted = false ∧ 0 ∈ w.pool.m_inuse_list ∧ w.deref 0 = some b ∧
      b.m_ref_cnt = 0 := by
  have hr := reach_alloc1 noDestroy (fun _ => rfl)
  have hlive : (after 1 [Op.entry_alloc]).pool_deleted = false := by decide
  have hl := (reach_live _ _ _ hr hlive).1
  obtain ⟨w1, h1, h2, h3, _, _, h6, _⟩ := run_inc_iter 0 4294967295 (after 1 [Op.entry_alloc])
    (buffer0 1) hlive hl (by decide) (by decide) (by decide)
  have hr1 := reach_run_guard noDestroy _ _ hr _ w1
    (fun op hop _ => by rw [List.eq_of_mem_replicate hop]; rfl) h1
  rw [List.reverse_replicate] at hr1
  refine ⟨w1, _, hr1, h3, ?_, h6, ?_⟩
  · rw [h2]; decide
  · decide
theorem free_zero_iter (buffer : Nat) (w : World) (b : XvbmBuffer)
    (hlive : w.pool_deleted = false) (hl : ListsOK w) (hb : w.deref buffer = some b)
    (h0 : b.m_ref_cnt = 0) (n : Nat) :
    freeResults w (some buffer) n = some (List.replicate n false, w) := by
  induction n with
  | zero => rfl
  | succ n ih =>
    simp only [freeResults, public_entry_free_eq w buffer b hlive hl hb,
      entry_free_zero w buffer b hb h0, ih, Option.map_some', List.replicate_succ]

theorem free_many_iter (buffer : Nat) (j : Nat) : ∀ (w : World) (b : XvbmBuffer),
    w.pool_deleted = false → ListsOK w → w.deref buffer = some b → j < b.m_ref_cnt →
    ∃ wj, freeResults w (some buffer) j = some (List.replicate j false, wj) ∧
      wj.pool = w.pool ∧ wj.pool_deleted = false ∧ ListsOK wj ∧
      wj.deref buffer = some { b with m_ref_cnt := b.m_ref_cnt - j } := by
  induction j with
  | zero =>
    intro w b hlive hl hb _
    exact ⟨w, rfl, rfl, hlive, hl, by rw [hb]; rfl⟩
  | succ j ih =>
    intro w b hlive hl hb hj
    have hl1 : ListsOK (w.setBuf buffer { b with m_ref_cnt := b.m_ref_cnt - 1 }) :=
      hl.setCnt w buffer b _ hb (by omega) (by have := (hl.owner buffer b hb).2.2; omega)
    obtain ⟨wj, h1, h2, h3, h4, h5⟩ := ih (w.setBuf buffer { b with m_ref_cnt := b.m_ref_cnt - 1 })
      { b with m_ref_cnt := b.m_ref_cnt - 1 } hlive hl1
      (deref_setBuf_self w buffer b _ hb) (by show j < b.m_ref_cnt - 1; omega)
    refine ⟨wj, ?_, h2, h3, h4, ?_⟩
    · simp only [freeResults, public_entry_free_eq w buffer b hlive hl hb,
        entry_free_many w buffer b hb (by omega), h1, Option.map_some', List.replicate_succ]
    · rw [h5]
      have : b.m_ref_cnt - 1 - j = b.m_ref_cnt - (j + 1) := by omega
      simp only [this]
/-- C7 (amended): for every `k` with `k + 1 < 2^32`, if a buffer of a reachable
live pool is freshly allocated (count 1) and `xvbm_buffer_refcnt_inc` is called
on it `k` times, its count is `k + 1`; for every `j ≤ k` the first `j`
`entry_free` calls on it each return false and leave the lists unchanged; the
`(k+1)`-th returns true and moves it to the free list; and, if that call did
not tear the pool down, every further `entry_free` returns false and changes
nothing. That call does not tear the pool down when `pool_destroy` has not been
called (more generally when the number of `pool_destroy` calls is not 1 modulo
`2^32`). -/
theorem C7_free_after_k_incs (ops : List Op) (w : World) (buffer : Nat) (b : XvbmBuffer)
    (k : Nat) (hr : Reach anyOp ops w) (hlive : w.pool_deleted = false)
    (hb : w.deref buffer = some b) (h1 : b.m_ref_cnt = 1) (hk : k + 1 < UINT32_MOD) :
    ∃ wk wf w2,
      run w (List.replicate k (Op.refcnt_inc (some buffer))) = some wk ∧
      wk.deref buffer = some { b with m_ref_cnt := k + 1 } ∧
      (∀ j, j ≤ k → ∃ wj, freeResults wk (some buffer) j = some (List.replicate j false, wj) ∧
        wj.pool.m_inuse_list = w.pool.m_inuse_list ∧
        wj.pool.m_free_list = w.pool.m_free_list ∧ buffer ∈ wj.pool.m_inuse_list) ∧
      freeResults wk (some buffer) k = some (List.replicate k false, wf) ∧
      xvbm_buffer_pool_entry_free wf (some buffer) = some (true, w2) ∧
      MovedToFree wf (some buffer) w2 ∧
      (w2.pool_deleted = false →
        ∀ n, freeResults w2 (some buffer) n = some (List.replicate n false, w2)) ∧
      (destroyCount ops % UINT32_MOD ≠ 1 → w2.pool_deleted = false) := by
  obtain ⟨hl, hcnt⟩ := reach_live anyOp ops w hr hlive
  have hin : buffer ∈ w.pool.m_inuse_list := hl.inuse_of_pos w buffer b hb (by omega)
  obtain ⟨wk, k1, k2, k3, k4, _, k6, _⟩ := run_inc_iter buffer k w b hlive hl hb (by omega)
    (by omega)
  have hmod : (b.m_ref_cnt + k) % UINT32_MOD = k + 1 := by
    rw [Nat.mod_eq_of_lt (by omega)]; omega
  rw [hmod] at k6
  have hiter : ∀ j, j ≤ k → ∃ wj,
      freeResults wk (some buffer) j = some (List.replicate j false, wj) ∧
      wj.pool = w.pool ∧ wj.pool_deleted = false ∧ ListsOK wj ∧
      wj.deref buffer = some { b with m_ref_cnt := k + 1 - j } := by
    intro j hj
    obtain ⟨wj, j1, j2, j3, j4, j5⟩ := free_many_iter buffer j wk _ k3 k4 k6
      (by show j < k + 1; omega)
    exact ⟨wj, j1, j2.trans k2, j3, j4, j5⟩
  obtain ⟨wf, f1, f2, f3, f4, f5⟩ := hiter k (le_refl k)
  have hone : k + 1 - k = 1 := by omega
  rw [hone] at f5
  have hinf : buffer ∈ wf.pool.m_inuse_list := by rw [f2]; exact hin
  have hfinal : ∃ w2, xvbm_buffer_pool_entry_free wf (some buffer) = some (true, w2) ∧
      (w2.pool_deleted = false →
        ListsOK w2 ∧ w2.deref buffer = some { b with m_ref_cnt := 0 }) := by
    rw [public_entry_free_eq wf buffer _ f3 f4 f5]
    rcases entry_free_cases wf buffer _ f4 f5 with ⟨h0, _⟩ | ⟨h0, _⟩ | ⟨_, hm, _, h⟩ |
      ⟨_, _, _, w3, _, h⟩
    · cases h0
    · exact absurd h0 (lt_irrefl 1)
    · refine ⟨_, h, fun _ => ⟨(f4.lists_moved wf buffer _ f5 hm).lists_decCnt, ?_⟩⟩
      exact (deref_set wf (decCnt (moved wf buffer { b with m_ref_cnt := 1 })) buffer _
        { b with m_ref_cnt := 0 } f5 rfl buffer).trans (if_pos rfl)
    · refine ⟨_, h, fun hd => ?_⟩
      simp [deleteThis] at hd
  obtain ⟨w2, g1, g2⟩ := hfinal
  refine ⟨wk, wf, w2, k1, k6, ?_, f1, g1, ?_, ?_, ?_⟩
  · intro j hj
    obtain ⟨wj, j1, j2, _, _, _⟩ := hiter j hj
    exact ⟨wj, j1, by rw [j2], by rw [j2], by rw [j2]; exact hin⟩
  · exact ((moved_iff wf w2 buffer _ wf.pool_addr true f5 (f4.owner buffer _ f5).2.1
      (poolLive_self wf f3) g1).1).1 rfl
  · intro hd n
    obtain ⟨g3, g4⟩ := g2 hd
    exact free_zero_iter buffer w2 _ hd g3 g4 rfl n
  · intro hd
    cases hdel : w2.pool_deleted with
    | false => rfl
    | true =>
      exfalso
      have hcf : CntOK (destroyCount ops) wf := by
        unfold CntOK at *; rw [f2]; exact hcnt
      have hs : step wf (Op.entry_free (some buffer)) = some w2 := by
        simp only [step, g1, Option.map_some']
      have := (step_teardown_info _ wf w2 _ f3 f4 hcf hs hdel).2.2
      simp only [Op.isDestroy, Bool.false_eq_true, if_false, Nat.add_zero] at this
      exact hd this

/-- C7, witness: `k = 2` on a pool of one buffer (the scenario of the test
`NegativeInc`). -/
theorem C7_witness :
    ∃ wk wf w2,
      run (after 1 [Op.entry_alloc]) (List.replicate 2 (Op.refcnt_inc (some 0))) = some wk ∧
      wk.deref 0 = some { buffer0 1 with m_ref_cnt := 2 + 1 } ∧
      (∀ j, j ≤ 2 → ∃ wj, freeResults wk (some 0) j = some (List.replicate j false, wj) ∧
        wj.pool.m_inuse_list = (after 1 [Op.entry_alloc]).pool.m_inuse_list ∧
        wj.pool.m_free_list = (after 1 [Op.entry_alloc]).pool.m_free_list ∧
        0 ∈ wj.pool.m_inuse_list) ∧
      freeResults wk (some 0) 2 = some (List.replicate 2 false, wf) ∧
      xvbm_buffer_pool_entry_free wf (some 0) = some (true, w2) ∧
      MovedToFree wf (some 0) w2 ∧
      (w2.pool_deleted = false →
        ∀ n, freeResults w2 (some 0) n = some (List.replicate n false, w2)) ∧
      (destroyCount [Op.entry_alloc] % UINT32_MOD ≠ 1 → w2.pool_deleted = false) :=
  C7_free_after_k_incs [Op.entry_alloc] (after 1 [Op.entry_alloc]) 0 (buffer0 1) 2
    (reach_alloc1 anyOp (fun _ => trivial)) (by decide) (by decide) rfl (by decide)

/-- C7, counterexample: (a) on a pool of one buffer whose `pool_destroy` has
been called, with `k = 0`, the first `entry_free` of the allocated buffer
returns true and tears the pool down, and a further `entry_free` on the deleted
buffer is undefined behaviour instead of returning false; (b) with
`k = 2^32 - 1` the count of the buffer is 0 after the `k` increments, so every
`entry_free` returns false and the `(k+1)`-th never returns true. -/
theorem C7_counterexample :
    (xvbm_buffer_pool_entry_free (after 1 [Op.entry_alloc, Op.pool_destroy]) (some 0) =
        some (true, after 1 [Op.entry_alloc, Op.pool_destroy, Op.entry_free (some 0)]) ∧
      xvbm_buffer_pool_entry_free
        (after 1 [Op.entry_alloc, Op.pool_destroy, Op.entry_free (some 0)]) (some 0) = none) ∧
    (∃ w, run (after 1 [Op.entry_alloc])
        (List.replicate 4294967295 (Op.refcnt_inc (some 0))) = some w ∧
      w.deref 0 = some (buffer0 0) ∧
      ∀ n, freeResults w (some 0) n = some (List.replicate n false, w)) := by
  refine ⟨⟨by decide, by decide⟩, ?_⟩
  have hr := reach_alloc1 anyOp (fun _ => trivial)
  have hlive : (after 1 [Op.entry_alloc]).pool_deleted = false := by decide
  have hl := (reach_live _ _ _ hr hlive).1
  obtain ⟨w1, h1, _, h3, h4, _, h6, _⟩ := run_inc_iter 0 4294967295 (after 1 [Op.entry_alloc])
    (buffer0 1) hlive hl (by decide) (by decide) (by decide)
  exact ⟨w1, h1, h6, fun n => free_zero_iter 0 w1 _ h3 h4 h6 rfl n⟩
theorem entry_alloc_popped (w : World) (hd : Nat) (tl : List Nat) (b : XvbmBuffer)
    (hf : w.pool.m_free_list = hd :: tl) (hb : w.deref hd = some b) :
    entry_alloc w = some (some hd, popped w hd tl b) :=
  entry_alloc_cons w hd tl b hf hb

theorem deref_popped (w : World) (hd : Nat) (tl : List Nat) (b : XvbmBuffer)
    (hb : w.deref hd = some b) (q : Nat) :
    (popped w hd tl b).deref q =
      if q = hd then some { b with m_ref_cnt := incU32 b.m_ref_cnt } else w.deref q :=
  deref_set w (popped w hd tl b) hd b _ hb rfl q

theorem allocN_free_list (L : List Nat) : ∀ w : World, w.pool_deleted = false → ListsOK w →
    w.pool.m_free_list = L →
    ∃ w2, allocN w L.length = some (L.map some, w2) ∧ w2.pool_deleted = false ∧ ListsOK w2 ∧
      w2.pool.m_free_list = [] ∧ SameIdentity w w2 := by
  induction L with
  | nil =>
    intro w hlive hl hf
    exact ⟨w, rfl, hlive, hl, hf, fun q b hb => ⟨b, hb, rfl, rfl⟩⟩
  | cons hd tl ih =>
    intro w hlive hl hf
    have hmem : hd ∈ w.pool.m_free_list := by rw [hf]; exact List.mem_cons_self _ _
    obtain ⟨b, hb⟩ := hl.valid hd (hl.mem_free w hd hmem)
    have ha := entry_alloc_popped w hd tl b hf hb
    have hl1 := hl.lists_entry_alloc w _ _ ha
    obtain ⟨w2, h1, h2, h3, h4, h5⟩ := ih (popped w hd tl b) hlive hl1 rfl
    refine ⟨w2, ?_, h2, h3, h4, ?_⟩
    · simp only [List.length_cons, allocN, public_entry_alloc_eq w hlive, ha, List.map_cons]
      rw [h1]; rfl
    · intro q c hc
      have hd1 := deref_popped w hd tl b hb q
      by_cases e : q = hd
      · rw [if_pos e] at hd1
        obtain ⟨b2, g1, g2, g3⟩ := h5 q _ hd1
        rw [e, hb] at hc
        simp only [Option.some.injEq] at hc
        subst hc
        exact ⟨b2, g1, g2, g3⟩
      · rw [if_neg e, hc] at hd1
        exact h5 q c hd1

theorem freeAll_moves (d : Nat) (bs : List Nat) : ∀ w : World, w.pool_deleted = false →
    ListsOK w → CntOK d w → bs.Nodup →
    (∀ p ∈ bs, p ∈ w.pool.m_inuse_list ∧ ∃ b, w.deref p = some b ∧ b.m_ref_cnt = 1) →
    ∃ w1, freeAll w bs = some (List.replicate bs.length true, w1) ∧
      (w1.pool_deleted = false →
        ListsOK w1 ∧ w1.pool.m_free_list = w.pool.m_free_list ++ bs) ∧
      (d % UINT32_MOD ≠ 1 → w1.pool_deleted = false) := by
  induction bs with
  | nil =>
    intro w hlive hl _ _ _
    exact ⟨w, rfl, fun _ => ⟨hl, by simp⟩, fun _ => hlive⟩
  | cons p rest ih =>
    intro w hlive hl hc hnd hbs
    obtain ⟨hm, b, hb, h1⟩ := hbs p (List.mem_cons_self _ _)
    rw [List.nodup_cons] at hnd
    have hcall := public_entry_free_eq w p b hlive hl hb
    rcases entry_free_cases w p b hl hb with ⟨h0, _⟩ | ⟨h0, _⟩ | ⟨_, _, ht, h⟩ |
      ⟨_, _, ht, w3, _, h⟩
    · omega
    · omega
    · have hl1 := (hl.lists_moved w p b hb hm).lists_decCnt
      have hc1 := hc.cnt_moved d w p b hm
      obtain ⟨w1, g1, g2, g3⟩ := ih (decCnt (moved w p b)) hlive hl1 hc1 hnd.2 (by
        intro q hq
        obtain ⟨hqm, c, hqc, hq1⟩ := hbs q (List.mem_cons_of_mem _ hq)
        have hne : q ≠ p := fun e => hnd.1 (e ▸ hq)
        refine ⟨(List.mem_erase_of_ne hne).2 hqm, c, ?_, hq1⟩
        exact (deref_set w (decCnt (moved w p b)) p b { b with m_ref_cnt := 0 } hb rfl q).trans
          (by rw [if_neg hne]; exact hqc))
      refine ⟨w1, ?_, ?_, g3⟩
      · simp only [freeAll, hcall, h, g1, Option.map_some', List.length_cons,
          List.replicate_succ]
      · intro hd1
        obtain ⟨g4, g5⟩ := g2 hd1
        refine ⟨g4, ?_⟩
        rw [g5]
        simp [moved, decCnt]
    · have hrest : rest = [] := by
        cases rest with
        | nil => rfl
        | cons q tl =>
          exfalso
          obtain ⟨hqm, _⟩ := hbs q (List.mem_cons_of_mem _ (List.mem_cons_self _ _))
          have hne : q ≠ p := fun e => hnd.1 (e ▸ List.mem_cons_self _ _)
          have hmem : q ∈ (moved w p b).pool.m_inuse_list := (List.mem_erase_of_ne hne).2 hqm
          rw [List.length_eq_zero.1 ht.2.1] at hmem
          cases hmem
      subst hrest
      refine ⟨deleteThis true { w3 with pool := { w3.pool with m_free_list := [] } },
        ?_, ?_, ?_⟩
      · simp only [freeAll, hcall, h, Option.map_some', List.length_cons, List.length_nil,
          List.replicate_succ, List.replicate_zero]
      · intro hd1
        simp [deleteThis] at hd1
      · intro hd1
        exfalso
        have hs : step w (Op.entry_free (some p)) = some
            (deleteThis true { w3 with pool := { w3.pool with m_free_list := [] } }) := by
          simp only [step, hcall, h, Option.map_some']
        have := (step_teardown_info d w _ _ hlive hl hc hs (by simp [deleteThis])).2.2
        simp only [Op.isDestroy, Bool.false_eq_true, if_false, Nat.add_zero] at this
        exact hd1 this
/-- C9 (amended): free-list allocation is FIFO as long as the pool exists.
From every reachable state of a live pool with free list `F`, if the distinct
buffers `bs` (each with count 1, in the in-use list) are freed in that order,
every one of these calls returns true, and, unless they tore the pool down, the
next `|F| + |bs|` calls of `xvbm_buffer_pool_entry_alloc` return the elements of
`F` in order followed by `bs` in order. The frees do not tear the pool down
when `pool_destroy` has not been called (more generally when the number of
`pool_destroy` calls is not 1 modulo `2^32`). -/
theorem C9_free_list_fifo (ops : List Op) (w : World) (bs : List Nat)
    (hr : Reach anyOp ops w) (hlive : w.pool_deleted = false) (hnd : bs.Nodup)
    (hbs : ∀ p ∈ bs, p ∈ w.pool.m_inuse_list ∧ ∃ b, w.deref p = some b ∧ b.m_ref_cnt = 1) :
    ∃ w1, freeAll w bs = some (List.replicate bs.length true, w1) ∧
      (w1.pool_deleted = false →
        ∃ w2, allocN w1 (w.pool.m_free_list.length + bs.length) =
          some ((w.pool.m_free_list ++ bs).map some, w2)) ∧
      (destroyCount ops % UINT32_MOD ≠ 1 → w1.pool_deleted = false) := by
  obtain ⟨hl, hc⟩ := reach_live anyOp ops w hr hlive
  obtain ⟨w1, h1, h2, h3⟩ := freeAll_moves _ bs w hlive hl hc hnd hbs
  refine ⟨w1, h1, ?_, h3⟩
  intro hd1
  obtain ⟨g1, g2⟩ := h2 hd1
  obtain ⟨w2, a1, _⟩ := allocN_free_list _ w1 hd1 g1 g2
  rw [List.length_append] at a1
  exact ⟨w2, a1⟩

/-- C9, witness: a pool of three buffers with the buffers 0 and 1 in use and
the free list `[2]`; the buffers are freed in the order 1, 0, and the next
three allocations return 2, 1, 0: the old free list first, then the freed
buffers in the order of their release. -/
theorem C9_witness :
    ∃ w1, freeAll (after 3 [Op.entry_alloc, Op.entry_alloc]) [1, 0] =
        some (List.replicate [1, 0].length true, w1) ∧
      (w1.pool_deleted = false →
        ∃ w2, allocN w1 ([2].length + [1, 0].length) =
          some (([2] ++ [1, 0]).map some, w2)) ∧
      (destroyCount [Op.entry_alloc, Op.entry_alloc] % UINT32_MOD ≠ 1 →
        w1.pool_deleted = false) :=
  C9_free_list_fifo [Op.entry_alloc, Op.entry_alloc] (after 3 [Op.entry_alloc, Op.entry_alloc])
    [1, 0]
    (reach_run [] (freshPool 3) (Reach.init 0 3 1 0 okEnv 1 _ (by decide) (by decide) rfl)
      [Op.entry_alloc, Op.entry_alloc] _ (by decide))
    (by decide) (by decide)
    (fun p hp => by
      simp only [List.mem_cons, List.mem_singleton, List.not_mem_nil, or_false] at hp
      rcases hp with h | h <;> subst h
      · exact ⟨by decide, _, rfl, rfl⟩
      · exact ⟨by decide, _, rfl, rfl⟩)

/-- C9, counterexample: on a pool of one buffer whose buffer is in use and
whose `pool_destroy` has been called, the free list is empty and the in-use
buffer has count 1; freeing it returns true and deletes the pool, and the next
`xvbm_buffer_pool_entry_alloc` is a call on a deleted pool (undefined
behaviour), not a call that returns the buffer. -/
theorem C9_counterexample :
    Reach anyOp [Op.pool_destroy, Op.entry_alloc] (after 1 [Op.entry_alloc, Op.pool_destroy]) ∧
    (after 1 [Op.entry_alloc, Op.pool_destroy]).pool_deleted = false ∧
    (after 1 [Op.entry_alloc, Op.pool_destroy]).pool.m_free_list = [] ∧
    (after 1 [Op.entry_alloc, Op.pool_destroy]).pool.m_inuse_list = [0] ∧
    (after 1 [Op.entry_alloc, Op.pool_destroy]).deref 0 = some (buffer0 1) ∧
    freeAll (after 1 [Op.entry_alloc, Op.pool_destroy]) [0] =
      some ([true], after 1 [Op.entry_alloc, Op.pool_destroy, Op.entry_free (some 0)]) ∧
    (after 1 [Op.entry_alloc, Op.pool_destroy, Op.entry_free (some 0)]).pool_deleted = true ∧
    allocN (after 1 [Op.entry_alloc, Op.pool_destroy, Op.entry_free (some 0)]) 1 = none :=
  ⟨reach_run [] (freshPool 1) (reach_fresh 1 (Or.inl rfl)) [Op.entry_alloc, Op.pool_destroy] _
      (by decide),
    by decide, by decide, by decide, by decide, by decide, by decide, by decide⟩
theorem toUInt32_natCast (j : Nat) (h : j < UINT32_MOD) : toUInt32 (j : Int) = j := by
  unfold toUInt32
  unfold UINT32_MOD at h
  omega

theorem create_loop_ok (env : Nat → BufEnv) (n : Nat) : ∀ (w : World) (first : Int) (k : Nat),
    w.pool.m_size < SIZE_MOD → (∀ j, j < n → EnvOK (env (k + j))) →
    ∃ w1, create_loop w first env k n = (true, w1) ∧
      w1.pool.m_free_list = w.pool.m_free_list ++ List.range' w.heap.length n ∧
      w1.heap.length = w.heap.length + n ∧ KeepsBuffers w w1 ∧ Frame w w1 ∧
      ∀ j, j < n → ∃ b, w1.deref (w.heap.length + j) = some b ∧
        b.m_buffer_id = toUInt32 (first + j) ∧ b.m_size = w.pool.m_size ∧ b.m_ref_cnt = 0 := by
  induction n with
  | zero =>
    intro w first k _ _
    exact ⟨w, rfl, by simp, rfl, fun _ _ h => h, Frame.refl w, fun j hj => by omega⟩
  | succ n ih =>
    intro w first k hs henv
    obtain ⟨h1, h2, h3⟩ := henv 0 (by omega)
    obtain ⟨w', hc⟩ := create_buffer_ok w first (env k) hs h1 h2 h3
    obtain ⟨_, c2, _, _, c5⟩ := create_buffer_some w w' first (env k) _ hc
    have hk := create_buffer_keeps w w' first (env k) _ hc
    have hf := create_buffer_frame w w' first (env k) _ hc
    have hlen : w'.heap.length = w.heap.length + 1 := by rw [c5]; simp
    obtain ⟨w1, g1, g2, g3, g4, g5, g6⟩ := ih w' (first + 1) (k + 1)
      (by rw [hf.2.2.2.2.1]; exact hs)
      (fun j hj => by
        have := henv (j + 1) (by omega)
        rwa [show k + (j + 1) = k + 1 + j by omega] at this)
    refine ⟨w1, ?_, ?_, by rw [g3, hlen]; omega, fun q b hb => g4 q b (hk q b hb),
      Frame.trans _ _ _ hf g5, ?_⟩
    · unfold create_loop; rw [hc]; exact g1
    · rw [g2, c2, hlen, List.range'_succ]; simp
    · intro j hj
      cases j with
      | zero =>
        have hnew : w'.deref w.heap.length = some (newBuffer w first (env k)) := by
          rw [deref_append_new w w' _ c5, if_pos rfl]
        refine ⟨_, g4 _ _ hnew, ?_, rfl, rfl⟩
        simp [newBuffer]
      | succ j =>
        obtain ⟨b, e1, e2, e3, e4⟩ := g6 j (by omega)
        refine ⟨b, ?_, ?_, by rw [e3, hf.2.2.2.2.1], e4⟩
        · rw [← e1, hlen]; congr 1; omega
        · rw [e2]; congr 1; push_cast; ring
/-- C10: for every `N < 2^31` (an `int32_t` count), buffer size in the `size_t`
range and device runtime whose calls succeed for the `N` creations,
`xvbm_buffer_pool_create` returns a pool on which the first `N` calls of
`xvbm_buffer_pool_entry_alloc` all return a buffer; the `i`-th returned buffer
(`i = 0..N-1`) has `xvbm_buffer_get_id` equal to `i` and `xvbm_buffer_get_size`
equal to the pool buffer size, and the `N` buffers are pairwise distinct. -/
theorem C10_fresh_pool_allocs_in_creation_order (d_handle N size flags : Nat)
    (env : Nat → BufEnv) (hN : N < 2147483648) (hsize : size < SIZE_MOD)
    (henv : ∀ k, k < N → EnvOK (env k)) :
    ∃ (h : Nat) (w0 : World) (hs : List Nat) (w1 : World),
      xvbm_buffer_pool_create d_handle (N : Int) size flags env = (some h, w0) ∧
      allocN w0 N = some (hs.map some, w1) ∧ hs.length = N ∧ hs.Nodup ∧
      ∀ i p, hs[i]? = some p →
        xvbm_buffer_get_id w1 (some p) = some i ∧
        xvbm_buffer_get_size w1 (some p) = some size := by
  obtain ⟨w0, c1, c2, _, _, c5, c6⟩ := create_loop_ok env N
    (newPool d_handle (N : Int) size flags) 0 0 hsize
    (fun j hj => by rw [Nat.zero_add]; exact henv j hj)
  have hcreate : xvbm_buffer_pool_create d_handle (N : Int) size flags env =
      (some w0.pool_addr, w0) := by
    unfold xvbm_buffer_pool_create create
    simp only [newPool, Int.toNat_ofNat] at c1 ⊢
    rw [c1]
  obtain ⟨hl, _⟩ := create_inv d_handle (N : Int) size flags env _ w0 hcreate
  have hlive : w0.pool_deleted = false := c5.2.2.2.1
  have hfree : w0.pool.m_free_list = List.range' 0 N := by
    rw [c2]; simp [newPool]
  obtain ⟨w1, a1, _, _, _, a5⟩ := allocN_free_list (List.range' 0 N) w0 hlive hl hfree
  rw [List.length_range'] at a1
  refine ⟨w0.pool_addr, w0, List.range' 0 N, w1, hcreate, a1, List.length_range' _ _ _,
    List.nodup_range' _ _, ?_⟩
  intro i p hip
  by_cases hi : i < N
  · rw [List.getElem?_range' 0 1 hi] at hip
    simp only [Option.some.injEq] at hip
    obtain ⟨b, e1, e2, e3, _⟩ := c6 i hi
    have hp : (newPool d_handle (N : Int) size flags).heap.length + i = p := by
      rw [← hip]; simp [newPool]
    rw [hp] at e1
    obtain ⟨b1, f1, f2, f3⟩ := a5 p b e1
    have hid : toUInt32 ((0 : Int) + (i : Int)) = i := by
      rw [Int.zero_add]
      exact toUInt32_natCast i (by unfold UINT32_MOD; omega)
    constructor
    · simp only [xvbm_buffer_get_id, f1, Option.map_some', f2, e2, hid]
    · simp only [xvbm_buffer_get_size, f1, Option.map_some', f3, e3]
      rfl
  · rw [List.getElem?_eq_none (by rw [List.length_range']; omega)] at hip
    cases hip

/-- C10, witness: a pool of two buffers of one byte. -/
theorem C10_witness :
    ∃ (h : Nat) (w0 : World) (hs : List Nat) (w1 : World),
      xvbm_buffer_pool_create 0 ((2 : Nat) : Int) 1 0 okEnv = (some h, w0) ∧
      allocN w0 2 = some (hs.map some, w1) ∧ hs.length = 2 ∧ hs.Nodup ∧
      ∀ i p, hs[i]? = some p →
        xvbm_buffer_get_id w1 (some p) = some i ∧
        xvbm_buffer_get_size w1 (some p) = some 1 :=
  C10_fresh_pool_allocs_in_creation_order 0 2 1 0 okEnv (by decide) (by decide)
    (fun k hk => ⟨rfl, by
      show k ≠ 4294967295
      omega, rfl⟩)
theorem SameButCount.same_refl (w : World) : SameButCount w w :=
  ⟨rfl, rfl, rfl, rfl, rfl, rfl, fun _ => rfl⟩

/-- Replacing one buffer object by one that differs only in its count, and
changing only the lists and the counter of the pool. -/
theorem same_of_set (w w1 : World) (p : Nat) (b0 b : XvbmBuffer) (h0 : w.deref p = some b0)
    (hh : w1.heap = w.heap.set p (some b)) (hstrip : stripCnt b = stripCnt b0)
    (h1 : w1.pool.m_alloc_vector = w.pool.m_alloc_vector)
    (h2 : w1.pool.m_paddr_map = w.pool.m_paddr_map)
    (h3 : w1.pool.m_num_buffers = w.pool.m_num_buffers)
    (h4 : w1.pool.m_size = w.pool.m_size)
    (h5 : w1.pool.m_offsets = w.pool.m_offsets)
    (h6 : w1.pool_addr = w.pool_addr) : SameButCount w w1 := by
  refine ⟨h1, h2, h3, h4, h5, h6, fun q => ?_⟩
  rw [deref_set w w1 p b0 b h0 hh q]
  split
  · rename_i hq; rw [hq, h0]; simp only [Option.map_some', hstrip]
  · rfl

theorem step_same (w w1 : World) (op : Op) (hlive : w.pool_deleted = false)
    (hl : ListsOK w) (hs : step w op = some w1) (hlive1 : w1.pool_deleted = false)
    (hne : ∀ b n env, op ≠ Op.extend b n env) : SameButCount w w1 := by
  cases op with
  | entry_alloc =>
    simp only [step, public_entry_alloc_eq w hlive, Option.map_eq_some'] at hs
    obtain ⟨⟨r, w2⟩, h1, h2⟩ := hs
    simp only at h2; subst h2
    cases hf : w.pool.m_free_list with
    | nil =>
      rw [entry_alloc_nil w hf] at h1
      simp only [Option.some.injEq, Prod.mk.injEq] at h1
      rw [← h1.2]; exact SameButCount.same_refl w
    | cons hd tl =>
      obtain ⟨b, hb⟩ := hl.valid hd (hl.mem_free w hd (by rw [hf]; exact List.mem_cons_self _ _))
      rw [entry_alloc_popped w hd tl b hf hb] at h1
      simp only [Option.some.injEq, Prod.mk.injEq] at h1
      rw [← h1.2]
      exact same_of_set w _ hd b _ hb rfl rfl rfl rfl rfl rfl rfl rfl
  | entry_free b_handle =>
    cases b_handle with
    | none =>
      simp [step, xvbm_buffer_pool_entry_free] at hs
      subst hs; exact SameButCount.same_refl w
    | some buffer =>
      cases hb : w.deref buffer with
      | none => simp [step, xvbm_buffer_pool_entry_free, hb] at hs
      | some b =>
        simp only [step, public_entry_free_eq w buffer b hlive hl hb] at hs
        rcases entry_free_cases w buffer b hl hb with ⟨_, h⟩ | ⟨h1, h⟩ | ⟨_, hm, _, h⟩ |
          ⟨_, _, _, w2, _, h⟩
        · rw [h] at hs; simp at hs; subst hs; exact SameButCount.same_refl w
        · rw [h] at hs; simp at hs; subst hs
          exact same_of_set w _ buffer b _ hb rfl rfl rfl rfl rfl rfl rfl rfl
        · rw [h] at hs; simp at hs; subst hs
          exact same_of_set w _ buffer b _ hb rfl rfl rfl rfl rfl rfl rfl rfl
        · rw [h] at hs; simp at hs; subst hs
          simp [deleteThis] at hlive1
  | refcnt_inc b_handle =>
    cases b_handle with
    | none => simp [step, xvbm_buffer_refcnt_inc] at hs
    | some buffer =>
      cases hb : w.deref buffer with
      | none => simp [step, xvbm_buffer_refcnt_inc, hb] at hs
      | some b =>
        simp only [step, public_refcnt_inc_eq w buffer b hlive hl hb] at hs
        split at hs
        · simp at hs; subst hs; exact SameButCount.same_refl w
        · simp at hs; subst hs
          exact same_of_set w _ buffer b _ hb rfl rfl rfl rfl rfl rfl rfl rfl
  | extend b_handle n env => exact absurd rfl (hne b_handle n env)
  | pool_destroy =>
    simp only [step, public_destroy_eq w hlive] at hs
    rcases destroy_cases w hl with ⟨_, h⟩ | ⟨_, w2, _, _, h⟩
    · rw [h] at hs; simp at hs; subst hs
      exact ⟨rfl, rfl, rfl, rfl, rfl, rfl, fun _ => rfl⟩
    · rw [h] at hs; simp at hs; subst hs
      simp [deleteThis] at hlive1

theorem step_extend (w w1 : World) (b_handle : Option Nat) (n : Int) (env : Nat → BufEnv)
    (hs : step w (Op.extend b_handle n env) = some w1) :
    ∃ r, extend w n env = some (r, w1) := by
  simp only [step, xvbm_buffer_pool_extend] at hs
  cases b_handle with
  | none => simp at hs
  | some buffer =>
    simp only at hs
    cases hb : w.deref buffer with
    | none => rw [hb] at hs; simp at hs
    | some b =>
      rw [hb] at hs
      simp only at hs
      cases hp : b.m_p_handle with
      | none => rw [hp] at hs; simp at hs
      | some p =>
        rw [hp] at hs
        simp only at hs
        split at hs
        · cases he : extend w n env with
          | none => rw [he] at hs; simp at hs
          | some res =>
            obtain ⟨r, w2⟩ := res
            rw [he] at hs
            refine ⟨r, ?_⟩
            cases r <;> simp at hs <;> rw [hs]
        · simp at hs

theorem create_loop_induct (P : World → Prop)
    (hP : ∀ w i e r w1, ListsOK w → P w → create_buffer w i e = (r, w1) → P w1)
    (env : Nat → BufEnv) (n : Nat) : ∀ (w : World) (first : Int) (k : Nat),
    ListsOK w → P w → P (create_loop w first env k n).2 := by
  induction n with
  | zero => intro w first k _ h; exact h
  | succ n ih =>
    intro w first k hl h
    unfold create_loop
    cases hc : create_buffer w first (env k) with
    | mk r w1 =>
      have h1 := hP w first (env k) r w1 hl h hc
      have hl1 := hl.lists_create_buffer w w1 first (env k) r hc
      cases r with
      | none => exact h1
      | some b => exact ih w1 (first + 1) (k + 1) hl1 h1

/-- Induction over the reachable states of a live pool for a property that is
established by the constructor, kept by every buffer creation, insensitive to
the recorded buffer count, and depends on nothing that the other calls
change. -/
theorem reach_induct (P : World → Prop)
    (hinit : ∀ (d_handle : Nat) (num_buffers : Int) (size flags : Nat),
      INT32_MIN ≤ num_buffers ∧ num_buffers ≤ INT32_MAX → size < SIZE_MOD →
      P (newPool d_handle num_buffers size flags))
    (hsame : ∀ w w1, P w → SameButCount w w1 → P w1)
    (hcb : ∀ w i e r w1, ListsOK w → P w → create_buffer w i e = (r, w1) → P w1)
    (hnum : ∀ (w : World) (n : Int), P w →
      P { w with pool := { w.pool with m_num_buffers := n } })
    (G : World → Op → Prop) (ops : List Op) (w : World) (h : Reach G ops w)
    (hlive : w.pool_deleted = false) : P w := by
  induction h with
  | init d_handle num_buffers size flags env hd w hnum1 hsize hcreate =>
    unfold xvbm_buffer_pool_create create at hcreate
    simp only at hcreate
    have := create_loop_induct P hcb env
      (newPool d_handle num_buffers size flags).pool.m_num_buffers.toNat
      (newPool d_handle num_buffers size flags) 0 0 (newPool_ok _ _ _ _)
      (hinit d_handle num_buffers size flags hnum1 hsize)
    generalize create_loop (newPool d_handle num_buffers size flags) 0 env 0
      (newPool d_handle num_buffers size flags).pool.m_num_buffers.toNat = res at hcreate this
    obtain ⟨ok, w2⟩ := res
    cases ok with
    | false => simp at hcreate
    | true =>
      simp only [Prod.mk.injEq, Option.some.injEq] at hcreate
      rw [← hcreate.2]; exact this
  | step ops w w1 op hr _ hstep ih =>
    have hl0 := live_of_step w w1 op hstep hlive
    have hP := ih hl0
    have hl := (reach_live _ ops w hr hl0).1
    by_cases hext : ∃ b n env, op = Op.extend b n env
    · obtain ⟨b, n, env, rfl⟩ := hext
      obtain ⟨r, he⟩ := step_extend w w1 b n env hstep
      unfold extend at he
      simp only at he
      split at he
      · simp at he
      · have hloop := create_loop_induct P hcb env n.toNat w w.pool.m_num_buffers 0 hl hP
        generalize create_loop w w.pool.m_num_buffers env 0 n.toNat = res at he hloop
        obtain ⟨ok, w2⟩ := res
        cases ok with
        | false =>
          simp only [Option.some.injEq, Prod.mk.injEq] at he
          rw [← he.2]; exact hloop
        | true =>
          simp only [Option.some.injEq, Prod.mk.injEq] at he
          rw [← he.2]; exact hnum w2 _ hloop
    · exact hsame w w1 hP (step_same w w1 op hl0 hl hstep hlive
        (fun b n env e => hext ⟨b, n, env, e⟩))
theorem reach_size (G : World → Op → Prop) (ops : List Op) (w : World) (h : Reach G ops w)
    (hlive : w.pool_deleted = false) : w.pool.m_size < SIZE_MOD := by
  refine reach_induct (fun x => x.pool.m_size < SIZE_MOD) ?_ ?_ ?_ ?_ G ops w h hlive
  · intro d n size flags _ hs; exact hs
  · intro x x1 hx hsame; rw [hsame.2.2.2.1]; exact hx
  · intro x i e r x1 _ hx hc
    rw [(create_buffer_frame x x1 i e r hc).2.2.2.2.1]; exact hx
  · intro x n hx; exact hx

/-- C11: for every `N < 2^31` (an `int32_t` count), buffer size in the `size_t`
range and device runtime whose calls succeed for the `N` creations,
`xvbm_buffer_pool_create` returns a pool handle; immediately afterwards the
free list has exactly `N` buffers (and `xvbm_get_freelist_count` returns `N`),
the allocation sequence has `N` buffers, the in-use list is empty, every buffer
object has count 0, and the counter `m_ref_cnt` of the pool is 1. -/
theorem C11_state_after_create (d_handle N size flags : Nat) (env : Nat → BufEnv)
    (hN : N < 2147483648) (hsize : size < SIZE_MOD) (henv : ∀ k, k < N → EnvOK (env k)) :
    ∃ (h : Nat) (w0 : World),
      xvbm_buffer_pool_create d_handle (N : Int) size flags env = (some h, w0) ∧
      w0.pool_deleted = false ∧
      w0.pool.m_free_list.length = N ∧
      xvbm_get_freelist_count w0 (some h) = some N ∧
      w0.pool.m_alloc_vector.length = N ∧
      w0.pool.m_inuse_list = [] ∧
      (∀ p ∈ w0.pool.m_alloc_vector, ∃ b, w0.deref p = some b ∧ b.m_ref_cnt = 0) ∧
      (∀ q b, w0.deref q = some b → b.m_ref_cnt = 0) ∧
      w0.pool.m_ref_cnt = 1 := by
  obtain ⟨w0, c1, c2, _, _, c5, _⟩ := create_loop_ok env N
    (newPool d_handle (N : Int) size flags) 0 0 hsize
    (fun j hj => by rw [Nat.zero_add]; exact henv j hj)
  have hcreate : xvbm_buffer_pool_create d_handle (N : Int) size flags env =
      (some w0.pool_addr, w0) := by
    unfold xvbm_buffer_pool_create create
    simp only [newPool, Int.toNat_ofNat] at c1 ⊢
    rw [c1]
  obtain ⟨hl, _⟩ := create_inv d_handle (N : Int) size flags env _ w0 hcreate
  have hlive : w0.pool_deleted = false := c5.2.2.2.1
  have hfree : w0.pool.m_free_list = List.range' 0 N := by
    rw [c2]; simp [newPool]
  have hin : w0.pool.m_inuse_list = [] := c5.1
  have hlen : w0.pool.m_free_list.length = N := by rw [hfree, List.length_range']
  have hperm : w0.pool.m_free_list.Perm w0.pool.m_alloc_vector := by
    have := hl.perm
    rw [hin, List.append_nil] at this
    exact this
  have hzero : ∀ q b, w0.deref q = some b → b.m_ref_cnt = 0 := fun q b hb =>
    hl.freeZero q (hperm.symm.subset (hl.owner q b hb).1) b hb
  refine ⟨w0.pool_addr, w0, hcreate, hlive, hlen, ?_, by rw [← hperm.length_eq, hlen], hin,
    ?_, hzero, c5.2.1⟩
  · simp only [xvbm_get_freelist_count, poolLive_self w0 hlive, if_true, hlen]
    rw [Nat.mod_eq_of_lt (by unfold UINT32_MOD; omega)]
  · intro p hp
    obtain ⟨b, hb⟩ := hl.valid p hp
    exact ⟨b, hb, hzero p b hb⟩

/-- C11, witness: a pool of two buffers of one byte. -/
theorem C11_witness :
    ∃ (h : Nat) (w0 : World),
      xvbm_buffer_pool_create 0 ((2 : Nat) : Int) 1 0 okEnv = (some h, w0) ∧
      w0.pool_deleted = false ∧
      w0.pool.m_free_list.length = 2 ∧
      xvbm_get_freelist_count w0 (some h) = some 2 ∧
      w0.pool.m_alloc_vector.length = 2 ∧
      w0.pool.m_inuse_list = [] ∧
      (∀ p ∈ w0.pool.m_alloc_vector, ∃ b, w0.deref p = some b ∧ b.m_ref_cnt = 0) ∧
      (∀ q b, w0.deref q = some b → b.m_ref_cnt = 0) ∧
      w0.pool.m_ref_cnt = 1 :=
  C11_state_after_create 0 2 1 0 okEnv (by decide) (by decide)
    (fun k hk => ⟨rfl, by
      show k ≠ 4294967295
      omega, rfl⟩)

/-- C12: in every state reachable from pool creation by a sequence of
`entry_alloc`, `entry_free`, `xvbm_buffer_refcnt_inc` and `extend` calls
(whatever the device runtime answers to the buffer creations of an `extend`),
the pool is live and the length of the allocation sequence is the length of the
free list plus the length of the in-use list. -/
theorem C12_alloc_vector_length (ops : List Op) (w : World) (hr : Reach noDestroy ops w) :
    w.pool_deleted = false ∧
    w.pool.m_alloc_vector.length =
      w.pool.m_free_list.length + w.pool.m_inuse_list.length := by
  have hlive := (reach_noDestroy noDestroy (fun _ _ h => h) ops w hr).2
  have hl := (reach_live _ ops w hr hlive).1
  refine ⟨hlive, ?_⟩
  rw [← hl.perm.length_eq, List.length_append]

/-- C12, witness: a pool of one buffer after an `extend` by two buffers whose
second creation fails, and one `entry_alloc`. -/
theorem C12_witness :
    (after 1 [Op.extend (some 0) 2 (failEnv 1 1), Op.entry_alloc]).pool_deleted = false ∧
    (after 1 [Op.extend (some 0) 2 (failEnv 1 1), Op.entry_alloc]).pool.m_alloc_vector.length =
      (after 1 [Op.extend (some 0) 2 (failEnv 1 1), Op.entry_alloc]).pool.m_free_list.length +
      (after 1 [Op.extend (some 0) 2 (failEnv 1 1),
        Op.entry_alloc]).pool.m_inuse_list.length :=
  C12_alloc_vector_length [Op.entry_alloc, Op.extend (some 0) 2 (failEnv 1 1)]
    (after 1 [Op.extend (some 0) 2 (failEnv 1 1), Op.entry_alloc])
    (reach_run_guard noDestroy [] (freshPool 1)
      (Reach.init 0 1 1 0 okEnv 1 _ (by decide) (by decide) rfl)
      [Op.extend (some 0) 2 (failEnv 1 1), Op.entry_alloc] _
      (fun op hop _ => by
        simp only [List.mem_cons, List.mem_singleton, List.not_mem_nil, or_false] at hop
        rcases hop with h | h <;> subst h <;> rfl)
      (by decide))
theorem lookup_paddrInsert (m : List (Nat × Nat)) (a v k : Nat) :
    (paddrInsert m a v).lookup k = (m.lookup k).or (if k = a then some v else none) := by
  unfold paddrInsert
  split
  · rename_i h
    by_cases hk : k = a
    · subst hk
      cases hm : m.lookup k with
      | none => rw [hm] at h; cases h
      | some x => rfl
    · rw [if_neg hk]; simp
  · rw [List.lookup_append]
    by_cases hk : k = a
    · subst hk; simp
    · rw [if_neg hk]
      have hbeq : (k == a) = false := by simpa using hk
      have : ([(a, v)] : List (Nat × Nat)).lookup k = none := by
        simp [List.lookup_cons, hbeq]
      rw [this]

theorem same_deref (w w1 : World) (h : SameButCount w w1) (q : Nat) (b1 : XvbmBuffer)
    (hb : w1.deref q = some b1) :
    ∃ b, w.deref q = some b ∧ stripCnt b = stripCnt b1 := by
  have := h.2.2.2.2.2.2 q
  rw [hb] at this
  cases hw : w.deref q with
  | none => rw [hw] at this; simp at this
  | some b =>
    rw [hw] at this
    simp only [Option.map_some', Option.some.injEq] at this
    exact ⟨b, rfl, this.symm⟩

theorem same_deref_rev (w w1 : World) (h : SameButCount w w1) (q : Nat) (b : XvbmBuffer)
    (hb : w.deref q = some b) :
    ∃ b1, w1.deref q = some b1 ∧ stripCnt b1 = stripCnt b := by
  have := h.2.2.2.2.2.2 q
  rw [hb] at this
  cases hw : w1.deref q with
  | none => rw [hw] at this; simp at this
  | some b1 =>
    rw [hw] at this
    simp only [Option.map_some', Option.some.injEq] at this
    exact ⟨b1, rfl, this⟩

theorem paddr_of_strip (b b1 : XvbmBuffer) (h : stripCnt b = stripCnt b1) :
    b.m_paddr = b1.m_paddr ∧ b.m_buffer_id = b1.m_buffer_id ∧ b.m_size = b1.m_size ∧
    b.m_bo_handle = b1.m_bo_handle ∧ b.m_hptr = b1.m_hptr ∧ b.m_p_handle = b1.m_p_handle := by
  unfold stripCnt at h
  simp only [XvbmBuffer.mk.injEq] at h
  exact ⟨h.2.2.2.2.1, h.2.2.1, h.2.2.2.1, h.2.1, h.2.2.2.2.2.1, h.1⟩

theorem MapOK.map_of_same (w w1 : World) (h : MapOK w) (hs : SameButCount w w1) : MapOK w1 := by
  constructor
  · intro k p hk
    rw [hs.2.1] at hk
    obtain ⟨h1, b, hb, hp⟩ := h.sound k p hk
    obtain ⟨b1, hb1, hst⟩ := same_deref_rev w w1 hs p b hb
    exact ⟨by rw [hs.1]; exact h1, b1, hb1, by rw [(paddr_of_strip _ _ hst).1]; exact hp⟩
  · intro p hp b1 hb1
    rw [hs.1] at hp
    obtain ⟨b, hb, hst⟩ := same_deref w w1 hs p b1 hb1
    rw [hs.2.1, ← (paddr_of_strip _ _ hst).1]
    exact h.complete p hp b hb

theorem MapOK.map_create_buffer (w w1 : World) (index : Int) (e : BufEnv) (r : Option Nat)
    (_hl : ListsOK w) (h : MapOK w) (hc : create_buffer w index e = (r, w1)) : MapOK w1 := by
  cases r with
  | none =>
    obtain ⟨hp, _, _, hh⟩ := create_buffer_none w w1 index e hc
    have hd := deref_append_none w w1 hh
    constructor
    · intro k p hk
      rw [hp] at hk ⊢; rw [hd]; exact h.sound k p hk
    · intro p hpm b hb
      rw [hp] at hpm ⊢; rw [hd] at hb; exact h.complete p hpm b hb
  | some n =>
    obtain ⟨hn, hp, _, _, hh⟩ := create_buffer_some w w1 index e n hc
    have hd := deref_append_new w w1 _ hh
    subst hn
    constructor
    · intro k p hk
      rw [hp] at hk ⊢
      simp only at hk ⊢
      rw [lookup_paddrInsert] at hk
      cases hm : w.pool.m_paddr_map.lookup k with
      | some x =>
        rw [hm] at hk
        simp only [Option.or_some, Option.some.injEq] at hk
        subst hk
        obtain ⟨h1, b, hb, hpk⟩ := h.sound k x hm
        refine ⟨List.mem_append_left _ h1, b, ?_, hpk⟩
        rw [hd, if_neg (Nat.ne_of_lt (deref_lt w x b hb))]; exact hb
      | none =>
        rw [hm] at hk
        simp only [Option.none_or] at hk
        split at hk
        · rename_i hka
          simp only [Option.some.injEq] at hk
          subst hk
          refine ⟨List.mem_append_right _ (List.mem_singleton_self _),
            newBuffer w index e, ?_, ?_⟩
          · rw [hd, if_pos rfl]
          · simp [newBuffer, hka]
        · cases hk
    · intro p hpm b hb
      rw [hp] at hpm ⊢
      simp only [List.mem_append, List.mem_singleton] at hpm
      simp only
      rw [lookup_paddrInsert]
      rw [hd] at hb
      by_cases hq : p = w.heap.length
      · rw [if_pos hq] at hb
        simp only [Option.some.injEq] at hb
        subst hb
        simp only [newBuffer, if_true]
        cases w.pool.m_paddr_map.lookup e.paddr <;> rfl
      · rw [if_neg hq] at hb
        have := h.complete p (hpm.resolve_right hq) b hb
        cases hm : w.pool.m_paddr_map.lookup b.m_paddr with
        | none => rw [hm] at this; cases this
        | some x => rfl

theorem reach_map (G : World → Op → Prop) (ops : List Op) (w : World) (h : Reach G ops w)
    (hlive : w.pool_deleted = false) : MapOK w := by
  refine reach_induct MapOK ?_ ?_ ?_ ?_ G ops w h hlive
  · intro d n size flags _ _
    constructor
    · intro k p hk; simp [newPool] at hk
    · intro p hp; simp [newPool] at hp
  · intro x x1 hx hsame; exact hx.map_of_same x x1 hsame
  · intro x i e r x1 hl hx hc; exact hx.map_create_buffer x x1 i e r hl hc
  · intro x n hx; exact ⟨hx.sound, hx.complete⟩
/-- C18: in every reachable state of a live pool in which the device addresses
of the buffers of the allocation sequence are pairwise distinct, for every
buffer of the allocation sequence `get_handle_by_paddr` (and the public
`xvbm_buffer_get_handle`) on its address returns that buffer, and for every
address that is not the address of a buffer of the pool it returns `NULL`. -/
theorem C18_address_lookup (ops : List Op) (w : World) (hr : Reach anyOp ops w)
    (hlive : w.pool_deleted = false) (hdist : (paddrs w).Nodup) :
    (∀ p ∈ w.pool.m_alloc_vector, ∃ b, w.deref p = some b ∧
      get_handle_by_paddr w b.m_paddr = some p ∧
      xvbm_buffer_get_handle w (some w.pool_addr) b.m_paddr = some (some p)) ∧
    (∀ k, (∀ p ∈ w.pool.m_alloc_vector, ∀ b, w.deref p = some b → b.m_paddr ≠ k) →
      get_handle_by_paddr w k = none ∧
      xvbm_buffer_get_handle w (some w.pool_addr) k = some none) := by
  obtain ⟨hl, _⟩ := reach_live anyOp ops w hr hlive
  have hm := reach_map anyOp ops w hr hlive
  have hpub : ∀ k, xvbm_buffer_get_handle w (some w.pool_addr) k =
      some (get_handle_by_paddr w k) := by
    intro k
    simp only [xvbm_buffer_get_handle, poolLive_self w hlive, if_true]
  constructor
  · intro p hp
    obtain ⟨b, hb⟩ := hl.valid p hp
    have hsome := hm.complete p hp b hb
    cases hk : w.pool.m_paddr_map.lookup b.m_paddr with
    | none => rw [hk] at hsome; cases hsome
    | some q =>
      obtain ⟨hq, c, hc, hcp⟩ := hm.sound _ q hk
      have hqp : q = p := by
        apply List.inj_on_of_nodup_map hdist hq hp
        simp only [hc, hb, Option.map_some', hcp]
      subst hqp
      exact ⟨b, hb, hk, by rw [hpub]; exact congrArg some hk⟩
  · intro k hk
    have hnone : get_handle_by_paddr w k = none := by
      unfold get_handle_by_paddr
      cases hlk : w.pool.m_paddr_map.lookup k with
      | none => rfl
      | some q =>
        obtain ⟨hq, c, hc, hcp⟩ := hm.sound k q hlk
        exact absurd hcp (hk q hq c hc)
    exact ⟨hnone, by rw [hpub, hnone]⟩

/-- C18, witness: a pool of one buffer, allocated, then extended by one
buffer. -/
theorem C18_witness :
    (∀ p ∈ (after 1 [Op.entry_alloc, Op.extend (some 0) 1 (okEnvFrom 1)]).pool.m_alloc_vector,
      ∃ b, (after 1 [Op.entry_alloc, Op.extend (some 0) 1 (okEnvFrom 1)]).deref p = some b ∧
      get_handle_by_paddr (after 1 [Op.entry_alloc, Op.extend (some 0) 1 (okEnvFrom 1)])
        b.m_paddr = some p ∧
      xvbm_buffer_get_handle (after 1 [Op.entry_alloc, Op.extend (some 0) 1 (okEnvFrom 1)])
        (some (after 1 [Op.entry_alloc, Op.extend (some 0) 1 (okEnvFrom 1)]).pool_addr)
        b.m_paddr = some (some p)) ∧
    (∀ k, (∀ p ∈ (after 1 [Op.entry_alloc,
        Op.extend (some 0) 1 (okEnvFrom 1)]).pool.m_alloc_vector,
        ∀ b, (after 1 [Op.entry_alloc, Op.extend (some 0) 1 (okEnvFrom 1)]).deref p = some b →
          b.m_paddr ≠ k) →
      get_handle_by_paddr (after 1 [Op.entry_alloc, Op.extend (some 0) 1 (okEnvFrom 1)]) k =
        none ∧
      xvbm_buffer_get_handle (after 1 [Op.entry_alloc, Op.extend (some 0) 1 (okEnvFrom 1)])
        (some (after 1 [Op.entry_alloc, Op.extend (some 0) 1 (okEnvFrom 1)]).pool_addr) k =
        some none) :=
  C18_address_lookup [Op.extend (some 0) 1 (okEnvFrom 1), Op.entry_alloc]
    (after 1 [Op.entry_alloc, Op.extend (some 0) 1 (okEnvFrom 1)])
    (reach_run [] (freshPool 1) (reach_fresh 1 (Or.inl rfl))
      [Op.entry_alloc, Op.extend (some 0) 1 (okEnvFrom 1)] _ (by decide))
    (by decide) (by decide)

/-- C19: for every pool state and every index, `get_buffer_handle(index)`
returns the buffer at position `index` of the allocation sequence when `index`
is less than its length `n`, and reports `std::out_of_range` when
`index >= n`; in both cases the state is unchanged. From a live pool handle the
public `xvbm_get_buffer_handle` gives the same result. -/
theorem C19_get_buffer_handle_in_range (w : World) (index : Nat) :
    (∀ h : index < w.pool.m_alloc_vector.length,
      get_buffer_handle w index = (VecAt.value (w.pool.m_alloc_vector.get ⟨index, h⟩), w)) ∧
    (w.pool.m_alloc_vector.length ≤ index →
      get_buffer_handle w index = (VecAt.out_of_range, w)) ∧
    (get_buffer_handle w index).2 = w ∧
    (w.pool_deleted = false →
      xvbm_get_buffer_handle w (some w.pool_addr) index = some (get_buffer_handle w index)) := by
  refine ⟨?_, ?_, ?_, ?_⟩
  · intro h
    unfold get_buffer_handle
    rw [List.getElem?_eq_getElem h]
    rfl
  · intro h
    unfold get_buffer_handle
    rw [List.getElem?_eq_none h]
  · unfold get_buffer_handle
    cases w.pool.m_alloc_vector[index]? <;> rfl
  · intro hlive
    simp only [xvbm_get_buffer_handle, poolLive_self w hlive, if_true]

/-- C19, witness: positions 1 and 5 of a fresh pool of two buffers. -/
theorem C19_witness :
    get_buffer_handle (freshPool 2) 1 = (VecAt.value 1, freshPool 2) ∧
    get_buffer_handle (freshPool 2) 5 = (VecAt.out_of_range, freshPool 2) ∧
    xvbm_get_buffer_handle (freshPool 2) (some (freshPool 2).pool_addr) 5 =
      some (get_buffer_handle (freshPool 2) 5) :=
  ⟨(C19_get_buffer_handle_in_range (freshPool 2) 1).1 (by decide),
    (C19_get_buffer_handle_in_range (freshPool 2) 5).2.1 (by decide),
    (C19_get_buffer_handle_in_range (freshPool 2) 5).2.2.2 (by decide)⟩
/-- C20 (the code evaluated): on the allocated buffer of size 1 of
`callerWorld`, with `size = 1` and `offset = 2^64 - 1` (mathematical sum
`2^64 > 1`, wrapped `size_t` sum 0), `xvbm_buffer_write` returns 0 and calls
`xclWriteBO`, and then `xvbm_buffer_read` returns 0, calls `xclReadBO` and
changes the byte at the caller's destination 12288 from 0 to 7. -/
theorem C20_wrapped_sum_passes_check :
    ∃ w1 w2 : World,
      xvbm_buffer_get_size callerWorld (some 0) = some 1 ∧
      xvbm_buffer_write callerWorld (some 0) 8192 1 18446744073709551615 0 = some (0, w1) ∧
      Event.xclWriteBO 0 8192 1 18446744073709551615 ∈ w1.log ∧
      Event.xclWriteBO 0 8192 1 18446744073709551615 ∉ callerWorld.log ∧
      xvbm_buffer_read w1 (some 0) 12288 1 18446744073709551615 0 = some (0, w2) ∧
      Event.xclReadBO 0 12288 1 18446744073709551615 ∈ w2.log ∧
      hostRead w1.host 12288 = 0 ∧ hostRead w2.host 12288 = 7 :=
  ⟨_, _, by decide, rfl, by decide, by decide, rfl, by decide, by decide, by decide⟩
theorem create_buffer_fails (w : World) (index : Int) (e : BufEnv)
    (hs : w.pool.m_size < SIZE_MOD) (h : ¬ EnvOK e) :
    ∃ w1, create_buffer w index e = (none, w1) := by
  rw [create_buffer_eq, cbWrite_fst w index e hs]
  unfold EnvOK at h
  by_cases h1 : e.memalign_rc = 0
  · by_cases h2 : e.bo_handle = NULLBO
    · simp [h1, h2]
    · have h3 : e.write_rc ≠ 0 := fun h3 => h ⟨h1, h2, h3⟩
      simp [h1, h2, h3]
  · simp [h1]

/-- The creation loop when the first `j` creations succeed and the next one
fails: the loop stops with the exception, and the `j` new buffers are the new
tail of the allocation sequence and of the free list. -/
theorem create_loop_prefix (env : Nat → BufEnv) (j : Nat) :
    ∀ (n : Nat) (w : World) (first : Int) (k : Nat), j < n →
    w.pool.m_size < SIZE_MOD → (∀ i, i < j → EnvOK (env (k + i))) → ¬ EnvOK (env (k + j)) →
    ∃ w1, create_loop w first env k n = (false, w1) ∧
      w1.pool.m_alloc_vector = w.pool.m_alloc_vector ++ List.range' w.heap.length j ∧
      w1.pool.m_free_list = w.pool.m_free_list ++ List.range' w.heap.length j ∧
      ∀ i, i < j → ∃ c, w1.deref (w.heap.length + i) = some c ∧ c.m_ref_cnt = 0 ∧
        c.m_paddr = (env (k + i)).paddr ∧ c.m_buffer_id = toUInt32 (first + i) ∧
        c.m_size = w.pool.m_size := by
  induction j with
  | zero =>
    intro n w first k hn hs _ hfail
    obtain ⟨m, rfl⟩ : ∃ m, n = m + 1 := ⟨n - 1, by omega⟩
    obtain ⟨w1, hc⟩ := create_buffer_fails w first (env k) hs hfail
    obtain ⟨hp, _, _, _⟩ := create_buffer_none w w1 first (env k) hc
    refine ⟨w1, ?_, by rw [hp]; simp, by rw [hp]; simp, fun i hi => by omega⟩
    unfold create_loop; rw [hc]
  | succ j ih =>
    intro n w first k hn hs hok hfail
    obtain ⟨m, rfl⟩ : ∃ m, n = m + 1 := ⟨n - 1, by omega⟩
    obtain ⟨h1, h2, h3⟩ := hok 0 (by omega)
    obtain ⟨w', hc⟩ := create_buffer_ok w first (env k) hs h1 h2 h3
    obtain ⟨_, c2, _, _, c5⟩ := create_buffer_some w w' first (env k) _ hc
    have hf := create_buffer_frame w w' first (env k) _ hc
    have hlen : w'.heap.length = w.heap.length + 1 := by rw [c5]; simp
    obtain ⟨w1, g1, g2, g3, g4⟩ := ih m w' (first + 1) (k + 1) (by omega)
      (by rw [hf.2.2.2.2.1]; exact hs)
      (fun i hi => by
        have := hok (i + 1) (by omega)
        rwa [show k + (i + 1) = k + 1 + i by omega] at this)
      (by rwa [show k + 1 + j = k + (j + 1) by omega])
    have hk1 : KeepsBuffers w' w1 := by
      have := create_loop_keeps env m w' (first + 1) (k + 1)
      rwa [g1] at this
    refine ⟨w1, ?_, ?_, ?_, ?_⟩
    · unfold create_loop; rw [hc]; exact g1
    · rw [g2, c2, hlen, List.range'_succ]; simp
    · rw [g3, c2, hlen, List.range'_succ]; simp
    · intro i hi
      cases i with
      | zero =>
        have hnew : w'.deref w.heap.length = some (newBuffer w first (env k)) := by
          rw [deref_append_new w w' _ c5, if_pos rfl]
        refine ⟨_, hk1 _ _ hnew, rfl, rfl, ?_, rfl⟩
        simp [newBuffer]
      | succ i =>
        obtain ⟨c, e1, e2, e3, e4, e5⟩ := g4 i (by omega)
        refine ⟨c, ?_, e2, ?_, ?_, by rw [e5, hf.2.2.2.2.1]⟩
        · rw [← e1, hlen]; congr 1; omega
        · rw [e3]; congr 2; omega
        · rw [e4]; congr 1; push_cast; ring

theorem create_loop_map (env : Nat → BufEnv) (n : Nat) (w : World) (first : Int) (k : Nat)
    (hl : ListsOK w) (hm : MapOK w) : MapOK (create_loop w first env k n).2 :=
  create_loop_induct MapOK
    (fun w i e r w1 hl h hc => MapOK.map_create_buffer w w1 i e r hl h hc) env n w first k hl hm

/-- With pairwise distinct buffer addresses, the address index maps the address
of every buffer of the allocation sequence to that buffer. -/
theorem lookup_of_map (w : World) (hm : MapOK w) (hdist : (paddrs w).Nodup)
    (p : Nat) (hp : p ∈ w.pool.m_alloc_vector) (b : XvbmBuffer) (hb : w.deref p = some b) :
    get_handle_by_paddr w b.m_paddr = some p := by
  have hsome := hm.complete p hp b hb
  unfold get_handle_by_paddr
  cases hk : w.pool.m_paddr_map.lookup b.m_paddr with
  | none => rw [hk] at hsome; cases hsome
  | some q =>
    obtain ⟨hq, c, hc, hcp⟩ := hm.sound _ q hk
    have hqp : q = p := by
      apply List.inj_on_of_nodup_map hdist hq hp
      simp only [hc, hb, Option.map_some', hcp]
    rw [hqp]
theorem num_buffers_get_eq (w : World) (buffer : Nat) (b : XvbmBuffer)
    (hb : w.deref buffer = some b) (hown : b.m_p_handle = some w.pool_addr)
    (hlive : w.pool_deleted = false) :
    xvbm_buffer_pool_num_buffers_get w (some buffer) = some w.pool.m_num_buffers := by
  simp only [xvbm_buffer_pool_num_buffers_get, hb, hown, poolLive_self w hlive, if_true]

theorem extend_overflow (w : World) (n : Int) (env : Nat → BufEnv)
    (h : INT32_MAX < w.pool.m_num_buffers + n) : extend w n env = none := by
  unfold extend
  simp only
  rw [if_pos (Or.inr h)]

theorem public_extend_overflow (w : World) (buffer : Nat) (b : XvbmBuffer) (n : Int)
    (env : Nat → BufEnv) (hb : w.deref buffer = some b)
    (h : INT32_MAX < w.pool.m_num_buffers + n) :
    xvbm_buffer_pool_extend w (some buffer) n env = none := by
  simp only [xvbm_buffer_pool_extend, hb, extend_overflow w n env h]
  cases b.m_p_handle with
  | none => rfl
  | some p => simp

/-- C13 (amended): in every reachable state of a live pool whose recorded
buffer count `N` is the length of its allocation sequence, with `M` buffers in
the in-use list, for every `K >= 0` with `N + K <= 2^31 - 1` and a device
runtime whose calls succeed for the `K` creations, `extend(K)` returns `N + K`
(and so does `xvbm_buffer_pool_extend` on any buffer of the pool); afterwards
the recorded count and the length of the allocation sequence are `N + K`, the
free-list count is exactly `N + K - M`, and the in-use list and every existing
buffer object (its reference count included) are unchanged. -/
theorem C13_extend_by_K (ops : List Op) (w : World) (hr : Reach anyOp ops w)
    (hlive : w.pool_deleted = false) (N M K : Nat) (env : Nat → BufEnv)
    (hN : w.pool.m_num_buffers = (N : Int)) (hA : w.pool.m_alloc_vector.length = N)
    (hM : w.pool.m_inuse_list.length = M) (hK : (N : Int) + (K : Int) ≤ INT32_MAX)
    (henv : ∀ k, k < K → EnvOK (env k)) :
    ∃ w1, extend w (K : Int) env = some (some (((N + K : Nat) : Int)), w1) ∧
      (∀ buffer b, w.deref buffer = some b →
        xvbm_buffer_pool_extend w (some buffer) (K : Int) env =
          some (((N + K : Nat) : Int), w1) ∧
        xvbm_buffer_pool_num_buffers_get w1 (some buffer) = some ((N + K : Nat) : Int)) ∧
      w1.pool.m_num_buffers = ((N + K : Nat) : Int) ∧
      w1.pool.m_alloc_vector.length = N + K ∧
      w1.pool.m_free_list.length = N + K - M ∧
      xvbm_get_freelist_count w1 (some w1.pool_addr) = some (N + K - M) ∧
      w1.pool.m_inuse_list = w.pool.m_inuse_list ∧
      (∀ q b, w.deref q = some b → w1.deref q = some b) ∧
      w1.pool_deleted = false := by
  obtain ⟨hl, _⟩ := reach_live anyOp ops w hr hlive
  have hs := reach_size anyOp ops w hr hlive
  obtain ⟨w', g1, g2, _, _, g5, _⟩ := create_loop_ok env K w w.pool.m_num_buffers 0 hs
    (fun j hj => by rw [Nat.zero_add]; exact henv j hj)
  have hext : extend w (K : Int) env = some (some (((N + K : Nat) : Int)),
      { w' with pool := { w'.pool with m_num_buffers := ((N + K : Nat) : Int) } }) := by
    unfold extend
    simp only [Int.toNat_ofNat, hN]
    rw [hN] at g1
    have hr1 : ¬ ((N : Int) + (K : Int) < INT32_MIN ∨ INT32_MAX < (N : Int) + (K : Int)) := by
      unfold INT32_MIN
      unfold INT32_MAX at hK ⊢
      omega
    rw [if_neg hr1, g1]
    simp only [Nat.cast_add]
  refine ⟨_, hext, ?_⟩
  obtain ⟨hl1, hin, _, haddr, hdel⟩ := extend_inv w _ (K : Int) env _ hl hext
  have hkeep := extend_keeps w _ (K : Int) env _ hext
  have hlive1 := hdel.trans hlive
  have hfree : ({ w' with pool := { w'.pool with
      m_num_buffers := ((N + K : Nat) : Int) } } : World).pool.m_free_list.length =
      N + K - M := by
    show w'.pool.m_free_list.length = N + K - M
    rw [g2, List.length_append, List.length_range']
    have := hl.perm.length_eq
    rw [List.length_append, hA, hM] at this
    omega
  have hMN : M ≤ N := by
    have := hl.perm.length_eq
    rw [List.length_append, hA, hM] at this
    omega
  refine ⟨?_, rfl, ?_, hfree, ?_, hin, hkeep, hlive1⟩
  · intro buffer b hb
    obtain ⟨_, hown, _⟩ := hl.owner buffer b hb
    constructor
    · simp only [xvbm_buffer_pool_extend, hb, hown, poolLive_self w hlive, if_true, hext]
    · exact num_buffers_get_eq _ buffer b (hkeep buffer b hb)
        (hown.trans (congrArg some haddr.symm)) hlive1
  · have := hl1.perm.length_eq
    rw [List.length_append, hfree, hin, hM] at this
    omega
  · have hp1 := poolLive_self _ hlive1
    simp only [xvbm_get_freelist_count, hp1, if_true, hfree]
    congr 1
    apply Nat.mod_eq_of_lt
    unfold INT32_MAX at hK
    unfold UINT32_MOD
    omega

/-- C13, witness: a pool of two buffers, one of them allocated, extended by
three buffers. -/
theorem C13_witness :
    ∃ w1, extend (after 2 [Op.entry_alloc]) ((3 : Nat) : Int) (okEnvFrom 2) =
        some (some (((2 + 3 : Nat) : Int)), w1) ∧
      (∀ buffer b, (after 2 [Op.entry_alloc]).deref buffer = some b →
        xvbm_buffer_pool_extend (after 2 [Op.entry_alloc]) (some buffer) ((3 : Nat) : Int)
          (okEnvFrom 2) = some (((2 + 3 : Nat) : Int), w1) ∧
        xvbm_buffer_pool_num_buffers_get w1 (some buffer) = some ((2 + 3 : Nat) : Int)) ∧
      w1.pool.m_num_buffers = ((2 + 3 : Nat) : Int) ∧
      w1.pool.m_alloc_vector.length = 2 + 3 ∧
      w1.pool.m_free_list.length = 2 + 3 - 1 ∧
      xvbm_get_freelist_count w1 (some w1.pool_addr) = some (2 + 3 - 1) ∧
      w1.pool.m_inuse_list = (after 2 [Op.entry_alloc]).pool.m_inuse_list ∧
      (∀ q b, (after 2 [Op.entry_alloc]).deref q = some b → w1.deref q = some b) ∧
      w1.pool_deleted = false :=
  C13_extend_by_K [Op.entry_alloc] (after 2 [Op.entry_alloc])
    (reach_run [] (freshPool 2) (reach_fresh 2 (Or.inr rfl)) [Op.entry_alloc] _ (by decide))
    (by decide) 2 1 3 (okEnvFrom 2) (by decide) (by decide) (by decide) (by decide)
    (fun k _ => ⟨rfl, by
      show 2 + k ≠ NULLBO
      intro h
      have hk : k < 3 := by assumption
      unfold NULLBO at h
      omega, rfl⟩)

/-- C13 (counterexample): on a fresh pool of one buffer (`N = 1`, `M = 0`) the
call `extend(2147483647)` with a succeeding device runtime has no defined
result (`1 + 2147483647` overflows `int32_t`); and in the reachable state after
an extension by two whose second creation failed (recorded count 1, two
buffers, none in use) `extend(1)` returns 2 while the free-list count becomes
3. -/
theorem C13_counterexample :
    xvbm_buffer_pool_extend (freshPool 1) (some 0) 2147483647 (okEnvFrom 1) = none ∧
    extend (freshPool 1) 2147483647 (okEnvFrom 1) = none ∧
    xvbm_buffer_pool_num_buffers_get (after 1 [Op.extend (some 0) 2 (failEnv 1 1)]) (some 0) =
      some 1 ∧
    (after 1 [Op.extend (some 0) 2 (failEnv 1 1)]).pool.m_alloc_vector.length = 2 ∧
    (after 1 [Op.extend (some 0) 2 (failEnv 1 1)]).pool.m_inuse_list.length = 0 ∧
    (xvbm_buffer_pool_extend (after 1 [Op.extend (some 0) 2 (failEnv 1 1)]) (some 0) 1
      (okEnvFrom 2)).map Prod.fst = some 2 ∧
    xvbm_get_freelist_count
      (after 1 [Op.extend (some 0) 2 (failEnv 1 1), Op.extend (some 0) 1 (okEnvFrom 2)])
      (some 1) = some 3 := by
  exact ⟨public_extend_overflow _ 0 (buffer0 0) _ _ (by decide) (by decide),
    extend_overflow _ _ _ (by decide), by decide, by decide, by decide, by decide, by decide⟩
/-- C14 (amended): in every reachable state of a live pool with recorded buffer
count `N`, for every extension request of `K` buffers with `N + K <= 2^31 - 1`
in which the first `j < K` buffer creations succeed and the next one fails,
`extend` throws `std::bad_alloc` and `xvbm_buffer_pool_extend` returns 0; the
`j` created buffers are the new tail of the allocation sequence and of the free
list, with reference count 0, the in-use list and the existing buffer objects
are unchanged, and, when the device addresses of the buffers of the pool are
pairwise distinct, the address index maps the address of each of the `j`
buffers to it. -/
theorem C14_extend_fails_partway (ops : List Op) (w : World) (hr : Reach anyOp ops w)
    (hlive : w.pool_deleted = false) (N K j : Nat) (env : Nat → BufEnv)
    (buffer : Nat) (b : XvbmBuffer) (hb : w.deref buffer = some b)
    (hN : w.pool.m_num_buffers = (N : Int)) (hK : (N : Int) + (K : Int) ≤ INT32_MAX)
    (hj : j < K) (hok : ∀ i, i < j → EnvOK (env i)) (hfail : ¬ EnvOK (env j)) :
    ∃ w1, extend w (K : Int) env = some (none, w1) ∧
      xvbm_buffer_pool_extend w (some buffer) (K : Int) env = some (0, w1) ∧
      w1.pool.m_alloc_vector = w.pool.m_alloc_vector ++ List.range' w.heap.length j ∧
      w1.pool.m_free_list = w.pool.m_free_list ++ List.range' w.heap.length j ∧
      w1.pool.m_inuse_list = w.pool.m_inuse_list ∧
      (∀ i, i < j → ∃ c, w1.deref (w.heap.length + i) = some c ∧ c.m_ref_cnt = 0 ∧
        c.m_paddr = (env i).paddr ∧
        ((paddrs w1).Nodup →
          get_handle_by_paddr w1 (env i).paddr = some (w.heap.length + i))) ∧
      (∀ q c, w.deref q = some c → w1.deref q = some c) ∧
      w1.pool_deleted = false := by
  obtain ⟨hl, _⟩ := reach_live anyOp ops w hr hlive
  have hs := reach_size anyOp ops w hr hlive
  have hm := reach_map anyOp ops w hr hlive
  obtain ⟨w1, g1, g2, g3, g4⟩ := create_loop_prefix env j K w (N : Int) 0 hj hs
    (fun i hi => by rw [Nat.zero_add]; exact hok i hi) (by rw [Nat.zero_add]; exact hfail)
  have hm1 : MapOK w1 := by
    have := create_loop_map env K w (N : Int) 0 hl hm
    rwa [g1] at this
  have hext : extend w (K : Int) env = some (none, w1) := by
    unfold extend
    simp only [Int.toNat_ofNat, hN]
    have hr1 : ¬ ((N : Int) + (K : Int) < INT32_MIN ∨ INT32_MAX < (N : Int) + (K : Int)) := by
      unfold INT32_MIN
      unfold INT32_MAX at hK ⊢
      omega
    rw [if_neg hr1, g1]
  obtain ⟨_, hin, _, _, hdel⟩ := extend_inv w w1 (K : Int) env _ hl hext
  obtain ⟨_, hown, _⟩ := hl.owner buffer b hb
  refine ⟨w1, hext, ?_, g2, g3, hin, ?_, extend_keeps w w1 (K : Int) env _ hext,
    hdel.trans hlive⟩
  · simp only [xvbm_buffer_pool_extend, hb, hown, poolLive_self w hlive, if_true, hext]
  · intro i hi
    obtain ⟨c, e1, e2, e3, _, _⟩ := g4 i hi
    rw [Nat.zero_add] at e3
    refine ⟨c, e1, e2, e3, fun hdist => ?_⟩
    rw [← e3]
    refine lookup_of_map w1 hm1 hdist _ ?_ c e1
    rw [g2, List.mem_append, List.mem_range']
    exact Or.inr ⟨i, hi, by omega⟩

/-- C14, witness: a pool of one buffer extended by three buffers, where the
third creation fails. -/
theorem C14_witness :
    ∃ w1, extend (freshPool 1) ((3 : Nat) : Int) (failEnv 1 2) = some (none, w1) ∧
      xvbm_buffer_pool_extend (freshPool 1) (some 0) ((3 : Nat) : Int) (failEnv 1 2) =
        some (0, w1) ∧
      w1.pool.m_alloc_vector =
        (freshPool 1).pool.m_alloc_vector ++ List.range' (freshPool 1).heap.length 2 ∧
      w1.pool.m_free_list =
        (freshPool 1).pool.m_free_list ++ List.range' (freshPool 1).heap.length 2 ∧
      w1.pool.m_inuse_list = (freshPool 1).pool.m_inuse_list ∧
      (∀ i, i < 2 → ∃ c, w1.deref ((freshPool 1).heap.length + i) = some c ∧
        c.m_ref_cnt = 0 ∧ c.m_paddr = (failEnv 1 2 i).paddr ∧
        ((paddrs w1).Nodup →
          get_handle_by_paddr w1 (failEnv 1 2 i).paddr =
            some ((freshPool 1).heap.length + i))) ∧
      (∀ q c, (freshPool 1).deref q = some c → w1.deref q = some c) ∧
      w1.pool_deleted = false :=
  C14_extend_fails_partway [] (freshPool 1) (reach_fresh 1 (Or.inl rfl)) (by decide) 1 3 2
    (failEnv 1 2) 0 (buffer0 0) (by decide) (by decide) (by decide) (by decide)
    (fun i hi => by
      have h : i = 0 ∨ i = 1 := by omega
      rcases h with h | h <;> subst h <;> decide)
    (by decide)

/-- C14 (counterexample): on a fresh pool of one buffer, an extension by two
buffers whose first creation succeeds and second fails (`N = 1`, `K = 2`,
`j = 1`): the call returns 0 and a subsequent
`xvbm_buffer_pool_num_buffers_get` returns 1, not `N + j = 2`, while the
created buffer is in the allocation sequence. -/
theorem C14_counterexample :
    (xvbm_buffer_pool_extend (freshPool 1) (some 0) 2 (failEnv 1 1)).map Prod.fst = some 0 ∧
    xvbm_buffer_pool_num_buffers_get (after 1 [Op.extend (some 0) 2 (failEnv 1 1)]) (some 0) =
      some 1 ∧
    (after 1 [Op.extend (some 0) 2 (failEnv 1 1)]).pool.m_alloc_vector = [0, 1] ∧
    EnvOK (failEnv 1 1 0) ∧ ¬ EnvOK (failEnv 1 1 1) := by
  refine ⟨by decide, by decide, by decide, by decide, by decide⟩
/-- C15 (amended): the `num_buffers` argument of `xvbm_buffer_pool_extend` is
the number of additional buffers. In every reachable state of a live pool
whose recorded buffer count `N` is the length of its allocation sequence, for
every requested `num_buffers = K` with `0 <= K < N`, `N + K <= 2^31 - 1` and a
device runtime whose calls succeed for the `K` creations, the call on any
buffer of the pool creates `K` buffer objects (so none exactly when `K = 0`)
and keeps the existing ones, makes the allocation sequence `N + K` long, sets
the recorded count to `N + K` and returns `N + K`. -/
theorem C15_extend_adds_num_buffers (ops : List Op) (w : World) (hr : Reach anyOp ops w)
    (hlive : w.pool_deleted = false) (N K : Nat) (env : Nat → BufEnv)
    (buffer : Nat) (b : XvbmBuffer) (hb : w.deref buffer = some b)
    (hN : w.pool.m_num_buffers = (N : Int)) (hA : w.pool.m_alloc_vector.length = N)
    (hKN : K < N) (hK : (N : Int) + (K : Int) ≤ INT32_MAX)
    (henv : ∀ k, k < K → EnvOK (env k)) :
    ∃ w1, xvbm_buffer_pool_extend w (some buffer) (K : Int) env =
        some (((N + K : Nat) : Int), w1) ∧
      w1.pool.m_alloc_vector.length = N + K ∧
      w1.heap.length = w.heap.length + K ∧
      xvbm_buffer_pool_num_buffers_get w1 (some buffer) = some ((N + K : Nat) : Int) ∧
      (∀ q c, w.deref q = some c → w1.deref q = some c) := by
  obtain ⟨hl, _⟩ := reach_live anyOp ops w hr hlive
  have hs := reach_size anyOp ops w hr hlive
  obtain ⟨w2, g1, g2, g3, _, g5, _⟩ := create_loop_ok env K w (N : Int) 0 hs
    (fun j hj => by rw [Nat.zero_add]; exact henv j hj)
  have hext : extend w (K : Int) env = some (some (((N + K : Nat) : Int)),
      { w2 with pool := { w2.pool with m_num_buffers := ((N + K : Nat) : Int) } }) := by
    unfold extend
    simp only [Int.toNat_ofNat, hN]
    have hr1 : ¬ ((N : Int) + (K : Int) < INT32_MIN ∨ INT32_MAX < (N : Int) + (K : Int)) := by
      unfold INT32_MIN
      unfold INT32_MAX at hK ⊢
      omega
    rw [if_neg hr1, g1]
    simp only [Nat.cast_add]
  obtain ⟨hl1, hin, _, haddr, hdel⟩ := extend_inv w _ (K : Int) env _ hl hext
  have hkeep := extend_keeps w _ (K : Int) env _ hext
  have hlive1 := hdel.trans hlive
  obtain ⟨_, hown, _⟩ := hl.owner buffer b hb
  have hfree : ({ w2 with pool := { w2.pool with
      m_num_buffers := ((N + K : Nat) : Int) } } : World).pool.m_free_list.length =
      w.pool.m_free_list.length + K := by
    show w2.pool.m_free_list.length = _
    rw [g2, List.length_append, List.length_range']
  refine ⟨{ w2 with pool := { w2.pool with m_num_buffers := ((N + K : Nat) : Int) } },
    ?_, ?_, g3, ?_, hkeep⟩
  · simp only [xvbm_buffer_pool_extend, hb, hown, poolLive_self w hlive, if_true, hext]
  · have h1 := hl1.perm.length_eq
    have h0 := hl.perm.length_eq
    rw [List.length_append, hfree, hin] at h1
    rw [List.length_append, hA] at h0
    omega
  · exact num_buffers_get_eq _ buffer b (hkeep buffer b hb)
      (hown.trans (congrArg some haddr.symm)) hlive1

/-- C15, witness: a fresh pool of two buffers, `xvbm_buffer_pool_extend(b, 1)`
with a succeeding device runtime. -/
theorem C15_witness :
    ∃ w1, xvbm_buffer_pool_extend (freshPool 2) (some 0) ((1 : Nat) : Int) (okEnvFrom 2) =
        some (((2 + 1 : Nat) : Int), w1) ∧
      w1.pool.m_alloc_vector.length = 2 + 1 ∧
      w1.heap.length = (freshPool 2).heap.length + 1 ∧
      xvbm_buffer_pool_num_buffers_get w1 (some 0) = some ((2 + 1 : Nat) : Int) ∧
      (∀ q c, (freshPool 2).deref q = some c → w1.deref q = some c) :=
  C15_extend_adds_num_buffers [] (freshPool 2) (reach_fresh 2 (Or.inr rfl)) (by decide) 2 1
    (okEnvFrom 2) 0 (buffer0 0) (by decide) (by decide) (by decide) (by decide) (by decide)
    (fun k hk => by
      have h : k = 0 := by omega
      subst h
      decide)

/-- C15 (counterexample): on a fresh pool of two buffers,
`xvbm_buffer_pool_extend(b, 1)` (requested `num_buffers = 1 < N = 2`) with a
succeeding device runtime returns 3, not 2; afterwards the allocation sequence
has three buffers and `xvbm_buffer_pool_num_buffers_get` returns 3. -/
theorem C15_counterexample :
    xvbm_buffer_pool_num_buffers_get (freshPool 2) (some 0) = some 2 ∧
    (freshPool 2).pool.m_alloc_vector.length = 2 ∧
    (xvbm_buffer_pool_extend (freshPool 2) (some 0) 1 (okEnvFrom 2)).map Prod.fst = some 3 ∧
    (after 2 [Op.extend (some 0) 1 (okEnvFrom 2)]).pool.m_alloc_vector.length = 3 ∧
    xvbm_buffer_pool_num_buffers_get (after 2 [Op.extend (some 0) 1 (okEnvFrom 2)]) (some 0) =
      some 3 := by
  refine ⟨by decide, by decide, by decide, by decide, by decide⟩

/-- C16 (the code evaluated): after an extension of a fresh pool of
one buffer by two buffers whose second creation fails,
`xvbm_buffer_pool_num_buffers_get` returns 1 while the allocation sequence has
two buffers; and on a fresh pool of two buffers `xvbm_buffer_pool_extend(b, -1)`
returns 1 and `xvbm_buffer_pool_num_buffers_get` goes from 2 to 1 while the
allocation sequence keeps its two buffers. -/
theorem C16_recorded_count_differs :
    xvbm_buffer_pool_num_buffers_get (after 1 [Op.extend (some 0) 2 (failEnv 1 1)]) (some 0) =
      some 1 ∧
    (after 1 [Op.extend (some 0) 2 (failEnv 1 1)]).pool.m_alloc_vector.length = 2 ∧
    xvbm_buffer_pool_num_buffers_get (freshPool 2) (some 0) = some 2 ∧
    (xvbm_buffer_pool_extend (freshPool 2) (some 0) (-1) okEnv).map Prod.fst = some 1 ∧
    xvbm_buffer_pool_num_buffers_get (after 2 [Op.extend (some 0) (-1) okEnv]) (some 0) =
      some 1 ∧
    (after 2 [Op.extend (some 0) (-1) okEnv]).pool.m_alloc_vector.length = 2 := by
  refine ⟨by decide, by decide, by decide, by decide, by decide, by decide⟩

/-- C17 (the code evaluated): a fresh pool of one buffer, an
extension by two buffers whose second creation fails, then an extension by one
buffer that succeeds: the allocation sequence is `[0, 1, 2]` (three buffers),
and the buffer at position 2 has `xvbm_buffer_get_id` equal to 1, the same as
the buffer at position 1. -/
theorem C17_identity_repeats_after_failed_extend :
    (after 1 [Op.extend (some 0) 2 (failEnv 1 1),
      Op.extend (some 0) 1 (okEnvFrom 2)]).pool.m_alloc_vector = [0, 1, 2] ∧
    xvbm_buffer_get_id (after 1 [Op.extend (some 0) 2 (failEnv 1 1),
      Op.extend (some 0) 1 (okEnvFrom 2)]) (some 0) = some 0 ∧
    xvbm_buffer_get_id (after 1 [Op.extend (some 0) 2 (failEnv 1 1),
      Op.extend (some 0) 1 (okEnvFrom 2)]) (some 1) = some 1 ∧
    xvbm_buffer_get_id (after 1 [Op.extend (some 0) 2 (failEnv 1 1),
      Op.extend (some 0) 1 (okEnvFrom 2)]) (some 2) = some 1 := by
  refine ⟨by decide, by decide, by decide, by decide⟩
/-- C26: for every buffer object whose reference count is 0 and every `size`,
`offset` with `size + offset` at most the buffer size, `read_buffer` returns 0
and leaves the whole state unchanged (no `xclReadBO` call is logged, host and
device memory are the same); so does `xvbm_buffer_read` on a handle of such a
buffer. -/
theorem C26_read_of_free_buffer_is_noop (w : World) (b : XvbmBuffer)
    (dst size offset : Nat) (rc : Int) (hcnt : b.m_ref_cnt = 0)
    (hsz : size + offset ≤ b.m_size) :
    b.read_buffer w dst size offset rc = some (0, w) ∧
    (∀ buffer, w.deref buffer = some b →
      xvbm_buffer_read w (some buffer) dst size offset rc = some (0, w)) := by
  have hread : b.read_buffer w dst size offset rc = some (0, w) := by
    unfold XvbmBuffer.read_buffer
    have h1 : ¬ b.m_size < (size + offset) % SIZE_MOD :=
      Nat.not_lt.2 (le_trans (Nat.mod_le _ _) hsz)
    rw [if_neg h1, if_neg (by rw [hcnt]; exact fun h => h rfl)]
  refine ⟨hread, fun buffer hb => ?_⟩
  simp only [xvbm_buffer_read, hb, Option.map_some', hread]

/-- C26, witness: the free buffer of a fresh pool of one buffer of one byte,
read of one byte at offset 0 to the unaligned address 5. -/
theorem C26_witness :
    (buffer0 0).read_buffer (freshPool 1) 5 1 0 0 = some (0, freshPool 1) ∧
    (∀ buffer, (freshPool 1).deref buffer = some (buffer0 0) →
      xvbm_buffer_read (freshPool 1) (some buffer) 5 1 0 0 = some (0, freshPool 1)) :=
  C26_read_of_free_buffer_is_noop (freshPool 1) (buffer0 0) 5 1 0 0 rfl (by decide)

/-- C27: for every pool state in which the decrement of `destroy_l` brings the
counter to 0 while the in-use list is not empty or the free list and the
allocation sequence differ in length, `destroy_l` returns false; the state
after it differs only in the counter: nothing is logged (no buffer is
released), the lists, the allocation sequence and the buffer objects are the
same, and the pool object is not deleted by `destroy`; an `entry_free` whose
call of `destroy_l` is made in such a state returns true with that state. -/
theorem C27_leak_guard_aborts_teardown (w : World) (h : leakGuard w) :
    destroy_l w = some (false, decCnt w) ∧
    destroy w = some (decCnt w) ∧
    (decCnt w).log = w.log ∧
    (decCnt w).heap = w.heap ∧
    (decCnt w).pool.m_free_list = w.pool.m_free_list ∧
    (decCnt w).pool.m_inuse_list = w.pool.m_inuse_list ∧
    (decCnt w).pool.m_alloc_vector = w.pool.m_alloc_vector ∧
    (decCnt w).pool.m_ref_cnt = 0 ∧
    (decCnt w).pool_deleted = w.pool_deleted ∧
    (∀ x buffer b, x.deref buffer = some b → b.m_ref_cnt = 1 →
      buffer ∈ x.pool.m_inuse_list → moved x buffer b = w →
      entry_free x buffer = some (true, decCnt w)) := by
  have hnot : ¬ tearsDown w := by
    unfold tearsDown
    unfold leakGuard at h
    intro ht
    rcases h.2 with h2 | h2
    · exact h2 ht.2.1
    · exact h2 ht.2.2
  have hd := destroy_l_of_not w hnot
  refine ⟨hd, ?_, rfl, rfl, rfl, rfl, rfl, h.1, rfl, ?_⟩
  · unfold destroy
    rw [hd]
    rfl
  · intro x buffer b hb h1 hm hx
    rw [entry_free_last x buffer b hb h1 hm, hx, hd]
    rfl

/-- C27, witness: a pool of one buffer after `entry_alloc` and one
`pool_destroy` (counter 1, one buffer in use); the second release takes the
error branch. -/
theorem C27_witness :
    destroy_l (after 1 [Op.entry_alloc, Op.pool_destroy]) =
      some (false, decCnt (after 1 [Op.entry_alloc, Op.pool_destroy])) ∧
    destroy (after 1 [Op.entry_alloc, Op.pool_destroy]) =
      some (decCnt (after 1 [Op.entry_alloc, Op.pool_destroy])) ∧
    (decCnt (after 1 [Op.entry_alloc, Op.pool_destroy])).log =
      (after 1 [Op.entry_alloc, Op.pool_destroy]).log ∧
    (decCnt (after 1 [Op.entry_alloc, Op.pool_destroy])).heap =
      (after 1 [Op.entry_alloc, Op.pool_destroy]).heap ∧
    (decCnt (after 1 [Op.entry_alloc, Op.pool_destroy])).pool.m_free_list =
      (after 1 [Op.entry_alloc, Op.pool_destroy]).pool.m_free_list ∧
    (decCnt (after 1 [Op.entry_alloc, Op.pool_destroy])).pool.m_inuse_list =
      (after 1 [Op.entry_alloc, Op.pool_destroy]).pool.m_inuse_list ∧
    (decCnt (after 1 [Op.entry_alloc, Op.pool_destroy])).pool.m_alloc_vector =
      (after 1 [Op.entry_alloc, Op.pool_destroy]).pool.m_alloc_vector ∧
    (decCnt (after 1 [Op.entry_alloc, Op.pool_destroy])).pool.m_ref_cnt = 0 ∧
    (decCnt (after 1 [Op.entry_alloc, Op.pool_destroy])).pool_deleted =
      (after 1 [Op.entry_alloc, Op.pool_destroy]).pool_deleted ∧
    (∀ x buffer b, x.deref buffer = some b → b.m_ref_cnt = 1 →
      buffer ∈ x.pool.m_inuse_list →
      moved x buffer b = after 1 [Op.entry_alloc, Op.pool_destroy] →
      entry_free x buffer = some (true, decCnt (after 1 [Op.entry_alloc, Op.pool_destroy]))) :=
  C27_leak_guard_aborts_teardown (after 1 [Op.entry_alloc, Op.pool_destroy]) (by decide)
theorem offsets_loop_eq (offsets : List Nat) (n : Nat) : ∀ (w : World) (first : Nat),
    first + n ≤ offsets.length →
    offsets_loop w offsets first n =
      some { w with pool := { w.pool with
        m_offsets := w.pool.m_offsets ++ (offsets.drop first).take n } } := by
  induction n with
  | zero => intro w first _; simp [offsets_loop]
  | succ n ih =>
    intro w first h
    have hlt : first < offsets.length := by omega
    unfold offsets_loop
    rw [List.getElem?_eq_getElem hlt]
    simp only
    rw [ih (set_offset w offsets[first]) (first + 1) (by omega)]
    simp only [set_offset, List.append_assoc, List.singleton_append]
    rw [List.drop_eq_getElem_cons hlt, List.take_succ_cons]

theorem offsets_set_eq (w : World) (offsets : List Nat) (n : Nat)
    (hlive : w.pool_deleted = false) (hn : n ≤ offsets.length) :
    xvbm_buffer_pool_offsets_set w (some w.pool_addr) offsets n =
      some { w with pool := { w.pool with
        m_offsets := w.pool.m_offsets ++ offsets.take n } } := by
  unfold xvbm_buffer_pool_offsets_set
  by_cases h0 : n = 0
  · subst h0; simp
  · rw [if_neg h0]
    simp only [poolLive_self w hlive, if_true]
    rw [offsets_loop_eq offsets n w 0 (by omega), List.drop_zero]

theorem offsets_set_spec (w : World) (offsets : List Nat) (n : Nat)
    (hlive : w.pool_deleted = false) (hn : n ≤ offsets.length) :
    ∃ w1, xvbm_buffer_pool_offsets_set w (some w.pool_addr) offsets n = some w1 ∧
      w1.pool.m_offsets = w.pool.m_offsets ++ offsets.take n ∧
      w1.pool_addr = w.pool_addr ∧ w1.pool_deleted = false ∧
      ∀ q, w1.deref q = w.deref q :=
  ⟨_, offsets_set_eq w offsets n hlive hn, rfl, rfl, hlive, fun _ => rfl⟩

theorem offset_get_eq (w : World) (buffer : Nat) (b : XvbmBuffer) (i : Nat)
    (hb : w.deref buffer = some b) (hown : b.m_p_handle = some w.pool_addr)
    (hlive : w.pool_deleted = false) :
    xvbm_buffer_pool_offset_get w (some buffer) i = w.pool.m_offsets[i]? := by
  simp only [xvbm_buffer_pool_offset_get, hb, hown, poolLive_self w hlive, if_true, get_offset]

/-- C24: for a live pool whose offset table is empty, an array `offs` and
`n <= |offs|`, `xvbm_buffer_pool_offsets_set(p, offs, n)` returns, and afterwards
every buffer `b` of the pool has `xvbm_buffer_pool_offset_get(b, i) = offs[i]`
for every `i < n`; a further call with `m <= |offs2|` offsets of `offs2`
returns and makes the table the concatenation: index `i < n` still gives
`offs[i]` and index `n + j`, `j < m`, gives `offs2[j]`. -/
theorem C24_offsets_set_then_get (w : World) (offs offs2 : List Nat) (n m : Nat)
    (hlive : w.pool_deleted = false) (hempty : w.pool.m_offsets = [])
    (hn : n ≤ offs.length) (hm : m ≤ offs2.length) :
    ∃ w1 w2, xvbm_buffer_pool_offsets_set w (some w.pool_addr) offs n = some w1 ∧
      xvbm_buffer_pool_offsets_set w1 (some w1.pool_addr) offs2 m = some w2 ∧
      w1.pool.m_offsets = offs.take n ∧
      w2.pool.m_offsets = offs.take n ++ offs2.take m ∧
      ∀ buffer b, w.deref buffer = some b → b.m_p_handle = some w.pool_addr →
        (∀ i, i < n → xvbm_buffer_pool_offset_get w1 (some buffer) i = offs[i]?) ∧
        (∀ i, i < n → xvbm_buffer_pool_offset_get w2 (some buffer) i = offs[i]?) ∧
        (∀ j, j < m → xvbm_buffer_pool_offset_get w2 (some buffer) (n + j) = offs2[j]?) := by
  obtain ⟨w1, h1, o1, a1, l1, d1⟩ := offsets_set_spec w offs n hlive hn
  obtain ⟨w2, h2, o2, a2, l2, d2⟩ := offsets_set_spec w1 offs2 m l1 hm
  rw [hempty, List.nil_append] at o1
  rw [o1] at o2
  have hlen : (offs.take n).length = n := by rw [List.length_take]; omega
  refine ⟨w1, w2, h1, h2, o1, o2, fun buffer b hb hown => ⟨?_, ?_, ?_⟩⟩
  · intro i hi
    rw [offset_get_eq w1 buffer b i (by rw [d1]; exact hb) (by rw [a1]; exact hown) l1, o1]
    exact List.getElem?_take_of_lt hi
  · intro i hi
    rw [offset_get_eq w2 buffer b i (by rw [d2, d1]; exact hb)
      (by rw [a2, a1]; exact hown) l2, o2,
      List.getElem?_append_left (by rw [hlen]; exact hi)]
    exact List.getElem?_take_of_lt hi
  · intro j hj
    rw [offset_get_eq w2 buffer b (n + j) (by rw [d2, d1]; exact hb)
      (by rw [a2, a1]; exact hown) l2, o2,
      List.getElem?_append_right (by rw [hlen]; omega), hlen, Nat.add_sub_cancel_left]
    exact List.getElem?_take_of_lt hj

/-- C24, witness: a fresh pool of two buffers, the offsets `[10, 20]` then
`[30]`. -/
theorem C24_witness :
    ∃ w1 w2, xvbm_buffer_pool_offsets_set (freshPool 2) (some (freshPool 2).pool_addr)
        [10, 20] 2 = some w1 ∧
      xvbm_buffer_pool_offsets_set w1 (some w1.pool_addr) [30] 1 = some w2 ∧
      w1.pool.m_offsets = [10, 20].take 2 ∧
      w2.pool.m_offsets = [10, 20].take 2 ++ [30].take 1 ∧
      ∀ buffer b, (freshPool 2).deref buffer = some b →
        b.m_p_handle = some (freshPool 2).pool_addr →
        (∀ i, i < 2 → xvbm_buffer_pool_offset_get w1 (some buffer) i = [10, 20][i]?) ∧
        (∀ i, i < 2 → xvbm_buffer_pool_offset_get w2 (some buffer) i = [10, 20][i]?) ∧
        (∀ j, j < 1 → xvbm_buffer_pool_offset_get w2 (some buffer) (2 + j) = [30][j]?) :=
  C24_offsets_set_then_get (freshPool 2) [10, 20] [30] 2 1 (by decide) (by decide)
    (by decide) (by decide)

/-- C25 (the code evaluated): on a fresh pool of one buffer whose offsets were
never set, `xvbm_buffer_pool_offset_get(b, 0)` has no defined result (the
unchecked `m_offsets[0]` reads an empty vector); after two offsets were set,
index 1 gives the second offset and index 2 again has no defined result,
whereas `get_buffer_handle(1)` on the same pool reports `std::out_of_range`. -/
theorem C25_offset_get_out_of_range :
    (freshPool 1).pool.m_offsets = [] ∧
    xvbm_buffer_pool_offset_get (freshPool 1) (some 0) 0 = none ∧
    (∃ w1, xvbm_buffer_pool_offsets_set (freshPool 1) (some 1) [10, 20] 2 = some w1 ∧
      w1.pool.m_offsets = [10, 20] ∧
      xvbm_buffer_pool_offset_get w1 (some 0) 1 = some 20 ∧
      xvbm_buffer_pool_offset_get w1 (some 0) 2 = none) ∧
    (get_buffer_handle (freshPool 1) 1).1 = VecAt.out_of_range :=
  ⟨by decide, by decide, ⟨_, rfl, by decide, by decide, by decide⟩, by decide⟩
/-- C28 (the code evaluated): `create_buffer(1)` on a fresh pool of one buffer.
When `xclAllocBO` returns `NULLBO` the call throws and the host region 8192 it
obtained from `posix_memalign` stays outstanding (no `free`); when the initial
write fails the call throws and the block 1 it obtained from `xclAllocBO`
stays outstanding (no `xclFreeBO`), the host region being freed. In both cases
the pool object (allocation sequence, address index, free list) is
unchanged. When `posix_memalign` fails nothing is outstanding. -/
theorem C28_create_buffer_failure_paths :
    outstandingPtrs (freshPool 1).log = [4096] ∧ outstandingBOs (freshPool 1).log = [0] ∧
    (create_buffer (freshPool 1) 1 { okEnv 1 with bo_handle := NULLBO }).1 = none ∧
    outstandingPtrs
      (create_buffer (freshPool 1) 1 { okEnv 1 with bo_handle := NULLBO }).2.log =
        [4096, 8192] ∧
    (create_buffer (freshPool 1) 1 { okEnv 1 with bo_handle := NULLBO }).2.pool =
      (freshPool 1).pool ∧
    (create_buffer (freshPool 1) 1 { okEnv 1 with write_rc := -1 }).1 = none ∧
    outstandingBOs
      (create_buffer (freshPool 1) 1 { okEnv 1 with write_rc := -1 }).2.log = [0, 1] ∧
    outstandingPtrs
      (create_buffer (freshPool 1) 1 { okEnv 1 with write_rc := -1 }).2.log = [4096] ∧
    (create_buffer (freshPool 1) 1 { okEnv 1 with write_rc := -1 }).2.pool =
      (freshPool 1).pool ∧
    (create_buffer (freshPool 1) 1 { okEnv 1 with memalign_rc := 12 }).1 = none ∧
    (create_buffer (freshPool 1) 1 { okEnv 1 with memalign_rc := 12 }).2 = freshPool 1 := by
  refine ⟨by decide, by decide, by decide, by decide, by decide, by decide, by decide,
    by decide, by decide, by decide, by decide⟩
theorem lookup_enumFrom_host (host : List (Nat × Nat)) (a : Nat) (bs : List Nat) :
    ∀ (k i : Nat) (hi : i < bs.length),
      (((bs.enumFrom k).map fun ib => (a + ib.1, ib.2)) ++ host).lookup (a + (k + i)) =
        some (bs.get ⟨i, hi⟩) := by
  induction bs with
  | nil => intro k i hi; exact absurd hi (Nat.not_lt_zero _)
  | cons x xs ih =>
    intro k i hi
    cases i with
    | zero =>
      simp [List.enumFrom, List.lookup_cons]
    | succ j =>
      have hne : (a + (k + (j + 1)) == a + k) = false := by
        simp only [beq_eq_false_iff_ne, ne_eq]; omega
      simp only [List.enumFrom, List.map_cons, List.cons_append, List.lookup_cons, hne]
      have := ih (k + 1) j (by simpa using hi)
      rw [show a + (k + 1 + j) = a + (k + (j + 1)) by omega] at this
      rw [this]
      rfl

theorem hostLoad_hostStore (host : List (Nat × Nat)) (a : Nat) (bs : List Nat) :
    hostLoad (hostStore host a bs) a bs.length = bs := by
  apply List.ext_get
  · simp [hostLoad]
  · intro i h1 h2
    simp only [hostLoad, List.get_eq_getElem, List.getElem_map, List.getElem_range, hostRead,
      hostStore, List.enum]
    have := lookup_enumFrom_host host a bs 0 i h2
    rw [Nat.zero_add] at this
    rw [this]
    rfl

theorem lookup_enumFrom_dev (dev : List ((Nat × Nat) × Nat)) (bo off : Nat) (bs : List Nat) :
    ∀ (k i : Nat) (hi : i < bs.length),
      (((bs.enumFrom k).map fun ib => ((bo, off + ib.1), ib.2)) ++ dev).lookup
        (bo, off + (k + i)) = some (bs.get ⟨i, hi⟩) := by
  induction bs with
  | nil => intro k i hi; exact absurd hi (Nat.not_lt_zero _)
  | cons x xs ih =>
    intro k i hi
    cases i with
    | zero =>
      simp [List.enumFrom, List.lookup_cons]
    | succ j =>
      have hne : ((bo, off + (k + (j + 1))) == (bo, off + k)) = false := by
        simp only [beq_eq_false_iff_ne, ne_eq, Prod.mk.injEq, true_and]; omega
      simp only [List.enumFrom, List.map_cons, List.cons_append, List.lookup_cons, hne]
      have := ih (k + 1) j (by simpa using hi)
      rw [show off + (k + 1 + j) = off + (k + (j + 1)) by omega] at this
      rw [this]
      rfl

theorem devLoad_devStore (dev : List ((Nat × Nat) × Nat)) (bo off : Nat) (bs : List Nat) :
    devLoad (devStore dev bo off bs) bo off bs.length = bs := by
  apply List.ext_get
  · simp [devLoad]
  · intro i h1 h2
    simp only [devLoad, List.get_eq_getElem, List.getElem_map, List.getElem_range, devRead,
      devStore, List.enum]
    have := lookup_enumFrom_dev dev bo off bs 0 i h2
    rw [Nat.zero_add] at this
    rw [this]
    rfl

theorem hostLoad_length (host : List (Nat × Nat)) (a n : Nat) :
    (hostLoad host a n).length = n := by
  simp [hostLoad]

theorem devLoad_length (dev : List ((Nat × Nat) × Nat)) (bo off n : Nat) :
    (devLoad dev bo off n).length = n := by
  simp [devLoad]
theorem hostLoad_hostStore_of (host : List (Nat × Nat)) (a n : Nat) (bs : List Nat)
    (h : bs.length = n) : hostLoad (hostStore host a bs) a n = bs := by
  subst h; exact hostLoad_hostStore host a bs

theorem devLoad_devStore_of (dev : List ((Nat × Nat) × Nat)) (bo off n : Nat) (bs : List Nat)
    (h : bs.length = n) : devLoad (devStore dev bo off bs) bo off n = bs := by
  subst h; exact devLoad_devStore dev bo off bs

/-- A successful `write_buffer` within the buffer, from a source that is
4K-aligned or does not overlap the staging window: the block holds the source
bytes at the offset, and the pool and the buffer objects are unchanged. -/
theorem write_buffer_effect (b : XvbmBuffer) (w : World) (src size offset : Nat)
    (hsz : size + offset ≤ b.m_size)
    (hsrc : src % 4096 = 0 ∨ ¬ overlaps (b.m_hptr + offset) src size) :
    ∃ w1, b.write_buffer w src size offset 0 = some (0, w1) ∧ w1.core = w.core ∧
      devLoad w1.dev b.m_bo_handle offset size = hostLoad w.host src size := by
  unfold XvbmBuffer.write_buffer
  rw [if_neg (Nat.not_lt.2 (le_trans (Nat.mod_le _ _) hsz))]
  by_cases ha : src % 4096 = 0
  · rw [if_neg (by rw [ha]; exact fun h0 => h0 rfl)]
    refine ⟨(xclWriteBO w b.m_bo_handle src size offset 0).2,
      congrArg some (Prod.ext (fst_xclWriteBO _ _ _ _ _ _) rfl),
      core_xclWriteBO _ _ _ _ _ _, ?_⟩
    simp only [xclWriteBO, if_true, World.emit]
    exact devLoad_devStore_of _ _ _ _ _ (hostLoad_length _ _ _)
  · have hov : ¬ overlaps (b.m_hptr + offset) src size := hsrc.resolve_left ha
    obtain ⟨x, hm, hhost, hcore, hdev⟩ : ∃ x, memcpy w (b.m_hptr + offset) src size = some x ∧
        x.host = hostStore w.host (b.m_hptr + offset) (hostLoad w.host src size) ∧
        x.core = w.core ∧ x.dev = w.dev := by
      unfold memcpy
      rw [if_neg hov]
      exact ⟨_, rfl, rfl, rfl, rfl⟩
    rw [if_pos ha, if_neg (Nat.not_lt.2 hsz)]
    simp only [hm]
    refine ⟨(xclWriteBO x b.m_bo_handle (b.m_hptr + offset) size offset 0).2,
      congrArg some (Prod.ext (fst_xclWriteBO _ _ _ _ _ _) rfl), ?_, ?_⟩
    · rw [core_xclWriteBO, hcore]
    · simp only [xclWriteBO, if_true, World.emit, hhost, hdev]
      rw [hostLoad_hostStore_of _ _ _ _ (hostLoad_length _ _ _)]
      exact devLoad_devStore_of _ _ _ _ _ (hostLoad_length _ _ _)

/-- A successful `read_buffer` of an allocated buffer within the buffer, to a
destination that is 4K-aligned or does not overlap the staging window: the
destination holds the bytes of the block at the offset. -/
theorem read_buffer_effect (b : XvbmBuffer) (w : World) (dst size offset : Nat)
    (hcnt : b.m_ref_cnt ≠ 0) (hsz : size + offset ≤ b.m_size)
    (hdst : dst % 4096 = 0 ∨ ¬ overlaps dst (b.m_hptr + offset) size) :
    ∃ w2, b.read_buffer w dst size offset 0 = some (0, w2) ∧
      hostLoad w2.host dst size = devLoad w.dev b.m_bo_handle offset size := by
  unfold XvbmBuffer.read_buffer
  rw [if_neg (Nat.not_lt.2 (le_trans (Nat.mod_le _ _) hsz)), if_pos hcnt]
  by_cases ha : dst % 4096 = 0
  · rw [if_neg (by rw [ha]; exact fun h0 => h0 rfl)]
    refine ⟨_, rfl, ?_⟩
    simp only [xclReadBO, if_true, World.emit]
    exact hostLoad_hostStore_of _ _ _ _ (devLoad_length _ _ _ _)
  · have hov : ¬ overlaps dst (b.m_hptr + offset) size := hdst.resolve_left ha
    rw [if_pos ha, if_neg (Nat.not_lt.2 hsz)]
    simp only [xclReadBO, if_true, World.emit, memcpy, if_neg hov]
    refine ⟨_, rfl, ?_⟩
    simp only []
    rw [hostLoad_hostStore_of _ _ _ _ (devLoad_length _ _ _ _)]
    exact hostLoad_hostStore_of _ _ _ _ (devLoad_length _ _ _ _)

/-- C21 (amended): with the device runtime as a byte store whose transfers
succeed (`rc = 0`), for every buffer object with reference count at least 1,
every `size` and `offset` with `size + offset` at most the buffer size, and
every source and destination pointer that is 4K-aligned or whose `size` bytes
do not overlap the staging window of `size` bytes at `m_hptr + offset`,
`xvbm_buffer_write(src, size, offset)` followed by `xvbm_buffer_read(dst, size,
offset)` both return 0 and afterwards the `size` bytes at `dst` are the `size`
bytes that were at `src`. -/
theorem C21_write_read_roundtrip (w : World) (buffer : Nat) (b : XvbmBuffer)
    (src dst size offset : Nat) (hb : w.deref buffer = some b) (hcnt : 1 ≤ b.m_ref_cnt)
    (hsz : size + offset ≤ b.m_size)
    (hsrc : src % 4096 = 0 ∨ ¬ overlaps (b.m_hptr + offset) src size)
    (hdst : dst % 4096 = 0 ∨ ¬ overlaps dst (b.m_hptr + offset) size) :
    ∃ w1 w2, xvbm_buffer_write w (some buffer) src size offset 0 = some (0, w1) ∧
      xvbm_buffer_read w1 (some buffer) dst size offset 0 = some (0, w2) ∧
      hostLoad w2.host dst size = hostLoad w.host src size := by
  obtain ⟨w1, e1, e2, e3⟩ := write_buffer_effect b w src size offset hsz hsrc
  obtain ⟨w2, f1, f2⟩ := read_buffer_effect b w1 dst size offset (by omega) hsz hdst
  have hb1 : w1.deref buffer = some b := by
    rw [deref_of_core _ _ e2]; exact hb
  refine ⟨w1, w2, ?_, ?_, ?_⟩
  · simp only [xvbm_buffer_write, hb, e1]
  · simp only [xvbm_buffer_read, hb1, f1]
  · rw [f2, e3]

/-- C21, witness: the allocated buffer of `callerWorld` (one byte, count 1),
one byte written from the aligned address 8192, which holds 7, and read back
to the unaligned address 12289, clear of the staging window at 4096. -/
theorem C21_witness :
    ∃ w1 w2, xvbm_buffer_write callerWorld (some 0) 8192 1 0 0 = some (0, w1) ∧
      xvbm_buffer_read w1 (some 0) 12289 1 0 0 = some (0, w2) ∧
      hostLoad w2.host 12289 1 = hostLoad callerWorld.host 8192 1 :=
  C21_write_read_roundtrip callerWorld 0 (buffer0 1) 8192 12289 1 0 (by decide) (by decide)
    (by decide) (by decide) (by decide)

/-- C21 (counterexample): on the allocated buffer of eight bytes of `pool8`
(count 1, host mirror at 4096), `size = 2` and `offset = 1` are within the
buffer, and the unaligned caller pointer 4097 is the staging address
`m_hptr + offset` itself: the `memcpy` of `xvbm_buffer_write` (and, for the
destination 4097, that of `xvbm_buffer_read`) is on overlapping regions, so
the call has no defined result. -/
theorem C21_counterexample :
    xvbm_buffer_get_size pool8 (some 0) = some 8 ∧
    xvbm_buffer_get_refcnt pool8 (some 0) = some 1 ∧
    (pool8.deref 0).map (fun b => b.m_hptr) = some 4096 ∧
    xvbm_buffer_write pool8 (some 0) 4097 2 1 0 = none ∧
    xvbm_buffer_read pool8 (some 0) 4097 2 1 0 = none := by
  refine ⟨by decide, by decide, by decide, by decide, by decide⟩

/-- C22 (amended): for every buffer whose pool handle points to the live pool,
`xvbm_buffer_refcnt_inc` on a buffer with reference count `r > 0` sets the
count to `r + 1` in `uint32_t` arithmetic (`r + 1` when `r + 1 < 2^32`, 0 when
`r = 2^32 - 1`) and changes nothing else: the pool object (lists and counter),
every other buffer, the memories and the log are the same; on a buffer with
count 0 it signals a logic error, the message on `std::cerr`, and never
increments: the count stays 0 and the pool object (so the free list with the
buffer in it), every buffer object and the memories are the same. -/
theorem C22_refcnt_inc_effect (w : World) (buffer : Nat) (b : XvbmBuffer) (p : Nat)
    (hb : w.deref buffer = some b) (hp : b.m_p_handle = some p)
    (hlive : w.poolLive p = true) :
    (0 < b.m_ref_cnt →
      ∃ w1, xvbm_buffer_refcnt_inc w (some buffer) = some w1 ∧
        w1.deref buffer = some { b with m_ref_cnt := incU32 b.m_ref_cnt } ∧
        (b.m_ref_cnt + 1 < UINT32_MOD → incU32 b.m_ref_cnt = b.m_ref_cnt + 1) ∧
        (b.m_ref_cnt = UINT32_MAX → incU32 b.m_ref_cnt = 0) ∧
        w1.pool = w.pool ∧ (∀ q, q ≠ buffer → w1.deref q = w.deref q) ∧
        w1.pool_deleted = w.pool_deleted ∧ w1.log = w.log ∧ w1.host = w.host ∧
        w1.dev = w.dev) ∧
    (b.m_ref_cnt = 0 →
      ∃ w1, xvbm_buffer_refcnt_inc w (some buffer) = some w1 ∧
        w1.log = w.log ++ [Event.cerr_refcnt_inc_free buffer] ∧
        w1.deref buffer = some b ∧ xvbm_buffer_get_refcnt w1 (some buffer) = some 0 ∧
        w1.pool = w.pool ∧ w1.heap = w.heap ∧ w1.pool_deleted = w.pool_deleted ∧
        w1.host = w.host ∧ w1.dev = w.dev) := by
  constructor
  · intro hpos
    refine ⟨w.setBuf buffer { b with m_ref_cnt := incU32 b.m_ref_cnt }, ?_,
      deref_setBuf_self w buffer b _ hb, ?_, ?_, rfl,
      fun q hq => deref_setBuf_ne w buffer q _ hq, rfl, rfl, rfl, rfl⟩
    · simp only [xvbm_buffer_refcnt_inc, hb, hp, hlive, if_true]
      rw [if_neg (by omega)]
    · intro h
      unfold incU32
      exact Nat.mod_eq_of_lt h
    · intro h
      rw [h]
      decide
  · intro h0
    refine ⟨w.emit (Event.cerr_refcnt_inc_free buffer), ?_, rfl, hb, ?_, rfl, rfl, rfl, rfl,
      rfl⟩
    · simp only [xvbm_buffer_refcnt_inc, hb, hp, hlive, if_true]
      rw [if_pos (by omega)]
    · show (w.deref buffer).map (fun b => b.m_ref_cnt) = some 0
      rw [hb, Option.map_some', h0]

/-- C22, witness: the allocated buffer (count 1) of a pool of one buffer, and
the free buffer (count 0) of a fresh pool of one buffer. -/
theorem C22_witness :
    (∃ w1, xvbm_buffer_refcnt_inc (after 1 [Op.entry_alloc]) (some 0) = some w1 ∧
      w1.deref 0 = some { buffer0 1 with m_ref_cnt := incU32 (buffer0 1).m_ref_cnt } ∧
      ((buffer0 1).m_ref_cnt + 1 < UINT32_MOD →
        incU32 (buffer0 1).m_ref_cnt = (buffer0 1).m_ref_cnt + 1) ∧
      ((buffer0 1).m_ref_cnt = UINT32_MAX → incU32 (buffer0 1).m_ref_cnt = 0) ∧
      w1.pool = (after 1 [Op.entry_alloc]).pool ∧
      (∀ q, q ≠ 0 → w1.deref q = (after 1 [Op.entry_alloc]).deref q) ∧
      w1.pool_deleted = (after 1 [Op.entry_alloc]).pool_deleted ∧
      w1.log = (after 1 [Op.entry_alloc]).log ∧ w1.host = (after 1 [Op.entry_alloc]).host ∧
      w1.dev = (after 1 [Op.entry_alloc]).dev) ∧
    (∃ w1, xvbm_buffer_refcnt_inc (freshPool 1) (some 0) = some w1 ∧
      w1.log = (freshPool 1).log ++ [Event.cerr_refcnt_inc_free 0] ∧
      w1.deref 0 = some (buffer0 0) ∧ xvbm_buffer_get_refcnt w1 (some 0) = some 0 ∧
      w1.pool = (freshPool 1).pool ∧ w1.heap = (freshPool 1).heap ∧
      w1.pool_deleted = (freshPool 1).pool_deleted ∧
      w1.host = (freshPool 1).host ∧ w1.dev = (freshPool 1).dev) :=
  ⟨(C22_refcnt_inc_effect (after 1 [Op.entry_alloc]) 0 (buffer0 1) 1 (by decide) rfl
      (by decide)).1 (by decide),
    (C22_refcnt_inc_effect (freshPool 1) 0 (buffer0 0) 1 (by decide) rfl (by decide)).2 rfl⟩

/-- C22 (counterexample): after `entry_alloc` and `2^32 - 2` calls of
`xvbm_buffer_refcnt_inc` the buffer of a one-buffer pool has reference count
`r = 2^32 - 1 > 0`; one more `xvbm_buffer_refcnt_inc` sets it to 0, not
`r + 1`. -/
theorem C22_counterexample :
    ∃ w w1, run (after 1 [Op.entry_alloc])
        (List.replicate 4294967294 (Op.refcnt_inc (some 0))) = some w ∧
      xvbm_buffer_get_refcnt w (some 0) = some 4294967295 ∧
      xvbm_buffer_refcnt_inc w (some 0) = some w1 ∧
      xvbm_buffer_get_refcnt w1 (some 0) = some 0 := by
  have hr := reach_alloc1 anyOp (fun _ => trivial)
  have hlive : (after 1 [Op.entry_alloc]).pool_deleted = false := by decide
  have hl := (reach_live _ _ _ hr hlive).1
  obtain ⟨w, h1, _, h3, h4, _, h6, _⟩ := run_inc_iter 0 4294967294 (after 1 [Op.entry_alloc])
    (buffer0 1) hlive hl (by decide) (by decide) (by decide)
  have h6b : w.deref 0 = some (buffer0 4294967295) := by rw [h6]; decide
  have hinc := public_refcnt_inc_eq w 0 _ h3 h4 h6b
  rw [if_neg (by decide)] at hinc
  refine ⟨w, _, h1, ?_, hinc, ?_⟩
  · simp only [xvbm_buffer_get_refcnt, h6b, Option.map_some']
    rfl
  · simp only [xvbm_buffer_get_refcnt, deref_setBuf_self w 0 _ _ h6b, Option.map_some']
    decide

/-- C23 (amended): in every reachable state of a live pool, for every buffer of
the pool whose reference count is 0, `entry_free` (and
`xvbm_buffer_pool_entry_free`) returns false and leaves the whole state
unchanged; the buffer is in the free list or in the in-use list, not in both,
and when it is in the free list it occurs there exactly once. -/
theorem C23_entry_free_of_zero_count (ops : List Op) (w : World) (hr : Reach anyOp ops w)
    (hlive : w.pool_deleted = false) (buffer : Nat) (b : XvbmBuffer)
    (hb : w.deref buffer = some b) (h0 : b.m_ref_cnt = 0) :
    entry_free w buffer = some (false, w) ∧
    xvbm_buffer_pool_entry_free w (some buffer) = some (false, w) ∧
    (buffer ∈ w.pool.m_free_list ∨ buffer ∈ w.pool.m_inuse_list) ∧
    ¬ (buffer ∈ w.pool.m_free_list ∧ buffer ∈ w.pool.m_inuse_list) ∧
    (buffer ∈ w.pool.m_free_list → w.pool.m_free_list.count buffer = 1) := by
  obtain ⟨hl, _⟩ := reach_live anyOp ops w hr hlive
  have hz := entry_free_zero w buffer b hb h0
  have hnd := hl.nodup_lists
  refine ⟨hz, by rw [public_entry_free_eq w buffer b hlive hl hb]; exact hz, ?_, ?_, ?_⟩
  · have := (hl.owner buffer b hb).1
    rw [← hl.perm.mem_iff] at this
    exact List.mem_append.1 this
  · rintro ⟨h1, h2⟩
    exact (List.nodup_append.1 hnd).2.2 h1 h2
  · intro h1
    exact List.count_eq_one_of_mem (List.nodup_append.1 hnd).1 h1

/-- C23, witness: the free buffer of a fresh pool of one buffer. -/
theorem C23_witness :
    entry_free (freshPool 1) 0 = some (false, freshPool 1) ∧
    xvbm_buffer_pool_entry_free (freshPool 1) (some 0) = some (false, freshPool 1) ∧
    (0 ∈ (freshPool 1).pool.m_free_list ∨ 0 ∈ (freshPool 1).pool.m_inuse_list) ∧
    ¬ (0 ∈ (freshPool 1).pool.m_free_list ∧ 0 ∈ (freshPool 1).pool.m_inuse_list) ∧
    (0 ∈ (freshPool 1).pool.m_free_list → (freshPool 1).pool.m_free_list.count 0 = 1) :=
  C23_entry_free_of_zero_count [] (freshPool 1) (reach_fresh 1 (Or.inl rfl)) (by decide) 0
    (buffer0 0) (by decide) rfl

/-- C23 (counterexample): after `entry_alloc` and `2^32 - 1` calls of
`xvbm_buffer_refcnt_inc` the buffer of a one-buffer pool has reference count 0
and is in the in-use list; `xvbm_buffer_pool_entry_free` returns false with the
state unchanged, and the free list, which is empty, does not contain the
buffer. -/
theorem C23_counterexample :
    ∃ w, run (after 1 [Op.entry_alloc])
        (List.replicate 4294967295 (Op.refcnt_inc (some 0))) = some w ∧
      w.pool_deleted = false ∧
      xvbm_buffer_get_refcnt w (some 0) = some 0 ∧
      xvbm_buffer_pool_entry_free w (some 0) = some (false, w) ∧
      w.pool.m_alloc_vector = [0] ∧ w.pool.m_inuse_list = [0] ∧ w.pool.m_free_list = [] := by
  have hr := reach_alloc1 anyOp (fun _ => trivial)
  have hlive : (after 1 [Op.entry_alloc]).pool_deleted = false := by decide
  have hl := (reach_live _ _ _ hr hlive).1
  obtain ⟨w, h1, h2, h3, h4, _, h6, _⟩ := run_inc_iter 0 4294967295 (after 1 [Op.entry_alloc])
    (buffer0 1) hlive hl (by decide) (by decide) (by decide)
  have h6b : w.deref 0 = some (buffer0 0) := by rw [h6]; decide
  refine ⟨w, h1, h3, ?_, ?_, by rw [h2]; decide, by rw [h2]; decide, by rw [h2]; decide⟩
  · simp only [xvbm_buffer_get_refcnt, h6b, Option.map_some']
    rfl
  · rw [public_entry_free_eq w 0 _ h3 h4 h6b]
    exact entry_free_zero w 0 _ h6b rfl
theorem create_buffer_handle (w w1 : World) (index : Int) (e : BufEnv) (n : Nat)
    (h : create_buffer w index e = (some n, w1)) : e.bo_handle ≠ NULLBO := by
  rw [create_buffer_eq] at h
  intro hbo
  split at h
  · simp at h
  · simp at h

/-- No buffer of a reachable live pool has the block handle `NULLBO`. -/
theorem reach_handles (G : World → Op → Prop) (ops : List Op) (w : World) (h : Reach G ops w)
    (hlive : w.pool_deleted = false) :
    ∀ q b, w.deref q = some b → b.m_bo_handle ≠ NULLBO := by
  refine reach_induct (fun x => ∀ q b, x.deref q = some b → b.m_bo_handle ≠ NULLBO)
    ?_ ?_ ?_ ?_ G ops w h hlive
  · intro d n size flags _ _ q b hb
    simp [newPool, World.deref] at hb
  · intro x x1 hx hsame q b1 hb1
    obtain ⟨b, hb, hstrip⟩ := same_deref x x1 hsame q b1 hb1
    rw [← (paddr_of_strip b b1 hstrip).2.2.2.1]
    exact hx q b hb
  · intro x i e r x1 _ hx hc q b hb
    cases r with
    | none =>
      obtain ⟨_, _, _, hh⟩ := create_buffer_none x x1 i e hc
      rw [deref_append_none x x1 hh] at hb
      exact hx q b hb
    | some n =>
      obtain ⟨_, _, _, _, hh⟩ := create_buffer_some x x1 i e n hc
      rw [deref_append_new x x1 _ hh] at hb
      split at hb
      · simp only [Option.some.injEq] at hb
        rw [← hb]
        exact create_buffer_handle x x1 i e n hc
      · exact hx q b hb
  · intro x n hx; exact hx

theorem nodup_length_le (l : List Nat) (n : Nat) (hn : l.Nodup) (hb : ∀ x ∈ l, x < n) :
    l.length ≤ n := by
  have := (List.subperm_of_subset hn (fun x hx => List.mem_range.2 (hb x hx))).length_le
  rwa [List.length_range] at this

theorem mem_boHandles (w : World) (l : List Nat) (h : Nat) (hh : h ∈ boHandles w l) :
    ∃ p b, p ∈ l ∧ w.deref p = some b ∧ b.m_bo_handle = h := by
  unfold boHandles at hh
  obtain ⟨p, hp, hm⟩ := List.mem_filterMap.1 hh
  cases hd : w.deref p with
  | none => rw [hd] at hm; simp at hm
  | some b =>
    rw [hd] at hm
    simp only [Option.map_some', Option.some.injEq] at hm
    exact ⟨p, b, hp, hd, hm⟩

/-- A pool whose buffers hold pairwise distinct `uint32_t` block handles has
fewer than `2^32 - 1` buffers in use. -/
theorem inuse_bound (G : World → Op → Prop) (ops : List Op) (w : World) (hr : Reach G ops w)
    (hlive : w.pool_deleted = false)
    (hdist : (boHandles w w.pool.m_alloc_vector).Nodup)
    (hrange : ∀ h ∈ boHandles w w.pool.m_alloc_vector, h < UINT32_MOD) :
    w.pool.m_free_list.length + w.pool.m_inuse_list.length = w.pool.m_alloc_vector.length ∧
    w.pool.m_alloc_vector.length ≤ 4294967295 := by
  obtain ⟨hl, _⟩ := reach_live G ops w hr hlive
  have hnull := reach_handles G ops w hr hlive
  constructor
  · rw [← List.length_append]; exact hl.perm.length_eq
  · rw [← boHandles_length w hl _ (fun p hp => hp)]
    apply nodup_length_le _ _ hdist
    intro h hh
    have h1 := hrange h hh
    obtain ⟨p, b, _, hb, hbh⟩ := mem_boHandles w _ h hh
    have h2 := hnull p b hb
    rw [hbh] at h2
    unfold UINT32_MOD at h1
    unfold NULLBO at h2
    omega
theorem decU32_eq_zero (x : Nat) (h : decU32 x = 0) : x = 1 := by
  unfold decU32 at h
  split at h
  · unfold UINT32_MAX at h; omega
  · omega

/-- C30: in every state of a live pool reachable from a successful create by
`entry_alloc`, `entry_free`, `xvbm_buffer_refcnt_inc`, `extend` and
`pool_destroy`, whose buffers hold pairwise distinct `uint32_t` block handles
(as the device runtime gives to live blocks), and in which the next call
brings the number of `pool_destroy` calls to at most one: when that call is
`pool_destroy`, or an `entry_free` that moves its buffer to the free list, and
the decrement of `destroy_l` brings the counter to 0, then in the state in
which `destroy_l` runs the in-use list is empty and the free list is as long
as the allocation sequence; the error branch of `destroy_l` is not taken. -/
theorem C30_leak_guard_unreachable (ops : List Op) (w : World) (hr : Reach anyOp ops w)
    (hlive : w.pool_deleted = false)
    (hdist : (boHandles w w.pool.m_alloc_vector).Nodup)
    (hrange : ∀ h ∈ boHandles w w.pool.m_alloc_vector, h < UINT32_MOD) :
    (destroyCount (Op.pool_destroy :: ops) ≤ 1 →
      (decU32 w.pool.m_ref_cnt = 0 →
        w.pool.m_inuse_list.length = 0 ∧
        w.pool.m_free_list.length = w.pool.m_alloc_vector.length) ∧
      ¬ leakGuard w) ∧
    (∀ buffer b, destroyCount (Op.entry_free (some buffer) :: ops) ≤ 1 →
      w.deref buffer = some b → b.m_ref_cnt = 1 → buffer ∈ w.pool.m_inuse_list →
      entry_free w buffer =
        (destroy_l (moved w buffer b)).map (fun r => (true, deleteThis r.1 r.2)) ∧
      (decU32 (moved w buffer b).pool.m_ref_cnt = 0 →
        (moved w buffer b).pool.m_inuse_list.length = 0 ∧
        (moved w buffer b).pool.m_free_list.length =
          (moved w buffer b).pool.m_alloc_vector.length) ∧
      ¬ leakGuard (moved w buffer b)) := by
  obtain ⟨hl, hc⟩ := reach_live anyOp ops w hr hlive
  obtain ⟨hsum, hbound⟩ := inuse_bound anyOp ops w hr hlive hdist hrange
  obtain ⟨hc1, hc2⟩ := hc
  unfold UINT32_MOD at hc1 hc2
  constructor
  · intro hd
    have hd0 : destroyCount ops = 0 := by
      have : destroyCount (Op.pool_destroy :: ops) = destroyCount ops + 1 := by
        simp [destroyCount, Op.isDestroy]
      omega
    have key : decU32 w.pool.m_ref_cnt = 0 →
        w.pool.m_inuse_list.length = 0 ∧
        w.pool.m_free_list.length = w.pool.m_alloc_vector.length := by
      intro h0
      have h1 := decU32_eq_zero _ h0
      rw [h1, hd0] at hc1
      omega
    refine ⟨key, fun hg => ?_⟩
    obtain ⟨k1, k2⟩ := key hg.1
    rcases hg.2 with h | h
    · exact h k1
    · exact h k2
  · intro buffer b hd hb h1 hm
    have hd1 : destroyCount ops ≤ 1 := by
      have : destroyCount (Op.entry_free (some buffer) :: ops) = destroyCount ops := by
        simp [destroyCount, Op.isDestroy]
      omega
    have hlen : (w.pool.m_inuse_list.erase buffer).length + 1 = w.pool.m_inuse_list.length := by
      rw [List.length_erase_of_mem hm]
      have := List.length_pos_of_mem hm
      omega
    have key : decU32 (moved w buffer b).pool.m_ref_cnt = 0 →
        (moved w buffer b).pool.m_inuse_list.length = 0 ∧
        (moved w buffer b).pool.m_free_list.length =
          (moved w buffer b).pool.m_alloc_vector.length := by
      intro h0
      have h2 := decU32_eq_zero _ h0
      have h3 : w.pool.m_ref_cnt = 1 := h2
      rw [h3] at hc1
      show (w.pool.m_inuse_list.erase buffer).length = 0 ∧
        (w.pool.m_free_list ++ [buffer]).length = w.pool.m_alloc_vector.length
      rw [List.length_append, List.length_singleton]
      omega
    refine ⟨entry_free_last w buffer b hb h1 hm, key, fun hg => ?_⟩
    obtain ⟨k1, k2⟩ := key hg.1
    rcases hg.2 with h | h
    · exact h k1
    · exact h k2

/-- C30, witness: a pool of one buffer after `entry_alloc` and `pool_destroy`;
the `entry_free` of the buffer brings the counter to 0 with every buffer
free. -/
theorem C30_witness :
    (destroyCount (Op.pool_destroy :: [Op.pool_destroy, Op.entry_alloc]) ≤ 1 →
      (decU32 (after 1 [Op.entry_alloc, Op.pool_destroy]).pool.m_ref_cnt = 0 →
        (after 1 [Op.entry_alloc, Op.pool_destroy]).pool.m_inuse_list.length = 0 ∧
        (after 1 [Op.entry_alloc, Op.pool_destroy]).pool.m_free_list.length =
          (after 1 [Op.entry_alloc, Op.pool_destroy]).pool.m_alloc_vector.length) ∧
      ¬ leakGuard (after 1 [Op.entry_alloc, Op.pool_destroy])) ∧
    (∀ buffer b,
      destroyCount (Op.entry_free (some buffer) :: [Op.pool_destroy, Op.entry_alloc]) ≤ 1 →
      (after 1 [Op.entry_alloc, Op.pool_destroy]).deref buffer = some b → b.m_ref_cnt = 1 →
      buffer ∈ (after 1 [Op.entry_alloc, Op.pool_destroy]).pool.m_inuse_list →
      entry_free (after 1 [Op.entry_alloc, Op.pool_destroy]) buffer =
        (destroy_l (moved (after 1 [Op.entry_alloc, Op.pool_destroy]) buffer b)).map
          (fun r => (true, deleteThis r.1 r.2)) ∧
      (decU32 (moved (after 1 [Op.entry_alloc, Op.pool_destroy]) buffer b).pool.m_ref_cnt = 0 →
        (moved (after 1 [Op.entry_alloc, Op.pool_destroy]) buffer b).pool.m_inuse_list.length =
          0 ∧
        (moved (after 1 [Op.entry_alloc, Op.pool_destroy]) buffer b).pool.m_free_list.length =
          (moved (after 1 [Op.entry_alloc,
            Op.pool_destroy]) buffer b).pool.m_alloc_vector.length) ∧
      ¬ leakGuard (moved (after 1 [Op.entry_alloc, Op.pool_destroy]) buffer b)) :=
  C30_leak_guard_unreachable [Op.pool_destroy, Op.entry_alloc]
    (after 1 [Op.entry_alloc, Op.pool_destroy])
    (reach_run [] (freshPool 1) (reach_fresh 1 (Or.inl rfl))
      [Op.entry_alloc, Op.pool_destroy] _ (by decide))
    (by decide) (by decide) (by decide)
/-- C31: in every state reachable from a successful create by `entry_alloc`,
`entry_free`, `xvbm_buffer_refcnt_inc` and `extend` (no `pool_destroy`), the
pool is live and the free list followed by the in-use list is a permutation of
the allocation sequence: every buffer of the allocation sequence occurs
exactly once across the two lists, neither list has a duplicate, and every
existing buffer object is in the allocation sequence. -/
theorem C31_lists_partition_allocation (ops : List Op) (w : World)
    (hr : Reach noDestroy ops w) :
    w.pool_deleted = false ∧
    (w.pool.m_free_list ++ w.pool.m_inuse_list).Perm w.pool.m_alloc_vector ∧
    (∀ p ∈ w.pool.m_alloc_vector,
      (w.pool.m_free_list ++ w.pool.m_inuse_list).count p = 1) ∧
    w.pool.m_free_list.Nodup ∧ w.pool.m_inuse_list.Nodup ∧
    (∀ p, ¬ (p ∈ w.pool.m_free_list ∧ p ∈ w.pool.m_inuse_list)) ∧
    (∀ q b, w.deref q = some b → q ∈ w.pool.m_alloc_vector) := by
  have hlive := (reach_noDestroy noDestroy (fun _ _ h => h) ops w hr).2
  have hl := (reach_live _ ops w hr hlive).1
  have hnd := hl.nodup_lists
  refine ⟨hlive, hl.perm, ?_, (List.nodup_append.1 hnd).1, (List.nodup_append.1 hnd).2.1,
    fun p hp => (List.nodup_append.1 hnd).2.2 hp.1 hp.2, fun q b hb => (hl.owner q b hb).1⟩
  intro p hp
  exact List.count_eq_one_of_mem hnd ((hl.perm.mem_iff).2 hp)

/-- C31, witness: a pool of one buffer after an `extend` by two buffers whose
second creation fails, one `entry_alloc`, one `xvbm_buffer_refcnt_inc` and one
`entry_free`. -/
theorem C31_witness :
    (after 1 [Op.extend (some 0) 2 (failEnv 1 1), Op.entry_alloc, Op.refcnt_inc (some 0),
      Op.entry_free (some 0)]).pool_deleted = false ∧
    ((after 1 [Op.extend (some 0) 2 (failEnv 1 1), Op.entry_alloc, Op.refcnt_inc (some 0),
        Op.entry_free (some 0)]).pool.m_free_list ++
      (after 1 [Op.extend (some 0) 2 (failEnv 1 1), Op.entry_alloc, Op.refcnt_inc (some 0),
        Op.entry_free (some 0)]).pool.m_inuse_list).Perm
      (after 1 [Op.extend (some 0) 2 (failEnv 1 1), Op.entry_alloc, Op.refcnt_inc (some 0),
        Op.entry_free (some 0)]).pool.m_alloc_vector ∧
    (∀ p ∈ (after 1 [Op.extend (some 0) 2 (failEnv 1 1), Op.entry_alloc,
        Op.refcnt_inc (some 0), Op.entry_free (some 0)]).pool.m_alloc_vector,
      ((after 1 [Op.extend (some 0) 2 (failEnv 1 1), Op.entry_alloc, Op.refcnt_inc (some 0),
          Op.entry_free (some 0)]).pool.m_free_list ++
        (after 1 [Op.extend (some 0) 2 (failEnv 1 1), Op.entry_alloc, Op.refcnt_inc (some 0),
          Op.entry_free (some 0)]).pool.m_inuse_list).count p = 1) ∧
    (after 1 [Op.extend (some 0) 2 (failEnv 1 1), Op.entry_alloc, Op.refcnt_inc (some 0),
      Op.entry_free (some 0)]).pool.m_free_list.Nodup ∧
    (after 1 [Op.extend (some 0) 2 (failEnv 1 1), Op.entry_alloc, Op.refcnt_inc (some 0),
      Op.entry_free (some 0)]).pool.m_inuse_list.Nodup ∧
    (∀ p, ¬ (p ∈ (after 1 [Op.extend (some 0) 2 (failEnv 1 1), Op.entry_alloc,
        Op.refcnt_inc (some 0), Op.entry_free (some 0)]).pool.m_free_list ∧
      p ∈ (after 1 [Op.extend (some 0) 2 (failEnv 1 1), Op.entry_alloc,
        Op.refcnt_inc (some 0), Op.entry_free (some 0)]).pool.m_inuse_list)) ∧
    (∀ q b, (after 1 [Op.extend (some 0) 2 (failEnv 1 1), Op.entry_alloc,
        Op.refcnt_inc (some 0), Op.entry_free (some 0)]).deref q = some b →
      q ∈ (after 1 [Op.extend (some 0) 2 (failEnv 1 1), Op.entry_alloc,
        Op.refcnt_inc (some 0), Op.entry_free (some 0)]).pool.m_alloc_vector) :=
  C31_lists_partition_allocation
    [Op.entry_free (some 0), Op.refcnt_inc (some 0), Op.entry_alloc,
      Op.extend (some 0) 2 (failEnv 1 1)]
    (after 1 [Op.extend (some 0) 2 (failEnv 1 1), Op.entry_alloc, Op.refcnt_inc (some 0),
      Op.entry_free (some 0)])
    (reach_run_guard noDestroy [] (freshPool 1)
      (Reach.init 0 1 1 0 okEnv 1 _ (by decide) (by decide) rfl)
      [Op.extend (some 0) 2 (failEnv 1 1), Op.entry_alloc, Op.refcnt_inc (some 0),
        Op.entry_free (some 0)] _
      (fun op hop _ => by
        simp only [List.mem_cons, List.mem_singleton, List.not_mem_nil, or_false] at hop
        rcases hop with h | h | h | h <;> subst h <;> rfl)
      (by decide))
/-- A call other than `extend` and `xvbm_buffer_refcnt_inc` that leaves the
pool live makes no external call: the log is unchanged. -/
theorem step_log (w w1 : World) (op : Op) (hlive : w.pool_deleted = false)
    (hl : ListsOK w) (hs : step w op = some w1) (hlive1 : w1.pool_deleted = false)
    (hne : ∀ b n env, op ≠ Op.extend b n env) (hnr : ∀ h, op ≠ Op.refcnt_inc h) :
    w1.log = w.log := by
  cases op with
  | entry_alloc =>
    simp only [step, public_entry_alloc_eq w hlive, Option.map_eq_some'] at hs
    obtain ⟨⟨r, w2⟩, h1, h2⟩ := hs
    simp only at h2; subst h2
    cases hf : w.pool.m_free_list with
    | nil =>
      rw [entry_alloc_nil w hf] at h1
      simp only [Option.some.injEq, Prod.mk.injEq] at h1
      rw [← h1.2]
    | cons hd tl =>
      obtain ⟨b, hb⟩ := hl.valid hd (hl.mem_free w hd (by rw [hf]; exact List.mem_cons_self _ _))
      rw [entry_alloc_popped w hd tl b hf hb] at h1
      simp only [Option.some.injEq, Prod.mk.injEq] at h1
      rw [← h1.2]
      rfl
  | entry_free b_handle =>
    cases b_handle with
    | none =>
      simp [step, xvbm_buffer_pool_entry_free] at hs
      subst hs; rfl
    | some buffer =>
      cases hb : w.deref buffer with
      | none => simp [step, xvbm_buffer_pool_entry_free, hb] at hs
      | some b =>
        simp only [step, public_entry_free_eq w buffer b hlive hl hb] at hs
        rcases entry_free_cases w buffer b hl hb with ⟨_, h⟩ | ⟨h1, h⟩ | ⟨_, hm, _, h⟩ |
          ⟨_, _, _, w2, _, h⟩
        · rw [h] at hs; simp at hs; subst hs; rfl
        · rw [h] at hs; simp at hs; subst hs; rfl
        · rw [h] at hs; simp at hs; subst hs; rfl
        · rw [h] at hs; simp at hs; subst hs
          simp [deleteThis] at hlive1
  | refcnt_inc b_handle => exact absurd rfl (hnr b_handle)
  | extend b_handle n env => exact absurd rfl (hne b_handle n env)
  | pool_destroy =>
    simp only [step, public_destroy_eq w hlive] at hs
    rcases destroy_cases w hl with ⟨_, h⟩ | ⟨_, w2, _, _, h⟩
    · rw [h] at hs; simp at hs; subst hs; rfl
    · rw [h] at hs; simp at hs; subst hs
      simp [deleteThis] at hlive1

/-- After two `pool_destroy` calls, a sequence of `entry_alloc` and
`entry_free` calls keeps the pool live, makes no external call, and keeps the
allocation sequence. -/
theorem run_after_two (ops : List Op) : ∀ (w w1 : World), w.pool_deleted = false →
    ListsOK w → CntOK 2 w →
    (∀ op ∈ ops, op = Op.entry_alloc ∨ ∃ h, op = Op.entry_free h) →
    run w ops = some w1 →
    w1.pool_deleted = false ∧ ListsOK w1 ∧ CntOK 2 w1 ∧ w1.log = w.log ∧
      w1.pool.m_alloc_vector = w.pool.m_alloc_vector := by
  induction ops with
  | nil =>
    intro w w1 hlive hl hc _ hrun
    simp only [run, Option.some.injEq] at hrun
    subst hrun
    exact ⟨hlive, hl, hc, rfl, rfl⟩
  | cons op rest ih =>
    intro w w1 hlive hl hc hops hrun
    simp only [run] at hrun
    cases hs : step w op with
    | none => rw [hs] at hrun; simp at hrun
    | some x =>
      rw [hs] at hrun
      simp only [Option.some_bind] at hrun
      have hop := hops op (List.mem_cons_self _ _)
      have hnd : op.isDestroy = false := by
        rcases hop with h | ⟨h, hh⟩ <;> subst_vars <;> rfl
      have hne : ∀ b n env, op ≠ Op.extend b n env := by
        intro b n env he
        rcases hop with h | ⟨h, hh⟩ <;> rw [he] at * <;> cases ‹_›
      have hnr : ∀ h, op ≠ Op.refcnt_inc h := by
        intro b he
        rcases hop with h | ⟨h, hh⟩ <;> rw [he] at * <;> cases ‹_›
      have hxl : x.pool_deleted = false := by
        cases hx : x.pool_deleted with
        | false => rfl
        | true =>
          have := (step_teardown_info 2 w x op hlive hl hc hs hx).2.2
          rw [hnd] at this
          simp [UINT32_MOD] at this
      have hinv := step_inv 2 w x op hlive hl hc hs
      rw [hxl, hnd] at hinv
      simp only [Bool.false_eq_true, if_false, Nat.add_zero, false_or] at hinv
      obtain ⟨g1, g2, g3, g4, g5⟩ := ih x w1 hxl hinv.1 hinv.2
        (fun o ho => hops o (List.mem_cons_of_mem _ ho)) hrun
      refine ⟨g1, g2, g3, ?_, ?_⟩
      · rw [g4, step_log w x op hlive hl hs hxl hne hnr]
      · rw [g5, (step_same w x op hlive hl hs hxl hne).1]
theorem destroy_inuse (w : World) (hlive : w.pool_deleted = false)
    (hin : w.pool.m_inuse_list.length ≠ 0) :
    step w Op.pool_destroy = some (decCnt w) := by
  have hnot : ¬ tearsDown w := fun ht => hin ht.2.1
  simp only [step, public_destroy_eq w hlive]
  unfold destroy
  rw [destroy_l_of_not w hnot]
  rfl

/-- C32: with assertions compiled out, in a state reached without
`pool_destroy` in which `k >= 1` buffers are in use (the buffers of the pool
holding pairwise distinct `uint32_t` block handles), two calls of
`pool_destroy` return and leave the pool live with the lists and the log
unchanged and the counter at `k - 1`; when `k = 1` the second call takes the
error branch of `destroy_l`. In every state reached from there by `entry_alloc`
and `entry_free` calls the pool is live and the log is still the same (no
block is released), the counter is one below the number of in-use buffers, or
`2^32 - 1` when none is in use; an `entry_free` that moves its buffer to the
free list never tears down: when its decrement brings the counter to 0 the
error branch of `destroy_l` is taken, and when it releases the last in-use
buffer the counter goes from 0 to `2^32 - 1`. -/
theorem C32_double_destroy_never_tears_down (ops0 : List Op) (w0 : World)
    (hr : Reach noDestroy ops0 w0) (k : Nat)
    (hk : w0.pool.m_inuse_list.length = k) (hk1 : 1 ≤ k)
    (hdist : (boHandles w0 w0.pool.m_alloc_vector).Nodup)
    (hrange : ∀ h ∈ boHandles w0 w0.pool.m_alloc_vector, h < UINT32_MOD) :
    run w0 [Op.pool_destroy, Op.pool_destroy] = some (decCnt (decCnt w0)) ∧
    (decCnt (decCnt w0)).pool_deleted = false ∧
    (decCnt (decCnt w0)).pool.m_ref_cnt + 1 = k ∧
    (decCnt (decCnt w0)).pool.m_inuse_list = w0.pool.m_inuse_list ∧
    (decCnt (decCnt w0)).pool.m_free_list = w0.pool.m_free_list ∧
    (decCnt (decCnt w0)).log = w0.log ∧
    (k = 1 → leakGuard (decCnt w0)) ∧
    (∀ ops w, (∀ op ∈ ops, op = Op.entry_alloc ∨ ∃ h, op = Op.entry_free h) →
      run (decCnt (decCnt w0)) ops = some w →
      w.pool_deleted = false ∧ w.log = w0.log ∧
      (w.pool.m_inuse_list ≠ [] → w.pool.m_ref_cnt + 1 = w.pool.m_inuse_list.length) ∧
      (w.pool.m_inuse_list = [] → w.pool.m_ref_cnt = 4294967295) ∧
      (∀ buffer b, w.deref buffer = some b → b.m_ref_cnt = 1 →
        buffer ∈ w.pool.m_inuse_list →
        entry_free w buffer = some (true, decCnt (moved w buffer b)) ∧
        (decCnt (moved w buffer b)).pool_deleted = false ∧
        (decU32 (moved w buffer b).pool.m_ref_cnt = 0 → leakGuard (moved w buffer b)) ∧
        ((moved w buffer b).pool.m_inuse_list = [] →
          (moved w buffer b).pool.m_ref_cnt = 0 ∧
          (decCnt (moved w buffer b)).pool.m_ref_cnt = 4294967295))) := by
  obtain ⟨hd0, hlive⟩ := reach_noDestroy noDestroy (fun _ _ h => h) ops0 w0 hr
  obtain ⟨hl, hc⟩ := reach_live noDestroy ops0 w0 hr hlive
  rw [hd0] at hc
  obtain ⟨hsum, hbound⟩ := inuse_bound noDestroy ops0 w0 hr hlive hdist hrange
  have hl2 : ListsOK (decCnt (decCnt w0)) := (hl.lists_decCnt w0).lists_decCnt _
  have hc2 : CntOK 2 (decCnt (decCnt w0)) := (hc.cnt_decCnt 0 w0).cnt_decCnt 1 _
  have hin : w0.pool.m_inuse_list.length ≠ 0 := by omega
  have hcnt : (decCnt (decCnt w0)).pool.m_ref_cnt + 1 = k := by
    obtain ⟨c1, c2⟩ := hc2
    unfold UINT32_MOD at c1 c2
    have : (decCnt (decCnt w0)).pool.m_inuse_list.length = k := hk
    rw [this] at c1
    omega
  refine ⟨?_, hlive, hcnt, rfl, rfl, rfl, ?_, ?_⟩
  · simp only [run, destroy_inuse w0 hlive hin, Option.some_bind]
    rw [destroy_inuse (decCnt w0) hlive hin]
    rfl
  · intro h1
    refine ⟨?_, Or.inl hin⟩
    show (decCnt (decCnt w0)).pool.m_ref_cnt = 0
    omega
  · intro ops w hops hrun
    obtain ⟨g1, g2, g3, g4, g5⟩ := run_after_two ops (decCnt (decCnt w0)) w hlive hl2 hc2 hops hrun
    obtain ⟨c1, c2⟩ := g3
    unfold UINT32_MOD at c1 c2
    have hlen := g2.perm.length_eq
    rw [List.length_append, g5] at hlen
    have ha : (decCnt (decCnt w0)).pool.m_alloc_vector.length ≤ 4294967295 := hbound
    have hne : w.pool.m_inuse_list ≠ [] → w.pool.m_ref_cnt + 1 = w.pool.m_inuse_list.length := by
      intro hne
      have := List.length_pos.2 hne
      omega
    have hnil : w.pool.m_inuse_list = [] → w.pool.m_ref_cnt = 4294967295 := by
      intro hnil
      rw [hnil] at c1
      simp only [List.length_nil] at c1
      omega
    refine ⟨g1, g4, hne, hnil, ?_⟩
    intro buffer b hb h1 hm
    have hpos := List.length_pos_of_mem hm
    have hrel := hne (List.ne_nil_of_mem hm)
    have hlen1 : (moved w buffer b).pool.m_inuse_list.length + 1 =
        w.pool.m_inuse_list.length := by
      show (w.pool.m_inuse_list.erase buffer).length + 1 = _
      rw [List.length_erase_of_mem hm]
      omega
    have hcx : (moved w buffer b).pool.m_ref_cnt = w.pool.m_ref_cnt := rfl
    have hnot : ¬ tearsDown (moved w buffer b) := by
      intro ht
      have e1 := decU32_eq_zero _ ht.1
      have e2 := ht.2.1
      omega
    refine ⟨?_, g1, ?_, ?_⟩
    · rw [entry_free_last w buffer b hb h1 hm, destroy_l_of_not _ hnot]
      rfl
    · intro h0
      have e1 := decU32_eq_zero _ h0
      refine ⟨h0, Or.inl ?_⟩
      omega
    · intro hnil1
      have e0 : (moved w buffer b).pool.m_inuse_list.length = 0 := by rw [hnil1]; rfl
      have hz : (moved w buffer b).pool.m_ref_cnt = 0 := by omega
      refine ⟨hz, ?_⟩
      show decU32 (moved w buffer b).pool.m_ref_cnt = 4294967295
      rw [hz]
      rfl

/-- C32, witness: a pool of one buffer with its buffer allocated (`k = 1`). -/
theorem C32_witness :
    run (after 1 [Op.entry_alloc]) [Op.pool_destroy, Op.pool_destroy] = some (decCnt (decCnt
      (after 1 [Op.entry_alloc]))) ∧
    (decCnt (decCnt (after 1 [Op.entry_alloc]))).pool_deleted = false ∧
    (decCnt (decCnt (after 1 [Op.entry_alloc]))).pool.m_ref_cnt + 1 = 1 ∧
    (decCnt (decCnt (after 1 [Op.entry_alloc]))).pool.m_inuse_list = (after 1
      [Op.entry_alloc]).pool.m_inuse_list ∧
    (decCnt (decCnt (after 1 [Op.entry_alloc]))).pool.m_free_list = (after 1
      [Op.entry_alloc]).pool.m_free_list ∧
    (decCnt (decCnt (after 1 [Op.entry_alloc]))).log = (after 1 [Op.entry_alloc]).log ∧
    ((1 : Nat) = 1 → leakGuard (decCnt (after 1 [Op.entry_alloc]))) ∧
    (∀ ops w, (∀ op ∈ ops, op = Op.entry_alloc ∨ ∃ h, op = Op.entry_free h) →
      run (decCnt (decCnt (after 1 [Op.entry_alloc]))) ops = some w →
      w.pool_deleted = false ∧ w.log = (after 1 [Op.entry_alloc]).log ∧
      (w.pool.m_inuse_list ≠ [] → w.pool.m_ref_cnt + 1 = w.pool.m_inuse_list.length) ∧
      (w.pool.m_inuse_list = [] → w.pool.m_ref_cnt = 4294967295) ∧
      (∀ buffer b, w.deref buffer = some b → b.m_ref_cnt = 1 →
        buffer ∈ w.pool.m_inuse_list →
        entry_free w buffer = some (true, decCnt (moved w buffer b)) ∧
        (decCnt (moved w buffer b)).pool_deleted = false ∧
        (decU32 (moved w buffer b).pool.m_ref_cnt = 0 → leakGuard (moved w buffer b)) ∧
        ((moved w buffer b).pool.m_inuse_list = [] →
          (moved w buffer b).pool.m_ref_cnt = 0 ∧
          (decCnt (moved w buffer b)).pool.m_ref_cnt = 4294967295))) :=
  C32_double_destroy_never_tears_down [Op.entry_alloc] (after 1 [Op.entry_alloc])
    (reach_alloc1 noDestroy (fun _ => rfl)) 1 (by decide) (by decide) (by decide) (by decide)

/-- C29 (the code evaluated): the calls `xvbm_get_freelist_count`,
`xvbm_buffer_pool_num_buffers_get`, `xvbm_buffer_get_refcnt`,
`xvbm_buffer_pool_offsets_set` (with at least one offset) and
`xvbm_buffer_pool_offset_get` read or write the shared state of the pool
without holding `m_lock`, in every state; `entry_alloc`, `entry_free`,
`destroy`, `xvbm_buffer_refcnt_inc`, `get_handle_by_paddr` and
`get_buffer_handle` hold it for all their accesses, in every state. -/
theorem C29_accessors_take_no_lock (w : World) (buffer : Nat) (b : XvbmBuffer)
    (num_offsets : Nat) :
    guarded get_freelist_count_trace = false ∧
    guarded get_num_buffers_trace = false ∧
    guarded get_refcnt_trace = false ∧
    guarded (offsets_set_trace (num_offsets + 1)) = false ∧
    guarded get_offset_trace = false ∧
    guarded (entry_alloc_trace w) = true ∧
    guarded (entry_free_trace w buffer b) = true ∧
    guarded (destroy_trace w) = true ∧
    guarded (refcnt_inc_trace b) = true ∧
    guarded get_handle_by_paddr_trace = true ∧
    guarded get_buffer_handle_trace = true := by
  refine ⟨rfl, rfl, rfl, rfl, rfl, ?_, ?_, ?_, ?_, rfl, rfl⟩
  · unfold guarded entry_alloc_trace
    split <;> simp [guardedFrom]
  · unfold guarded entry_free_trace destroy_l_trace
    split_ifs <;> simp [guardedFrom]
  · unfold guarded destroy_trace destroy_l_trace
    split_ifs <;> simp [guardedFrom]
  · unfold guarded refcnt_inc_trace
    split <;> simp [guardedFrom]

end Xvbm
